import Mathlib

/-!
# saftbus event loop (`src/src/loop.cpp`)

A shallow embedding of `saftbus::Loop`, `saftbus::TimeoutSource` and
`saftbus::IoSource`, in the namespace `saftbus`; the client side of
`src/src/client_connection.cpp` follows in the namespace `mini_saftlib` and the
event decoding of `src/src/saft-mcbm-ro.cpp` in the namespace `saft_mcbm_ro`,
each with its own conventions stated there.

Modelling conventions.

* A `Source` object is identified by its address, a `Nat`.  The vectors of
  `Loop::Impl` hold addresses.  Object lifetime is not modelled: erasing an
  address from `sources` only stops the loop from referring to it.
* What is fixed at construction of an object (its dynamic type, its slot, the
  interval of a timer) lives in `Env`; the members that `loop.cpp` mutates
  (`next_time`, `pfd`) live in the state, indexed by address.
* `std::chrono::steady_clock::now()` and `poll(2)` are oracles of `Env`,
  indexed by the number of calls made so far, so every theorem quantifies over
  all clocks and all poll outcomes.
* Time points are nanosecond counts, durations in `std::chrono::milliseconds`
  are millisecond counts, both unbounded `Int` in the definitions of the loop,
  which agree with the source as long as no count leaves its 64 bit
  representation.  The timer methods and `Loop::iteration` are given once more
  on 64 bit counts in the namespace `saftbus.int64`, and what is claimed of the
  arithmetic of the timers is settled there.
* The `short` fields `events` and `revents` of `struct pollfd` are their 16 bit
  patterns as `Nat`; `a & b` is non-zero on the promoted `int`s exactly when
  the bitwise and of the patterns is non-zero.
* A slot is user code.  One invocation is described by a `SlotRun`: the calls
  it makes on the loop (`connect`, `remove`, a nested `iteration`, `quit`), in
  order, and the value it returns.  Which `SlotRun` happens may depend on the
  object, on all slot invocations so far and on the arguments.  `Loop::clear`
  and `Loop::run` are not among the calls a slot makes here.
* Recursion through nested `iteration` calls and the `do … while` of the timer
  is bounded by a fuel argument; `none` means the fuel ran out.
-/

namespace saftbus

/-- Count of `steady_clock` ticks (nanoseconds) in one millisecond. -/
def ns_per_ms : Int := 1000000

/-- The constant `no_timeout` of `Loop::iteration`: `std::chrono::milliseconds(-1)`. -/
def no_timeout : Int := -1

/-- Bit `POLLHUP` of `<poll.h>`. -/
def POLLHUP : Nat := 0x10

/-- The `struct pollfd` of `<poll.h>`. -/
structure pollfd where
  fd : Int
  events : Nat
  revents : Nat
deriving DecidableEq, Repr

/-- A call a slot makes on the loop that owns its Source. -/
inductive Call where
  | connect (source : Nat)
  | remove (s : Nat)
  | iteration (may_block : Bool)
  | quit
deriving DecidableEq, Repr

/-- One invocation of a slot: the loop calls it makes, then its return value. -/
structure SlotRun where
  calls : List Call
  result : Bool
deriving DecidableEq, Repr

/-- Record of one slot invocation: the Source whose `dispatch` made it, the
arguments (`none` for the `slot()` of a timer, `(fd, revents)` for an I/O
source) and what the slot does in this invocation. -/
structure SlotCall where
  source : Nat
  args : Option (Int × Nat)
  run : SlotRun
deriving DecidableEq, Repr

/-- Dynamic type of a Source object. -/
inductive Kind where
  | timeout
  | io
deriving DecidableEq, Repr

/-- Everything the loop does not change: the objects' construction data and the
two oracles. -/
structure Env where
  /-- dynamic type of the object at an address -/
  kind : Nat → Kind
  /-- behaviour of the object's slot, given the invocations so far and the arguments -/
  slot : Nat → List SlotCall → Option (Int × Nat) → SlotRun
  /-- member `TimeoutSource::interval`, in milliseconds -/
  interval : Nat → Int
  /-- value of the k-th `steady_clock::now()`, in nanoseconds -/
  clock : Nat → Int
  /-- the k-th `poll`: from the packed array and the timeout to the return value
  and the `revents` written at each index -/
  poll : Nat → List pollfd → Int → Int × (Nat → Nat)

/-- State: the five members of `Loop::Impl`, the mutable members of the Source
objects, the oracle counters and the record of slot invocations. -/
structure Loop where
  removed_sources : List Nat
  added_sources : List Nat
  sources : List Nat
  running : Bool
  running_depth : Int
  /-- member `TimeoutSource::next_time` of the object at an address, in nanoseconds -/
  next_time : Nat → Int
  /-- member `IoSource::pfd` of the object at an address -/
  pfd : Nat → pollfd
  clock_reads : Nat
  polls : Nat
  log : List SlotCall

/-- The constructor `Loop::Loop()` on a given heap. -/
def Loop.new (next_time : Nat → Int) (pfd : Nat → pollfd) : Loop :=
  { removed_sources := [], added_sources := [], sources := [], running := true,
    running_depth := 0, next_time := next_time, pfd := pfd, clock_reads := 0,
    polls := 0, log := [] }

/-- The call `steady_clock::now()`: the next reading of the clock oracle. -/
def now (env : Env) (st : Loop) : Int × Loop :=
  (env.clock st.clock_reads, { st with clock_reads := st.clock_reads + 1 })

/-- Method `Loop::connect`: the source is queued in `added_sources`. -/
def Loop.connect (st : Loop) (source : Nat) : Bool × Loop :=
  (true, { st with added_sources := st.added_sources ++ [source] })

/-- Method `Loop::remove`: the pointer is queued in `removed_sources`. -/
def Loop.remove (st : Loop) (s : Nat) : Loop :=
  { st with removed_sources := st.removed_sources ++ [s] }

/-- Method `Loop::quit`: assigns `false` to `running` and returns the assigned value. -/
def Loop.quit (st : Loop) : Bool × Loop :=
  (false, { st with running := false })

/-- Method `Source::destroy`: `loop->remove(this)`. -/
def Source.destroy (st : Loop) (this : Nat) : Loop :=
  st.remove this

/-- The assignment `p->revents = revents` to the `pollfd` member of the object at `p`. -/
def setRevents (st : Loop) (p : Nat) (revents : Nat) : Loop :=
  { st with pfd := Function.update st.pfd p { st.pfd p with revents := revents } }

/-- The `duration_cast<milliseconds>` of a nanosecond count: truncation toward zero. -/
def to_ms (ns : Int) : Int :=
  Int.tdiv ns ns_per_ms

/-- Method `TimeoutSource::prepare`: returns the result, the new value of the
reference argument `timeout_ms`, and the state (one clock reading later).  The
difference is taken on unbounded integers; `int64.TimeoutSource.prepare` takes
it on 64 bit counts. -/
def TimeoutSource.prepare (env : Env) (st : Loop) (this : Nat) (_timeout_ms : Int) :
    Bool × Int × Loop :=
  let (t, st1) := now env st
  if t ≥ st.next_time this then (true, 0, st1)
  else (false, to_ms (st.next_time this - t), st1)

/-- Method `TimeoutSource::check`.  The difference is taken on unbounded
integers; `int64.TimeoutSource.check` takes it on 64 bit counts. -/
def TimeoutSource.check (env : Env) (st : Loop) (this : Nat) : Bool × Loop :=
  let (t, st1) := now env st
  let ms := to_ms (st.next_time this - t)
  if ms ≤ 0 then (true, st1) else (false, st1)

/-- The `do { next_time += interval; } while (now >= next_time);` of
`TimeoutSource::dispatch`, `interval` already converted to clock ticks.  The
sums are taken on unbounded integers; `int64.catchUp` takes them on 64 bit
counts. -/
def catchUp : Nat → Int → Int → Int → Option Int
  | 0, _, _, _ => none
  | fuel + 1, t, interval, next_time =>
    let next_time := next_time + interval
    if t ≥ next_time then catchUp fuel t interval next_time else some next_time

/-- Constructor `IoSource::IoSource`: the `pollfd` the constructor fills in; `events` keeps
the low 16 bits of the `int` condition. -/
def IoSource.new (f : Int) (c : Nat) : pollfd :=
  { fd := f, events := c % 2 ^ 16, revents := 0 }

/-- Method `IoSource::prepare`: leaves `timeout_ms` as it is. -/
def IoSource.prepare (st : Loop) (this : Nat) (timeout_ms : Int) : Bool × Int × Loop :=
  if (st.pfd this).revents &&& (st.pfd this).events ≠ 0 then (true, timeout_ms, st)
  else (false, timeout_ms, st)

/-- Method `IoSource::check`. -/
def IoSource.check (st : Loop) (this : Nat) : Bool :=
  if (st.pfd this).revents &&& (st.pfd this).events ≠ 0 then true else false

/-- Virtual `Source::prepare`. -/
def Source.prepare (env : Env) (st : Loop) (this : Nat) (timeout_ms : Int) :
    Bool × Int × Loop :=
  match env.kind this with
  | .timeout => TimeoutSource.prepare env st this timeout_ms
  | .io => IoSource.prepare st this timeout_ms

/-- Virtual `Source::check`. -/
def Source.check (env : Env) (st : Loop) (this : Nat) : Bool × Loop :=
  match env.kind this with
  | .timeout => TimeoutSource.check env st this
  | .io => (IoSource.check st this, st)

/-- The registered descriptors `pfds[0 .. pfds_size)` of a Source, as the
addresses of the objects whose `pfd` member they point to: an `IoSource`
registers its own `pfd` in its constructor, a `TimeoutSource` registers none. -/
def Source.pfds (env : Env) (this : Nat) : List Nat :=
  match env.kind this with
  | .timeout => []
  | .io => [this]

/-- One step of the minimum search in the preparation loop of `Loop::iteration`. -/
def mergeTimeout (timeout timeout_source : Int) : Int :=
  if timeout_source ≠ no_timeout then
    if timeout = no_timeout then timeout_source else min timeout timeout_source
  else timeout

/-- Result of the preparation loop. -/
structure Prepared where
  timeout : Int
  pfds : List pollfd
  source_pfds : List Nat
  st : Loop

/-- The preparation loop of `Loop::iteration` over the live sources. -/
def prepareLoop (env : Env) : List Nat → Prepared → Prepared
  | [], acc => acc
  | source :: rest, acc =>
    let r := Source.prepare env acc.st source no_timeout
    let ptrs := Source.pfds env source
    prepareLoop env rest
      { timeout := mergeTimeout acc.timeout r.2.1,
        pfds := acc.pfds ++ ptrs.map r.2.2.pfd,
        source_pfds := acc.source_pfds ++ ptrs,
        st := r.2.2 }

/-- The timeout handed to the wait: `if (!may_block) timeout = 0`. -/
def clampTimeout (may_block : Bool) (timeout : Int) : Int :=
  if !may_block then 0 else timeout

/-- Copying `revents` back from the packed array to the owners, from index `i` on. -/
def writeback (revents : Nat → Nat) : Nat → List Nat → Loop → Loop
  | _, [], st => st
  | i, p :: rest, st =>
    writeback revents (i + 1) rest (setRevents st p (revents i))

/-- The polling / waiting part of `Loop::iteration`.  The clock is read twice
on either branch that waits; `sleep_for` changes nothing else. -/
def waitPhase (env : Env) (timeout : Int) (pfds : List pollfd) (source_pfds : List Nat)
    (st : Loop) : Loop :=
  if pfds.length > 0 then
    let poll_result := env.poll st.polls pfds timeout
    let st1 := { st with clock_reads := st.clock_reads + 2, polls := st.polls + 1 }
    if poll_result.1 > 0 then writeback poll_result.2 0 source_pfds st1 else st1
  else if timeout > 0 then { st with clock_reads := st.clock_reads + 2 }
  else st

/-- Execution of the loop calls of one slot invocation; `iter` is
`Loop::iteration` for a nested call. -/
def runCalls (iter : Bool → Loop → Option (Bool × Loop)) : List Call → Loop → Option Loop
  | [], st => some st
  | .connect source :: rest, st => runCalls iter rest (st.connect source).2
  | .remove s :: rest, st => runCalls iter rest (st.remove s)
  | .iteration may_block :: rest, st =>
    match iter may_block st with
    | none => none
    | some r => runCalls iter rest r.2
  | .quit :: rest, st => runCalls iter rest st.quit.2

/-- Invocation of the slot of `this` with the given arguments: it is recorded,
its loop calls are executed, its value is returned. -/
def invokeSlot (iter : Bool → Loop → Option (Bool × Loop)) (env : Env) (st : Loop)
    (this : Nat) (args : Option (Int × Nat)) : Option (Bool × Loop) :=
  let run := env.slot this st.log args
  let st0 := { st with log := st.log ++ [{ source := this, args := args, run := run }] }
  match runCalls iter run.calls st0 with
  | none => none
  | some st1 => some (run.result, st1)

/-- Method `TimeoutSource::dispatch`. -/
def TimeoutSource.dispatch (iter : Bool → Loop → Option (Bool × Loop)) (fuel : Nat)
    (env : Env) (st : Loop) (this : Nat) : Option (Bool × Loop) :=
  let (t, st1) := now env st
  match catchUp fuel t (env.interval this * ns_per_ms) (st1.next_time this) with
  | none => none
  | some next =>
    let st2 := { st1 with next_time := Function.update st1.next_time this next }
    match invokeSlot iter env st2 this none with
    | none => none
    | some (result, st3) =>
      some (result, if !result then Source.destroy st3 this else st3)

/-- Method `IoSource::dispatch`. -/
def IoSource.dispatch (iter : Bool → Loop → Option (Bool × Loop)) (env : Env) (st : Loop)
    (this : Nat) : Option (Bool × Loop) :=
  match invokeSlot iter env st this (some ((st.pfd this).fd, (st.pfd this).revents)) with
  | none => none
  | some (result, st1) =>
    let st2 := if !result then Source.destroy st1 this else st1
    some (result, setRevents st2 this 0)

/-- Virtual `Source::dispatch`. -/
def Source.dispatch (iter : Bool → Loop → Option (Bool × Loop)) (fuel : Nat) (env : Env)
    (st : Loop) (this : Nat) : Option (Bool × Loop) :=
  match env.kind this with
  | .timeout => TimeoutSource.dispatch iter fuel env st this
  | .io => IoSource.dispatch iter env st this

/-- The dispatching loop of `Loop::iteration` over the live sources, taken in the
order of the vector when the loop starts: the calls a slot can make here only
enqueue, so `sources` is not changed while the loop runs (`dispatchLoop_grows`). -/
def dispatchLoop (iter : Bool → Loop → Option (Bool × Loop)) (fuel : Nat) (env : Env) :
    List Nat → Loop → Option Loop
  | [], st => some st
  | source :: rest, st =>
    let c := Source.check env st source
    if c.1 then
      match Source.dispatch iter fuel env c.2 source with
      | none => none
      | some r => dispatchLoop iter fuel env rest r.2
    else dispatchLoop iter fuel env rest c.2

/-- The statement `d->sources.erase(std::remove(begin, end, removed_source), end)`. -/
def eraseSource (sources : List Nat) (removed_source : Nat) : List Nat :=
  sources.filter (fun s => s ≠ removed_source)

/-- The commit part of `Loop::iteration`: when `running_depth == 1` every queued
removal is applied, then every queued addition, and both queues are cleared. -/
def commit (st : Loop) : Loop :=
  if st.running_depth = 1 then
    { st with
      sources := st.removed_sources.foldl eraseSource st.sources ++ st.added_sources,
      removed_sources := [],
      added_sources := [] }
  else st

/-- The end of `Loop::iteration`, from the commit on: commit, `--running_depth`,
a last clock reading, and the return value `!d->sources.empty()`. -/
def finish (st : Loop) : Bool × Loop :=
  let st1 := commit st
  let st2 := { st1 with running_depth := st1.running_depth - 1,
                        clock_reads := st1.clock_reads + 1 }
  (!st2.sources.isEmpty, st2)

/-- Entry of `Loop::iteration`: the clock is read twice and `running_depth`
is incremented. -/
def enter (st : Loop) : Loop :=
  { st with clock_reads := st.clock_reads + 2, running_depth := st.running_depth + 1 }

/-- The preparation part of `Loop::iteration` entered in `st`. -/
def prepared (env : Env) (st : Loop) : Prepared :=
  prepareLoop env st.sources
    { timeout := no_timeout, pfds := [], source_pfds := [], st := enter st }

/-- The state of `Loop::iteration` when its dispatching loop starts: depth
incremented, preparation and wait done. -/
def beforeDispatch (env : Env) (may_block : Bool) (st : Loop) : Loop :=
  let p := prepared env st
  waitPhase env (clampTimeout may_block p.timeout) p.pfds p.source_pfds p.st

/-- Method `Loop::iteration`. -/
def iteration (env : Env) : Nat → Bool → Loop → Option (Bool × Loop)
  | 0, _, _ => none
  | fuel + 1, may_block, st =>
    let st1 := beforeDispatch env may_block st
    match dispatchLoop (fun b s => iteration env fuel b s) fuel env st1.sources st1 with
    | none => none
    | some st2 => some (finish st2)

/-! ## Definitions used to state the properties -/

/-- The timeouts that `prepare` reports, source by source, in the preparation
loop started in `st`; a source that leaves `timeout_source` unchanged reports
`no_timeout`. -/
def reportedTimeouts (env : Env) : List Nat → Loop → List Int
  | [], _ => []
  | source :: rest, st =>
    let r := Source.prepare env st source no_timeout
    r.2.1 :: reportedTimeouts env rest r.2.2

/-- The timeout with which `Loop::iteration` waits when entered in `st`. -/
def waitTimeout (env : Env) (may_block : Bool) (st : Loop) : Int :=
  clampTimeout may_block (prepared env st).timeout

/-- The pointers passed to `remove` in a list of calls, in order. -/
def removesOf : List Call → List Nat
  | [] => []
  | .remove s :: rest => s :: removesOf rest
  | _ :: rest => removesOf rest

/-- The sources passed to `connect` in a list of calls, in order. -/
def connectsOf : List Call → List Nat
  | [] => []
  | .connect s :: rest => s :: connectsOf rest
  | _ :: rest => connectsOf rest

/-- The call is a nested `iteration`. -/
def Call.isNested : Call → Bool
  | .iteration _ => true
  | _ => false

/-- The call is `connect` or `remove`. -/
def Call.isMutation : Call → Bool
  | .connect _ => true
  | .remove _ => true
  | _ => false

/-- One call applied at once to a Source set: the reading of "applied one at a
time, in submission order" against which the commit is compared. -/
def applyCall (sources : List Nat) : Call → List Nat
  | .connect s => sources ++ [s]
  | .remove s => eraseSource sources s
  | _ => sources

/-- No `remove(s)` comes after a `connect(s)` of the same source in the list. -/
def noRemoveAfterConnect : List Call → Bool
  | [] => true
  | .connect s :: rest => !(removesOf rest).contains s && noRemoveAfterConnect rest
  | _ :: rest => noRemoveAfterConnect rest

/-- The state after `n` consecutive calls of `Loop::iteration(may_block)`. -/
def iterations (env : Env) (fuel : Nat) (may_block : Bool) : Nat → Loop → Option Loop
  | 0, st => some st
  | n + 1, st =>
    match iteration env fuel may_block st with
    | none => none
    | some r => iterations env fuel may_block n r.2

/-- The return value of `poll` in `Loop::iteration` entered in `st`; `none` when
there is no descriptor and `poll` is not called. -/
def pollResult (env : Env) (may_block : Bool) (st : Loop) : Option Int :=
  let p := prepared env st
  if p.pfds.length > 0 then
    some (env.poll p.st.polls p.pfds (clampTimeout may_block p.timeout)).1
  else none

/-- An environment for the examples: object 3 is an I/O source, the others are
timers; the slot of 1 calls `connect(2)` and `remove(1)`, the slot of 5 returns
false, every other slot returns true; the clock stands at 0 and every `poll`
fails with -1. -/
def exEnv : Env :=
  { kind := fun s => if s = 3 then .io else .timeout,
    slot := fun s _ _ =>
      if s = 1 then ⟨[.connect 2, .remove 1], true⟩
      else if s = 5 then ⟨[], false⟩ else ⟨[], true⟩,
    interval := fun s => if s = 1 then 10 else 5,
    clock := fun _ => 0,
    poll := fun _ _ _ => (-1, fun _ => 0) }

/-- A fresh loop whose live sources are `srcs`; every timer is due at time 0 and
every `pollfd` is as `IoSource(slot, 0, 1)` constructs it. -/
def exLoop (srcs : List Nat) : Loop :=
  { Loop.new (fun _ => 0) (fun _ => IoSource.new 0 1) with sources := srcs }

/-- The invocation `e` asks for the removal of `s`: its slot calls `remove(s)`,
or it is the slot of `s` itself and returns false. -/
def SlotCall.removes (e : SlotCall) (s : Nat) : Prop :=
  Call.remove s ∈ e.run.calls ∨ (e.source = s ∧ e.run.result = false)

/-- The invocation `e` calls `connect(s)`. -/
def SlotCall.connects (e : SlotCall) (s : Nat) : Prop :=
  Call.connect s ∈ e.run.calls

/-- State `st1` differs from `st` by enqueued requests only: the live set and the
running depth are the same, the record of invocations and both queues have
grown at the end, the new removal requests are those of `R` and of the new
invocations, the new additions are those of `A` and of the new invocations,
and every new invocation is one of a slot of a live source. -/
structure Grows (env : Env) (R A : Nat → Prop) (st st1 : Loop) : Prop where
  sources : st1.sources = st.sources
  depth : st1.running_depth = st.running_depth
  queues : ∃ l r a, st1.log = st.log ++ l ∧
    st1.removed_sources = st.removed_sources ++ r ∧
    st1.added_sources = st.added_sources ++ a ∧
    (∀ s, s ∈ r ↔ R s ∨ ∃ e ∈ l, e.removes s) ∧
    (∀ s, s ∈ a ↔ A s ∨ ∃ e ∈ l, e.connects s) ∧
    (∀ e ∈ l, e.source ∈ st.sources ∧ ∃ h, env.slot e.source h e.args = e.run)

/-- The members of `Loop::Impl` other than `running_depth`, and the record of
invocations, are the same in both states. -/
structure SameImpl (st st1 : Loop) : Prop where
  sources : st1.sources = st.sources
  removed : st1.removed_sources = st.removed_sources
  added : st1.added_sources = st.added_sources
  running : st1.running = st.running
  log : st1.log = st.log

/-- No request. -/
def noReq : Nat → Prop := fun _ => False

/-- A nested `iteration` only enqueues: what `Loop::iteration` is shown to do
when it is entered at running depth 1 or more. -/
def Deferring (env : Env) (iter : Bool → Loop → Option (Bool × Loop)) : Prop :=
  ∀ may_block st r, 1 ≤ st.running_depth → iter may_block st = some r →
    Grows env noReq noReq st r.2

/-- The assignment `d->running = b`. -/
def setRunning (st : Loop) (b : Bool) : Loop :=
  { st with running := b }

/-- The `while (d->running)` loop of `Loop::run`, each round one
`iteration(true)`; `n` bounds the number of rounds and `none` means that the
bound, or the fuel of an iteration, ran out. -/
def runLoop (env : Env) (fuel : Nat) : Nat → Loop → Option Loop
  | 0, st => if st.running then none else some st
  | n + 1, st =>
    if st.running then
      match iteration env fuel true st with
      | none => none
      | some r => runLoop env fuel n (if !r.1 then setRunning r.2 false else r.2)
    else some st

/-- Method `Loop::run`. -/
def Loop.run (env : Env) (fuel n : Nat) (st : Loop) : Option Loop :=
  runLoop env fuel n (setRunning st true)

/-- From `st` to `st1` the record of invocations has grown by some `l`, and the
flag `running` is false afterwards when `Q` holds or a slot recorded in `l`
called `quit`, and is unchanged when neither is the case. -/
def Tracks (Q : Prop) (st st1 : Loop) : Prop :=
  ∃ l, st1.log = st.log ++ l ∧
    ((Q ∨ ∃ e ∈ l, Call.quit ∈ e.run.calls) → st1.running = false) ∧
    (¬ Q → (∀ e ∈ l, Call.quit ∉ e.run.calls) → st1.running = st.running)

/-- A nested `iteration` changes `running` only through a `quit` of a slot. -/
def Tracking (iter : Bool → Loop → Option (Bool × Loop)) : Prop :=
  ∀ may_block st r, iter may_block st = some r → Tracks False st r.2


/-- The example environment with one more timer, 6, whose slot calls `quit`. -/
def exEnvQuit : Env :=
  { exEnv with slot := fun s hist args => if s = 6 then ⟨[.quit], true⟩ else exEnv.slot s hist args }


/-! ### Exceptions

`loop.cpp` has no `try`, `catch` or `noexcept`.  The functions below are those
of `Loop::iteration` once more, with C++ exceptions added: a `prepare`, a
`check` or a slot may raise, as `Faults` says, and an exception leaves every
function it passes through at once.  A slot does not catch what a nested
`iteration` raises. -/

/-- How a call that may raise ends: it returns a value, or an exception leaves
it (with the state at that moment), or the fuel ran out. -/
inductive Outcome (α : Type) where
  | returned (a : α)
  | raised (st : Loop)
  | stuck

/-- The value returned, when the outcome is a return. -/
def Outcome.value {α : Type} : Outcome α → Option α
  | .returned a => some a
  | _ => none

/-- The live set and what the queues held are kept from `st` to `st1`. -/
structure Keeps (st st1 : Loop) : Prop where
  sources : st1.sources = st.sources
  removed : st.removed_sources <+: st1.removed_sources
  added : st.added_sources <+: st1.added_sources

/-- The example environment in which the slot of timer 1 calls `remove(4)` and
returns true. -/
def exEnvRemove : Env :=
  { exEnv with slot := fun s hist args => if s = 1 then ⟨[.remove 4], true⟩ else exEnv.slot s hist args }


/-! ### The descriptor array of a Source

The class `saftbus::Source` is declared in a header that is not among the
sources (`src/src/loop.hpp` is the header of another namespace and has no such
members).  From `loop.cpp`: `pfds` is a fixed-size array of `struct pollfd*`
and `pfds_size` an integer.  The capacity is the length of the list below; the
integer type of `pfds_size` is a parameter. -/

/-- The integer type of the member `pfds_size`: a signed type that holds every
pointer difference within the array, or an unsigned type of the given width. -/
inductive SizeType where
  | signed
  | unsigned (bits : Nat)
deriving DecidableEq, Repr

/-- Conversion of a pointer difference to the type of `pfds_size`. -/
def SizeType.convert : SizeType → Int → Int
  | .signed, v => v
  | .unsigned bits, v => v % 2 ^ bits

/-- The members `pfds` and `pfds_size` of a Source.  The list holds every slot
of the array, pointers as addresses; the slots from index `pfds_size` on hold
whatever was left in them. -/
structure SourcePfds where
  pfds : List Nat
  pfds_size : Int
deriving DecidableEq, Repr

/-- The descriptors a Source has registered: the range
`pfds.cbegin() .. pfds.cbegin() + pfds_size` over which `Loop::iteration` runs. -/
def SourcePfds.registered (src : SourcePfds) : List Nat :=
  src.pfds.take src.pfds_size.toNat

/-- Method `Source::add_poll`; `none` when `assert(pfds_size < pfds.size())`
fails.  The comparison is made on unsigned values, so a negative `pfds_size`
fails it as well. -/
def Source.add_poll (t : SizeType) (src : SourcePfds) (pfd : Nat) : Option SourcePfds :=
  if 0 ≤ src.pfds_size ∧ src.pfds_size < src.pfds.length then
    some { pfds := src.pfds.set src.pfds_size.toNat pfd,
           pfds_size := t.convert (src.pfds_size + 1) }
  else none

/-- The algorithm `std::remove(first, last, value)` on the whole array: the
elements other than `value` move to the front in their order; the slots behind
them, which the standard leaves unspecified, keep what they held.  Returns the
array and the index of the new end. -/
def stdRemove (pfds : List Nat) (value : Nat) : List Nat × Nat :=
  let kept := pfds.filter (fun p => p ≠ value)
  (kept ++ pfds.drop kept.length, kept.length)

/-- Method `Source::remove_poll`:
`pfds_size = pfds.begin() - std::remove(pfds.begin(), pfds.end(), &pfd)`. -/
def Source.remove_poll (t : SizeType) (src : SourcePfds) (pfd : Nat) : SourcePfds :=
  let r := stdRemove src.pfds pfd
  { pfds := r.1, pfds_size := t.convert ((0 : Int) - (r.2 : Int)) }

/-- Constructor `Source::Source()` on an array whose slots hold `slots`:
`pfds_size = 0`. -/
def Source.new (slots : List Nat) : SourcePfds :=
  { pfds := slots, pfds_size := 0 }


/-! ### The 64 bit tick counts

`steady_clock::time_point`, `steady_clock::duration` and
`std::chrono::milliseconds` hold a signed 64 bit count.  The definitions above
compute on unbounded integers and agree with the source as long as no count
leaves that range.  The definitions of the namespace `int64` below are the same
functions with every result of an addition, a subtraction or a conversion
reduced to 64 bits, as the compiled code does (for the C++ standard a signed
overflow is undefined behaviour); the functions that do no arithmetic on tick
counts are shared. -/

/-- Reduction of an integer to the range of a signed 64 bit count (two's
complement). -/
def wrap64 (x : Int) : Int :=
  (x + 2 ^ 63) % 2 ^ 64 - 2 ^ 63

/-- Conversion of the `long` that `timeout.count()` returns to the `int`
parameter of `poll`. -/
def wrap32 (x : Int) : Int :=
  (x + 2 ^ 31) % 2 ^ 32 - 2 ^ 31

namespace int64

/-- Method `TimeoutSource::prepare`, the difference `next_time - now` a 64 bit
count. -/
def TimeoutSource.prepare (env : Env) (st : Loop) (this : Nat) (_timeout_ms : Int) :
    Bool × Int × Loop :=
  let (t, st1) := now env st
  if t ≥ st.next_time this then (true, 0, st1)
  else (false, to_ms (wrap64 (st.next_time this - t)), st1)

/-- Method `TimeoutSource::check`, the difference `next_time - now` a 64 bit
count. -/
def TimeoutSource.check (env : Env) (st : Loop) (this : Nat) : Bool × Loop :=
  let (t, st1) := now env st
  let ms := to_ms (wrap64 (st.next_time this - t))
  if ms ≤ 0 then (true, st1) else (false, st1)

/-- The `do { next_time += interval; } while (now >= next_time);` of
`TimeoutSource::dispatch`, `interval` already converted to clock ticks and
every sum a 64 bit count. -/
def catchUp : Nat → Int → Int → Int → Option Int
  | 0, _, _, _ => none
  | fuel + 1, t, interval, next_time =>
    let next_time := wrap64 (next_time + interval)
    if t ≥ next_time then catchUp fuel t interval next_time else some next_time

/-- Virtual `Source::prepare`. -/
def Source.prepare (env : Env) (st : Loop) (this : Nat) (timeout_ms : Int) :
    Bool × Int × Loop :=
  match env.kind this with
  | .timeout => TimeoutSource.prepare env st this timeout_ms
  | .io => IoSource.prepare st this timeout_ms

/-- Virtual `Source::check`. -/
def Source.check (env : Env) (st : Loop) (this : Nat) : Bool × Loop :=
  match env.kind this with
  | .timeout => TimeoutSource.check env st this
  | .io => (IoSource.check st this, st)

/-- The preparation loop of `Loop::iteration` over the live sources. -/
def prepareLoop (env : Env) : List Nat → Prepared → Prepared
  | [], acc => acc
  | source :: rest, acc =>
    let r := Source.prepare env acc.st source no_timeout
    let ptrs := saftbus.Source.pfds env source
    prepareLoop env rest
      { timeout := mergeTimeout acc.timeout r.2.1,
        pfds := acc.pfds ++ ptrs.map r.2.2.pfd,
        source_pfds := acc.source_pfds ++ ptrs,
        st := r.2.2 }

/-- The polling / waiting part of `Loop::iteration`; `poll` receives the
timeout as an `int`. -/
def waitPhase (env : Env) (timeout : Int) (pfds : List pollfd) (source_pfds : List Nat)
    (st : Loop) : Loop :=
  if pfds.length > 0 then
    let poll_result := env.poll st.polls pfds (wrap32 timeout)
    let st1 := { st with clock_reads := st.clock_reads + 2, polls := st.polls + 1 }
    if poll_result.1 > 0 then writeback poll_result.2 0 source_pfds st1 else st1
  else if timeout > 0 then { st with clock_reads := st.clock_reads + 2 }
  else st

/-- Method `TimeoutSource::dispatch`; `next_time += interval` converts the
millisecond count of `interval` to clock ticks, a 64 bit multiplication. -/
def TimeoutSource.dispatch (iter : Bool → Loop → Option (Bool × Loop)) (fuel : Nat)
    (env : Env) (st : Loop) (this : Nat) : Option (Bool × Loop) :=
  let (t, st1) := now env st
  match catchUp fuel t (wrap64 (env.interval this * ns_per_ms)) (st1.next_time this) with
  | none => none
  | some next =>
    let st2 := { st1 with next_time := Function.update st1.next_time this next }
    match invokeSlot iter env st2 this none with
    | none => none
    | some (result, st3) =>
      some (result, if !result then Source.destroy st3 this else st3)

/-- Virtual `Source::dispatch`. -/
def Source.dispatch (iter : Bool → Loop → Option (Bool × Loop)) (fuel : Nat) (env : Env)
    (st : Loop) (this : Nat) : Option (Bool × Loop) :=
  match env.kind this with
  | .timeout => TimeoutSource.dispatch iter fuel env st this
  | .io => IoSource.dispatch iter env st this

/-- The dispatching loop of `Loop::iteration` over the live sources. -/
def dispatchLoop (iter : Bool → Loop → Option (Bool × Loop)) (fuel : Nat) (env : Env) :
    List Nat → Loop → Option Loop
  | [], st => some st
  | source :: rest, st =>
    let c := Source.check env st source
    if c.1 then
      match Source.dispatch iter fuel env c.2 source with
      | none => none
      | some r => dispatchLoop iter fuel env rest r.2
    else dispatchLoop iter fuel env rest c.2

/-- Method `Loop::iteration`. -/
def iteration (env : Env) : Nat → Bool → Loop → Option (Bool × Loop)
  | 0, _, _ => none
  | fuel + 1, may_block, st =>
    let p := prepareLoop env st.sources
      { timeout := no_timeout, pfds := [], source_pfds := [], st := enter st }
    let st1 := waitPhase env (clampTimeout may_block p.timeout) p.pfds p.source_pfds p.st
    match dispatchLoop (fun b s => iteration env fuel b s) fuel env st1.sources st1 with
    | none => none
    | some st2 => some (finish st2)

end int64

/-- An environment of timers with the given interval, in milliseconds, whose
slots make no call and return true, on a clock that stands at `now`. -/
def exEnvTimer (interval now : Int) : Env :=
  { kind := fun _ => .timeout,
    slot := fun _ _ _ => ⟨[], true⟩,
    interval := fun _ => interval,
    clock := fun _ => now,
    poll := fun _ _ _ => (0, fun _ => 0) }

/-- An environment in which the slot of timer 1, interval 10 ms, runs a nested
`iteration(false)` the first time it is invoked; the first five readings of the
clock are 0, the later ones are 15 ms. -/
def exEnvPump : Env :=
  { kind := fun _ => .timeout,
    slot := fun _ hist _ => if hist.isEmpty then ⟨[.iteration false], true⟩ else ⟨[], true⟩,
    interval := fun _ => 10,
    clock := fun k => if k ≤ 4 then 0 else 15000000,
    poll := fun _ _ _ => (0, fun _ => 0) }

/-- A loop whose live sources are `srcs`, all timers with `next_time` as given. -/
def exLoopAt (srcs : List Nat) (next_time : Int) : Loop :=
  { Loop.new (fun _ => next_time) (fun _ => IoSource.new 0 1) with sources := srcs }

/-- The assignment of `next` to the member `next_time` of the timer at `this`. -/
def setNextTime (st : Loop) (this : Nat) (next : Int) : Loop :=
  { st with next_time := Function.update st.next_time this next }


/-- The example environment in which the slot of the I/O source 3 returns false. -/
def exEnvIoFalse : Env :=
  { exEnv with slot := fun s hist args => if s = 3 then ⟨[], false⟩ else exEnv.slot s hist args }


end saftbus

namespace mini_saftlib

/-! # The client side (`src/src/client_connection.cpp`)

Conventions.

* `ClientConnection.send`, `ClientConnection.receive`, `Proxy.new` and
  `Proxy.destroy` follow the data on one thread as if each lock were granted at
  once; the `lock_guard` objects are followed in the section on locks, and the
  constructor and the destructor of a Proxy with their locks are in the
  namespace `locked`.
* `poll`, `read` and the other system calls are oracles: their results are
  arguments.
* An `int` and an `unsigned` put in a message are both a `Value.int`.
* `assert` is taken as enabled (no `NDEBUG`). -/

/-- Bit `POLLIN` of `<poll.h>`. -/
def POLLIN : Nat := 0x1

/-- Bit `POLLOUT` of `<poll.h>`. -/
def POLLOUT : Nat := 0x4

/-- Bit `POLLERR` of `<poll.h>`. -/
def POLLERR : Nat := 0x8

/-- Bit `POLLHUP` of `<poll.h>`. -/
def POLLHUP : Nat := 0x10

/-- Modelled from the spec: `saftbus.hpp`, which declares `Serializer` and
`Deserializer`, is not among the sources.  One value of the typed sequence a
message is made of: a fixed-width integer, a boolean or a string. -/
inductive Value where
  | int (n : Int)
  | bool (b : Bool)
  | string (s : String)
deriving DecidableEq, Repr

/-- Modelled from the spec: the class `Serializer` of `saftbus.hpp` is not among
the sources.  A Serializer accumulates a typed sequence of values. -/
structure Serializer where
  data : List Value
deriving DecidableEq, Repr

/-- Modelled from the spec: method `Serializer::put` of `saftbus.hpp`, which
appends one value to the sequence. -/
def Serializer.put (s : Serializer) (v : Value) : Serializer :=
  { data := s.data ++ [v] }

/-- Modelled from the spec: method `Serializer::write_to` of `saftbus.hpp`, which
emits the accumulated sequence as one message; the Serializer is taken to start
a new sequence afterwards. -/
def Serializer.write_to (s : Serializer) : List Value × Serializer :=
  (s.data, { data := [] })

/-- Modelled from the spec: the class `Deserializer` of `saftbus.hpp` is not
among the sources.  A Deserializer holds the values of one message that have not
been read yet. -/
structure Deserializer where
  data : List Value
deriving DecidableEq, Repr

/-- Modelled from the spec: method `Deserializer::read_from` of `saftbus.hpp`,
which reads one message; `message` is what the socket delivers, `none` when the
read fails, and then the content stays. -/
def Deserializer.read_from (d : Deserializer) (message : Option (List Value)) :
    Bool × Deserializer :=
  match message with
  | some m => (true, { data := m })
  | none => (false, d)

/-- Modelled from the spec: method `Deserializer::get` of `saftbus.hpp` for an
`int`: it yields the next value when that is an integer, and nothing otherwise. -/
def Deserializer.get_int (d : Deserializer) : Option Int × Deserializer :=
  match d.data with
  | .int n :: rest => (some n, { data := rest })
  | _ => (none, d)

/-- Modelled from the spec: method `Deserializer::get` of `saftbus.hpp` for a
`bool`. -/
def Deserializer.get_bool (d : Deserializer) : Option Bool × Deserializer :=
  match d.data with
  | .bool b :: rest => (some b, { data := rest })
  | _ => (none, d)

/-- What one call of `poll` on one descriptor does: its return value and the
`revents` it stores. -/
structure Polled where
  result : Int
  revents : Nat
deriving DecidableEq, Repr

/-- The members of `ClientConnection::Impl`, the mutexes left out. -/
structure ClientConnection where
  pfd : saftbus.pollfd
  client_id : Int
deriving DecidableEq, Repr

/-- The system calls of the `ClientConnection` constructor. -/
inductive Syscall where
  | socket
  | connect (path : String)
  | socketpair
  | sendfd (fd : Int)
  | close (fd : Int)
  | read (fd : Int)
deriving DecidableEq, Repr

/-- What the system calls of the `ClientConnection` constructor return. -/
structure Sys where
  socket : Int
  connect : Int
  socketpair : Int
  fd_pair : Int × Int
  sendfd : Int
  /-- number of bytes `read` returns; `sizeof(d->client_id)` is 4 -/
  read : Int
  /-- the value `read` stores in `d->client_id` -/
  client_id : Int

/-- Size of the member `sun_path` of `struct sockaddr_un` in `<sys/un.h>`. -/
def sun_path_size : Nat := 108

/-- The ways the `ClientConnection` constructor does not return a connection:
its `std::runtime_error`s, by message, and the `strcpy` of a name that with its
terminating zero does not fit `sun_path`, which writes past the array
(undefined behaviour, no exception). -/
inductive ConnectError where
  | empty_name
  | not_absolute (socketname : String)
  | cannot_create_socket
  | sun_path_overflow (socketname : String)
  | cannot_connect (socketname : String)
  | cannot_create_pair
  | cannot_send_pair
  | cannot_read_client_id
deriving DecidableEq, Repr

/-- Outcome of the `ClientConnection` constructor and the system calls it made. -/
structure Constructed where
  result : Except ConnectError ClientConnection
  calls : List Syscall

/-- The variable `socketname` of the constructor: the value of
`SAFTBUS_SOCKET_PATH` when `getenv` finds it, the argument otherwise. -/
def socketname (socket_name : String) (socketname_env : Option String) : String :=
  match socketname_env with
  | some e => e
  | none => socket_name

/-- Constructor `ClientConnection::ClientConnection`. -/
def ClientConnection.new (socket_name : String) (socketname_env : Option String)
    (sys : Sys) : Constructed :=
  let name := socketname socket_name socketname_env
  match name.data with
  | [] => { result := .error .empty_name, calls := [] }
  | c :: _ =>
    if c ≠ '/' then { result := .error (.not_absolute name), calls := [] }
    else if sys.socket ≤ 0 then
      { result := .error .cannot_create_socket, calls := [.socket] }
    else if name.utf8ByteSize ≥ sun_path_size then
      { result := .error (.sun_path_overflow name), calls := [.socket] }
    else if sys.connect ≠ 0 then
      { result := .error (.cannot_connect name), calls := [.socket, .connect name] }
    else if sys.socketpair ≠ 0 then
      { result := .error .cannot_create_pair, calls := [.socket, .connect name, .socketpair] }
    else if sys.sendfd = -1 then
      { result := .error .cannot_send_pair,
        calls := [.socket, .connect name, .socketpair, .sendfd sys.fd_pair.1] }
    else if sys.read ≠ 4 then
      { result := .error .cannot_read_client_id,
        calls := [.socket, .connect name, .socketpair, .sendfd sys.fd_pair.1,
          .close sys.fd_pair.1, .read sys.fd_pair.2] }
    else
      { result := .ok { pfd := { fd := sys.fd_pair.2, events := 0, revents := 0 },
                        client_id := sys.client_id },
        calls := [.socket, .connect name, .socketpair, .sendfd sys.fd_pair.1,
          .close sys.fd_pair.1, .read sys.fd_pair.2] }

/-- What `ClientConnection::send` leaves: its return value, the connection, the
Serializer, and the message written on the socket, if one was. -/
structure Sent where
  result : Int
  conn : ClientConnection
  serdes : Serializer
  written : Option (List Value)
deriving DecidableEq, Repr

/-- Method `ClientConnection::send`; `polled` is what its `poll` does. -/
def ClientConnection.send (c : ClientConnection) (serdes : Serializer) (_timeout_ms : Int)
    (polled : Polled) : Sent :=
  let c1 := { c with pfd := { c.pfd with events := POLLOUT, revents := polled.revents } }
  if polled.result > 0 then
    if polled.revents &&& POLLOUT ≠ 0 then
      { result := polled.result, conn := c1, serdes := serdes.write_to.2,
        written := some serdes.write_to.1 }
    else { result := polled.result, conn := c1, serdes := serdes, written := none }
  else { result := polled.result, conn := c1, serdes := serdes, written := none }

/-- What `ClientConnection::receive` leaves: its return value, the connection
and the Deserializer. -/
structure Received where
  result : Int
  conn : ClientConnection
  serdes : Deserializer
deriving DecidableEq, Repr

/-- Method `ClientConnection::receive`; `polled` is what its `poll` does and
`message` what the socket delivers to `read_from`. -/
def ClientConnection.receive (c : ClientConnection) (serdes : Deserializer)
    (_timeout_ms : Int) (polled : Polled) (message : Option (List Value)) : Received :=
  let c1 := { c with pfd := { c.pfd with events := POLLIN, revents := polled.revents } }
  if polled.result > 0 then
    if polled.revents &&& POLLIN ≠ 0 then
      { result := polled.result, conn := c1, serdes := (serdes.read_from message).2 }
    else { result := polled.result, conn := c1, serdes := serdes }
  else { result := polled.result, conn := c1, serdes := serdes }

/-- The members of `Proxy::Impl`, the pointer to the SignalGroup left out. -/
structure Proxy where
  saftlib_object_id : Int
  client_id : Int
  signal_group_id : Int
  send : Serializer
  received : Deserializer
deriving DecidableEq, Repr

/-- What the network does during one remote call of a Proxy: the `poll` of
`send`, the `poll` of `receive`, and the message `receive` reads. -/
structure Rpc where
  send_timeout : Int
  send_polled : Polled
  receive_timeout : Int
  receive_polled : Polled
  message : Option (List Value)

/-- The ways the `Proxy` constructor does not return: the `runtime_error`
"object path ... not found", or a reply in which a `get` finds no integer. -/
inductive ProxyError where
  | not_found (object_path : String)
  | malformed_reply
deriving DecidableEq, Repr

/-- What the `Proxy` constructor does: the content of `d->send` when `send` is
called, the message written, the connection afterwards, and the Proxy or the
error. -/
structure ProxyNew where
  request : List Value
  written : Option (List Value)
  conn : ClientConnection
  result : Except ProxyError Proxy

/-- Constructor `Proxy::Proxy` with every lock granted: what the constructor does
to the data.  The call `signal_group.send_fd(*this)` between `send` and
`receive` passes a descriptor and changes none of the data kept here.  The
constructor with its locks is `locked.Proxy.new`. -/
def Proxy.new (object_path : String) (conn : ClientConnection) (rpc : Rpc) : ProxyNew :=
  let send1 := (Serializer.put { data := [] } (.int 0)).put (.string object_path)
  let s := conn.send send1 rpc.send_timeout rpc.send_polled
  let r := s.conn.receive { data := [] } rpc.receive_timeout rpc.receive_polled rpc.message
  let g1 := r.serdes.get_int
  let g2 := g1.2.get_int
  let g3 := g2.2.get_int
  { request := send1.data, written := s.written, conn := r.conn,
    result :=
      match g1.1, g2.1, g3.1 with
      | some saftlib_object_id, some client_id, some signal_group_id =>
        if saftlib_object_id = 0 then .error (.not_found object_path)
        else .ok { saftlib_object_id := saftlib_object_id, client_id := client_id,
                   signal_group_id := signal_group_id, send := s.serdes, received := g3.2 }
      | _, _, _ => .error .malformed_reply }

/-- Method `Proxy::get_saftlib_object_id`. -/
def Proxy.get_saftlib_object_id (p : Proxy) : Int :=
  p.saftlib_object_id

/-- How the `Proxy` destructor ends: it completes, or `assert(result)` fails, or
no boolean could be read into the uninitialised `result`. -/
inductive Teardown where
  | completed
  | assertion_failed
  | indeterminate
deriving DecidableEq, Repr

/-- What the `Proxy` destructor does: the content of `d->send` when `send` is
called, the message written, the connection afterwards, and how it ends. -/
structure ProxyDestroyed where
  request : List Value
  written : Option (List Value)
  conn : ClientConnection
  outcome : Teardown
deriving DecidableEq, Repr

/-- Destructor `Proxy::~Proxy` with every lock granted: what the destructor does
to the data.  The destructor with its locks is `locked.Proxy.destroy`. -/
def Proxy.destroy (p : Proxy) (conn : ClientConnection) (rpc : Rpc) : ProxyDestroyed :=
  let send1 := (((((p.send.put (.int p.saftlib_object_id)).put (.int 0)).put (.int 0)).put
    (.int p.saftlib_object_id)).put (.int p.client_id)).put (.int p.signal_group_id)
  let s := conn.send send1 rpc.send_timeout rpc.send_polled
  let r := s.conn.receive p.received rpc.receive_timeout rpc.receive_polled rpc.message
  { request := send1.data, written := s.written, conn := r.conn,
    outcome :=
      match r.serdes.get_bool.1 with
      | some true => .completed
      | some false => .assertion_failed
      | none => .indeterminate }

/-- Method `Proxy::quit`: the content of `d->send` when `send` is called. -/
def Proxy.quit (p : Proxy) : List Value :=
  (((p.send.put (.int p.saftlib_object_id)).put (.int 0)).put (.int 1)).data

/-- An element of `SignalGroup::Impl::proxies`: the address of a Proxy and the
`saftlib_object_id` that Proxy holds. -/
structure RegisteredProxy where
  addr : Nat
  saftlib_object_id : Int
deriving DecidableEq, Repr

/-- One call `proxy->signal_dispatch(interface, d->received)`, with the content
of `d->received` at the call. -/
structure Dispatch where
  proxy : Nat
  interface : Int
  payload : List Value
deriving DecidableEq, Repr

/-- The members of `SignalGroup::Impl`, the mutexes left out, with the number of
polls made so far and the record of the `signal_dispatch` calls. -/
structure SignalGroup where
  pfd : saftbus.pollfd
  received : Deserializer
  proxies : List RegisteredProxy
  polls : Nat
  dispatched : List Dispatch
deriving DecidableEq, Repr

/-- The network and the subscribers as a SignalGroup meets them: what the k-th
`poll` does, what `read_from` reads after it (`none` when the read fails), and
what the `signal_dispatch` of a Proxy leaves in the Deserializer. -/
structure Net where
  poll : Nat → Polled
  message : Nat → Option (List Value)
  consume : Nat → Int → List Value → List Value

/-- How `wait_for_one_signal` ends: it returns a value, or `assert(false)`
fails, or the message holds no two integers to `get`. -/
inductive Waited where
  | returned (result : Int) (sg : SignalGroup)
  | assertion_failed (sg : SignalGroup)
  | malformed_message (sg : SignalGroup)
deriving DecidableEq, Repr

/-- The call `proxy->signal_dispatch(interface, d->received)`: it is recorded
with the content of `d->received`, of which the Proxy leaves what `consume` says. -/
def signalDispatch (net : Net) (proxy : RegisteredProxy) (interface : Int)
    (sg : SignalGroup) : SignalGroup :=
  { sg with
    dispatched := sg.dispatched ++
      [{ proxy := proxy.addr, interface := interface, payload := sg.received.data }],
    received := { data := net.consume proxy.addr interface sg.received.data } }

/-- The loop over `d->proxies` in `wait_for_one_signal`. -/
def dispatchSignal (net : Net) (saftlib_object_id interface : Int) :
    List RegisteredProxy → SignalGroup → SignalGroup
  | [], sg => sg
  | proxy :: rest, sg =>
    if proxy.saftlib_object_id = saftlib_object_id then
      dispatchSignal net saftlib_object_id interface rest (signalDispatch net proxy interface sg)
    else dispatchSignal net saftlib_object_id interface rest sg

/-- The statement `if (d->pfd.revents & POLLHUP) assert(false);` followed by
`return result`. -/
def hangupCheck (result : Int) (sg : SignalGroup) : Waited :=
  if sg.pfd.revents &&& POLLHUP ≠ 0 then .assertion_failed sg else .returned result sg

/-- Method `SignalGroup::wait_for_one_signal`. -/
def SignalGroup.wait_for_one_signal (net : Net) (sg : SignalGroup) (_timeout_ms : Int) :
    Waited :=
  let polled := net.poll sg.polls
  let sg1 := { sg with polls := sg.polls + 1,
                       pfd := { sg.pfd with revents := polled.revents } }
  if polled.result > 0 then
    if polled.revents &&& POLLIN ≠ 0 then
      let rd := sg1.received.read_from (net.message sg.polls)
      if !rd.1 then .returned (-1) { sg1 with received := rd.2 }
      else
        let g1 := rd.2.get_int
        let g2 := g1.2.get_int
        match g1.1, g2.1 with
        | some saftlib_object_id, some interface =>
          hangupCheck polled.result
            (dispatchSignal net saftlib_object_id interface sg1.proxies
              { sg1 with received := g2.2 })
        | _, _ => .malformed_message { sg1 with received := g2.2 }
    else hangupCheck polled.result sg1
  else .returned polled.result sg1

/-- The loop `while (wait_for_one_signal(0));` of `wait_for_signal`; `none` when
the fuel runs out. -/
def drain (net : Net) : Nat → SignalGroup → Option Waited
  | 0, _ => none
  | fuel + 1, sg =>
    match sg.wait_for_one_signal net 0 with
    | .returned result sg1 => if result ≠ 0 then drain net fuel sg1 else some (.returned 0 sg1)
    | w => some w

/-- Method `SignalGroup::wait_for_signal`. -/
def SignalGroup.wait_for_signal (net : Net) (fuel : Nat) (sg : SignalGroup)
    (timeout_ms : Int) : Option Waited :=
  match sg.wait_for_one_signal net timeout_ms with
  | .returned result sg1 =>
    if result ≠ 0 then
      match drain net fuel sg1 with
      | some (.returned _ sg2) => some (.returned result sg2)
      | w => w
    else some (.returned result sg1)
  | w => some w

/-- The state of a `Waited`. -/
def Waited.group : Waited → SignalGroup
  | .returned _ sg => sg
  | .assertion_failed sg => sg
  | .malformed_message sg => sg

/-- A connection for the examples. -/
def exConn : ClientConnection :=
  { pfd := { fd := 5, events := 0, revents := 0 }, client_id := 1 }

/-- A remote call for the examples in which the request goes out and the reply
`message` comes in. -/
def exRpc (message : List Value) : Rpc :=
  { send_timeout := -1, send_polled := { result := 1, revents := POLLOUT },
    receive_timeout := -1, receive_polled := { result := 1, revents := POLLIN },
    message := some message }

/-- A SignalGroup for the examples, as its constructor leaves it, with two
registered proxies of objects 7 and 8. -/
def exGroup : SignalGroup :=
  { pfd := { fd := 6, events := POLLIN ||| POLLHUP ||| POLLERR, revents := 0 },
    received := { data := [] },
    proxies := [{ addr := 100, saftlib_object_id := 7 }, { addr := 101, saftlib_object_id := 8 }],
    polls := 0, dispatched := [] }

/-- A network on which `poll` fails with -1 for the first `n` polls and times
out afterwards. -/
def exNetFailing (n : Nat) : Net :=
  { poll := fun k => if k < n then { result := -1, revents := 0 } else { result := 0, revents := 0 },
    message := fun _ => none,
    consume := fun _ _ payload => payload }

/-- A network on which every `poll` fails with -1. -/
def exNetDown : Net :=
  { poll := fun _ => { result := -1, revents := 0 },
    message := fun _ => none,
    consume := fun _ _ payload => payload }

/-- A Proxy for the examples, as the constructor builds it from the reply
`(7, 1, 1)`. -/
def exProxy : Proxy :=
  { saftlib_object_id := 7, client_id := 1, signal_group_id := 1,
    send := { data := [] }, received := { data := [] } }

/-- A network for the examples on which the first `poll` reports a readable
socket and the signal `(7, 3, "x")` is read. -/
def exNetSignal : Net :=
  { poll := fun k => if k = 0 then { result := 1, revents := POLLIN } else { result := 0, revents := 0 },
    message := fun _ => some [.int 7, .int 3, .string "x"],
    consume := fun _ _ _ => [] }

/-- A network on which the peer has closed the signal socket: every `poll`
reports the socket readable and hung up, and every read fails. -/
def exNetClosed : Net :=
  { poll := fun _ => { result := 1, revents := POLLIN ||| POLLHUP },
    message := fun _ => none,
    consume := fun _ _ payload => payload }

/-- The value `wait_for_one_signal` returns to its caller, when it returns. -/
def Waited.result : Waited → Option Int
  | .returned result _ => some result
  | _ => none

/-- A network on which the first `poll` reports the signal socket hung up and
not readable. -/
def exNetHangup : Net :=
  { poll := fun _ => { result := 1, revents := POLLHUP },
    message := fun _ => none,
    consume := fun _ _ payload => payload }

/-- A network on which the peer has closed the signal socket after sending the
signal `(7, 3, "x")`: the `poll` reports the socket readable and hung up, and
the signal is read. -/
def exNetLastSignal : Net :=
  { poll := fun _ => { result := 1, revents := POLLIN ||| POLLHUP },
    message := fun _ => some [.int 7, .int 3, .string "x"],
    consume := fun _ _ _ => [] }

/-! ### Locks

The `std::lock_guard` objects of `client_connection.cpp`, followed on the
calling thread alone: a `lock` of a mutex that this thread does not own is
granted, after whatever wait. -/

/-- The mutexes of `ClientConnection::Impl`. -/
inductive Mutex where
  | m_base_socket
  | m_client_socket
deriving DecidableEq, Repr

/-- What the calling thread does, as far as the locks are concerned: the
construction of a `lock_guard`, its destruction at the end of its scope, the
`poll` of `send` or `receive` with the write or read that follows it, and the
call `signal_group.send_fd(*this)`. -/
inductive Step where
  | lock (m : Mutex)
  | unlock (m : Mutex)
  | poll (events : Nat)
  | send_fd
deriving DecidableEq, Repr

/-- The steps of `ClientConnection::send`. -/
def ClientConnection.send_steps : List Step :=
  [.lock .m_client_socket, .poll POLLOUT, .unlock .m_client_socket]

/-- The steps of `ClientConnection::receive`. -/
def ClientConnection.receive_steps : List Step :=
  [.lock .m_client_socket, .poll POLLIN, .unlock .m_client_socket]

/-- The steps of the constructor `Proxy::Proxy`: the block that holds the
`lock_guard` and calls `send`, `send_fd` and `receive`. -/
def Proxy.new_steps : List Step :=
  [.lock .m_client_socket] ++ ClientConnection.send_steps ++ [.send_fd] ++
    ClientConnection.receive_steps ++ [.unlock .m_client_socket]

/-- The steps of the destructor `Proxy::~Proxy`: the `lock_guard` lives to the
end of the function. -/
def Proxy.destroy_steps : List Step :=
  [.lock .m_client_socket] ++ ClientConnection.send_steps ++
    ClientConnection.receive_steps ++ [.unlock .m_client_socket]

/-- The steps of `Proxy::quit`. -/
def Proxy.quit_steps : List Step :=
  [.lock .m_client_socket] ++ ClientConnection.send_steps ++ [.unlock .m_client_socket]

/-- How the steps of a thread end, with the steps performed: all are done, or
the thread calls `lock` on a `std::mutex` it owns, which is undefined behaviour
and in practice blocks the thread on itself. -/
inductive Ran where
  | completed (done : List Step)
  | relocked (m : Mutex) (done : List Step)
deriving DecidableEq, Repr

/-- Execution of the steps of one thread that owns the mutexes `held` and has
performed `done`. -/
def runSteps : List Step → List Mutex → List Step → Ran
  | [], _, done => .completed done
  | .lock m :: rest, held, done =>
    if m ∈ held then .relocked m done else runSteps rest (m :: held) (done ++ [.lock m])
  | .unlock m :: rest, held, done => runSteps rest (held.erase m) (done ++ [.unlock m])
  | .poll events :: rest, held, done => runSteps rest held (done ++ [.poll events])
  | .send_fd :: rest, held, done => runSteps rest held (done ++ [.send_fd])


/-- A network on which the peer has closed the signal socket after sending a
signal for object 9, which no Proxy of the example group is registered for: the
`poll` reports the socket readable and hung up, and the signal is read. -/
def exNetUnknownClosed : Net :=
  { poll := fun _ => { result := 1, revents := POLLIN ||| POLLHUP },
    message := fun _ => some [.int 9, .int 3, .string "x"],
    consume := fun _ _ _ => [] }

/-! ### The constructor and the destructor of a Proxy with their locks

`Proxy.new` and `Proxy.destroy` above follow the data as if every lock were
granted.  The namespace `locked` has the same functions with the `lock_guard`
objects of the source in their places. -/

/-- What a `std::mutex` does when the thread that owns it calls `lock` again.
The behaviour is undefined; the usual implementation blocks the thread for
ever, and nothing excludes one that grants the lock. -/
inductive Relock where
  | blocks
  | granted
deriving DecidableEq, Repr

/-- How a call ends on the calling thread: it returns, or the thread is blocked
for ever in `lock` on a mutex it owns. -/
inductive Locking (α : Type) where
  | returned (a : α)
  | blocked (m : Mutex)
deriving DecidableEq, Repr

/-- The value a call returned, when it returned. -/
def Locking.value {α : Type} : Locking α → Option α
  | .returned a => some a
  | .blocked _ => none

/-- The scope of a `std::lock_guard` on `m`, entered by a thread that owns the
mutexes `held`; `body` is what the scope contains. -/
def lock_guard {α : Type} (relock : Relock) (held : List Mutex) (m : Mutex)
    (body : List Mutex → Locking α) : Locking α :=
  if m ∈ held then
    match relock with
    | .blocks => .blocked m
    | .granted => body held
  else body (m :: held)

namespace locked

/-- Method `ClientConnection::send`, with its `lock_guard` on `m_client_socket`. -/
def ClientConnection.send (relock : Relock) (held : List Mutex) (c : ClientConnection)
    (serdes : Serializer) (timeout_ms : Int) (polled : Polled) : Locking Sent :=
  lock_guard relock held .m_client_socket
    (fun _ => .returned (mini_saftlib.ClientConnection.send c serdes timeout_ms polled))

/-- Method `ClientConnection::receive`, with its `lock_guard` on `m_client_socket`. -/
def ClientConnection.receive (relock : Relock) (held : List Mutex) (c : ClientConnection)
    (serdes : Deserializer) (timeout_ms : Int) (polled : Polled)
    (message : Option (List Value)) : Locking Received :=
  lock_guard relock held .m_client_socket
    (fun _ => .returned
      (mini_saftlib.ClientConnection.receive c serdes timeout_ms polled message))

/-- The block of the `Proxy` constructor that holds the `lock_guard` on
`m_client_socket` and calls `send`, `send_fd` and `receive`. -/
def Proxy.exchange (relock : Relock) (held : List Mutex) (conn : ClientConnection)
    (send : Serializer) (received : Deserializer) (rpc : Rpc) : Locking (Sent × Received) :=
  lock_guard relock held .m_client_socket (fun held1 =>
    match ClientConnection.send relock held1 conn send rpc.send_timeout rpc.send_polled with
    | .blocked m => .blocked m
    | .returned s =>
      match ClientConnection.receive relock held1 s.conn received rpc.receive_timeout
          rpc.receive_polled rpc.message with
      | .blocked m => .blocked m
      | .returned r => .returned (s, r))

/-- Constructor `Proxy::Proxy`, called by a thread that owns `held`. -/
def Proxy.new (relock : Relock) (held : List Mutex) (object_path : String)
    (conn : ClientConnection) (rpc : Rpc) : Locking ProxyNew :=
  let send1 := (Serializer.put { data := [] } (.int 0)).put (.string object_path)
  match Proxy.exchange relock held conn send1 { data := [] } rpc with
  | .blocked m => .blocked m
  | .returned (s, r) =>
    let g1 := r.serdes.get_int
    let g2 := g1.2.get_int
    let g3 := g2.2.get_int
    .returned
      { request := send1.data, written := s.written, conn := r.conn,
        result :=
          match g1.1, g2.1, g3.1 with
          | some saftlib_object_id, some client_id, some signal_group_id =>
            if saftlib_object_id = 0 then .error (.not_found object_path)
            else .ok { saftlib_object_id := saftlib_object_id, client_id := client_id,
                       signal_group_id := signal_group_id, send := s.serdes, received := g3.2 }
          | _, _, _ => .error .malformed_reply }

/-- Destructor `Proxy::~Proxy`, called by a thread that owns `held`; its
`lock_guard` lives from before `send` to the end of the function. -/
def Proxy.destroy (relock : Relock) (held : List Mutex) (p : Proxy) (conn : ClientConnection)
    (rpc : Rpc) : Locking ProxyDestroyed :=
  let send1 := (((((p.send.put (.int p.saftlib_object_id)).put (.int 0)).put (.int 0)).put
    (.int p.saftlib_object_id)).put (.int p.client_id)).put (.int p.signal_group_id)
  match Proxy.exchange relock held conn send1 p.received rpc with
  | .blocked m => .blocked m
  | .returned (s, r) =>
    .returned
      { request := send1.data, written := s.written, conn := r.conn,
        outcome :=
          match r.serdes.get_bool.1 with
          | some true => .completed
          | some false => .assertion_failed
          | none => .indeterminate }

end locked


end mini_saftlib

namespace saft_mcbm_ro

/-! # The snoop tool (`src/src/saft-mcbm-ro.cpp`)

A `uint64_t` is a `Nat` below `2 ^ 64`, and sums of `uint64_t` are reduced
modulo `2 ^ 64`. -/

/-- The value `snoopMask` of `main`: format, group and event number. -/
def snoopMask : Nat := ((0xF <<< 60) + (0xFFF <<< 48) + (0xFFF <<< 36)) % 2 ^ 64

/-- The value `snoopIdExtStart` of `main`. -/
def snoopIdExtStart : Nat := ((0x1 <<< 60) + (0x12C <<< 48) + (0x02E <<< 36)) % 2 ^ 64

/-- The value `snoopIdExtStop` of `main`. -/
def snoopIdExtStop : Nat := ((0x1 <<< 60) + (0x12C <<< 48) + (0x033 <<< 36)) % 2 ^ 64

/-- The value `snoopIdExtStopSlow` of `main`. -/
def snoopIdExtStopSlow : Nat := ((0x1 <<< 60) + (0x12C <<< 48) + (0x04E <<< 36)) % 2 ^ 64

/-- The value `snoopIdCycleStart` of `main`. -/
def snoopIdCycleStart : Nat := ((0x1 <<< 60) + (0x12C <<< 48) + (0x020 <<< 36)) % 2 ^ 64

/-- The value `snoopIdCycleStop` of `main`. -/
def snoopIdCycleStop : Nat := ((0x1 <<< 60) + (0x12C <<< 48) + (0x037 <<< 36)) % 2 ^ 64

/-- The identifiers of the conditions that `main` creates with `snoopMask` and
connects to `on_action`, in the order of the calls (the condition for
`snoopIdTesting` is commented out). -/
def subscribed : List Nat :=
  [snoopIdExtStart, snoopIdExtStop, snoopIdExtStopSlow, snoopIdCycleStart, snoopIdCycleStop]

/-- The local `uEventNb` of `on_action`: `(id >> 36) & 0xfff` as a `uint32_t`. -/
def uEventNb (id : Nat) : Nat :=
  ((id >>> 36) &&& 0xfff) % 2 ^ 32

/-- The `switch (uEventNb)` of `on_action`: the text of the case taken, `none`
when no case label matches (there is no `default`). -/
def on_action (id : Nat) : Option String :=
  if uEventNb id = 32 then some " => EVT_START_CYCLE     "
  else if uEventNb id = 55 then some " => EVT_END_CYCLE       "
  else if uEventNb id = 46 then some " => EVT_EXTR_START_SLOW "
  else if uEventNb id = 51 then some " => EVT_EXTR_END        "
  else if uEventNb id = 78 then some " => EVT_EXTR_STOP_SLOW  "
  else none

end saft_mcbm_ro

namespace saftbus

/-! ## Lemmas -/

theorem Grows.congr {env : Env} {R A R1 A1 : Nat → Prop} {st st1 : Loop}
    (h : Grows env R A st st1) (hR : ∀ s, R s ↔ R1 s) (hA : ∀ s, A s ↔ A1 s) :
    Grows env R1 A1 st st1 := by
  obtain ⟨hs, hd, l, r, a, hl, hr, ha, hrm, ham, ho⟩ := h
  exact ⟨hs, hd, l, r, a, hl, hr, ha, fun s => by rw [hrm, hR], fun s => by rw [ham, hA], ho⟩

theorem Grows.of_eq {env : Env} {st st1 : Loop} (hs : st1.sources = st.sources)
    (hd : st1.running_depth = st.running_depth) (hl : st1.log = st.log)
    (hr : st1.removed_sources = st.removed_sources)
    (ha : st1.added_sources = st.added_sources) : Grows env noReq noReq st st1 :=
  ⟨hs, hd, [], [], [], by simp [hl], by simp [hr], by simp [ha], by simp [noReq],
    by simp [noReq], by simp⟩

theorem Grows.trans {env : Env} {R A R1 A1 : Nat → Prop} {st st1 st2 : Loop}
    (h : Grows env R A st st1) (h1 : Grows env R1 A1 st1 st2) :
    Grows env (fun s => R s ∨ R1 s) (fun s => A s ∨ A1 s) st st2 := by
  obtain ⟨hs, hd, l, r, a, hl, hr, ha, hrm, ham, ho⟩ := h
  obtain ⟨hs1, hd1, l1, r1, a1, hl1, hr1, ha1, hrm1, ham1, ho1⟩ := h1
  refine ⟨hs1.trans hs, hd1.trans hd, l ++ l1, r ++ r1, a ++ a1, ?_, ?_, ?_, ?_, ?_, ?_⟩
  · rw [hl1, hl, List.append_assoc]
  · rw [hr1, hr, List.append_assoc]
  · rw [ha1, ha, List.append_assoc]
  · intro s
    simp only [List.mem_append, hrm, hrm1]
    constructor
    · rintro ((h | ⟨e, he, h⟩) | (h | ⟨e, he, h⟩))
      · exact Or.inl (Or.inl h)
      · exact Or.inr ⟨e, Or.inl he, h⟩
      · exact Or.inl (Or.inr h)
      · exact Or.inr ⟨e, Or.inr he, h⟩
    · rintro ((h | h) | ⟨e, he | he, h⟩)
      · exact Or.inl (Or.inl h)
      · exact Or.inr (Or.inl h)
      · exact Or.inl (Or.inr ⟨e, he, h⟩)
      · exact Or.inr (Or.inr ⟨e, he, h⟩)
  · intro s
    simp only [List.mem_append, ham, ham1]
    constructor
    · rintro ((h | ⟨e, he, h⟩) | (h | ⟨e, he, h⟩))
      · exact Or.inl (Or.inl h)
      · exact Or.inr ⟨e, Or.inl he, h⟩
      · exact Or.inl (Or.inr h)
      · exact Or.inr ⟨e, Or.inr he, h⟩
    · rintro ((h | h) | ⟨e, he | he, h⟩)
      · exact Or.inl (Or.inl h)
      · exact Or.inr (Or.inl h)
      · exact Or.inl (Or.inr ⟨e, he, h⟩)
      · exact Or.inr (Or.inr ⟨e, he, h⟩)
  · intro e he
    rcases List.mem_append.mp he with he | he
    · exact ho e he
    · have := ho1 e he
      rwa [hs] at this

/-- Composition of two steps of which the first carries no request of its own. -/
theorem Grows.trans_left {env : Env} {R A : Nat → Prop} {st st1 st2 : Loop}
    (h : Grows env noReq noReq st st1) (h1 : Grows env R A st1 st2) :
    Grows env R A st st2 :=
  (h.trans h1).congr (fun s => by simp [noReq]) (fun s => by simp [noReq])

/-- Composition of two steps of which the second carries no request of its own. -/
theorem Grows.trans_right {env : Env} {R A : Nat → Prop} {st st1 st2 : Loop}
    (h : Grows env R A st st1) (h1 : Grows env noReq noReq st1 st2) :
    Grows env R A st st2 :=
  (h.trans h1).congr (fun s => by simp [noReq]) (fun s => by simp [noReq])

theorem Grows.connect (env : Env) (st : Loop) (x : Nat) :
    Grows env noReq (fun s => s = x) st (st.connect x).2 :=
  ⟨rfl, rfl, [], [], [x], by simp [Loop.connect], by simp [Loop.connect],
    by simp [Loop.connect], by simp [noReq], by simp, by simp⟩

theorem Grows.remove (env : Env) (st : Loop) (x : Nat) :
    Grows env (fun s => s = x) noReq st (st.remove x) :=
  ⟨rfl, rfl, [], [x], [], by simp [Loop.remove], by simp [Loop.remove],
    by simp [Loop.remove], by simp, by simp [noReq], by simp⟩

theorem runCalls_grows {env : Env} {iter : Bool → Loop → Option (Bool × Loop)}
    (hiter : Deferring env iter) (calls : List Call) (st st1 : Loop)
    (hd : 1 ≤ st.running_depth) (h : runCalls iter calls st = some st1) :
    Grows env (fun s => Call.remove s ∈ calls) (fun s => Call.connect s ∈ calls) st st1 := by
  induction calls generalizing st with
  | nil =>
    simp only [runCalls, Option.some.injEq] at h
    subst h
    exact (Grows.of_eq rfl rfl rfl rfl rfl).congr (by simp [noReq]) (by simp [noReq])
  | cons c rest ih =>
    cases c with
    | connect x =>
      simp only [runCalls] at h
      exact ((Grows.connect env st x).trans (ih _ hd h)).congr
        (by simp [noReq]) (by simp)
    | remove x =>
      simp only [runCalls] at h
      exact ((Grows.remove env st x).trans (ih _ hd h)).congr
        (by simp) (by simp [noReq])
    | iteration b =>
      simp only [runCalls] at h
      cases hi : iter b st with
      | none => simp [hi] at h
      | some r =>
        simp only [hi] at h
        have g := hiter b st r hd hi
        exact ((g.trans (ih _ (by rw [g.depth]; exact hd) h))).congr
          (by simp [noReq]) (by simp [noReq])
    | quit =>
      simp only [runCalls] at h
      have g : Grows env noReq noReq st st.quit.2 := Grows.of_eq rfl rfl rfl rfl rfl
      exact ((g.trans (ih _ hd h))).congr (by simp [noReq]) (by simp [noReq])

theorem prepareLoop_timeout (env : Env) (srcs : List Nat) (acc : Prepared) :
    (prepareLoop env srcs acc).timeout =
      (reportedTimeouts env srcs acc.st).foldl mergeTimeout acc.timeout := by
  induction srcs generalizing acc with
  | nil => rfl
  | cons s rest ih => simp only [prepareLoop, reportedTimeouts, List.foldl_cons, ih]

theorem min_ne_no_timeout {a b : Int} (ha : a ≠ no_timeout) (hb : b ≠ no_timeout) :
    min a b ≠ no_timeout := by
  rcases min_choice a b with h | h <;> rw [h] <;> assumption

theorem foldl_mergeTimeout_of_ne (rs : List Int) (t : Int) (ht : t ≠ no_timeout) :
    rs.foldl mergeTimeout t = (rs.filter (fun r => r ≠ no_timeout)).foldl min t := by
  induction rs generalizing t with
  | nil => rfl
  | cons r rest ih =>
    by_cases hr : r = no_timeout
    · simp [mergeTimeout, hr, ih t ht]
    · simp [mergeTimeout, hr, ht, ih (min t r) (min_ne_no_timeout ht hr)]

theorem foldl_mergeTimeout_no_timeout (rs : List Int) :
    rs.foldl mergeTimeout no_timeout =
      ((rs.filter (fun r => r ≠ no_timeout)).min?).getD no_timeout := by
  induction rs with
  | nil => rfl
  | cons r rest ih =>
    by_cases hr : r = no_timeout
    · simpa [mergeTimeout, hr] using ih
    · simp [mergeTimeout, hr, foldl_mergeTimeout_of_ne rest r hr, List.min?]

theorem invokeSlot_eq_some {env : Env} {iter : Bool → Loop → Option (Bool × Loop)}
    {st st1 : Loop} {this : Nat} {args : Option (Int × Nat)} {res : Bool}
    (h : invokeSlot iter env st this args = some (res, st1)) :
    res = (env.slot this st.log args).result ∧
    runCalls iter (env.slot this st.log args).calls
      { st with log := st.log ++
          [{ source := this, args := args, run := env.slot this st.log args }] } = some st1 := by
  simp only [invokeSlot] at h
  split at h
  · simp at h
  · rename_i st2 h2
    simp only [Option.some.injEq, Prod.mk.injEq] at h
    exact ⟨h.1.symm, by rw [h2, h.2]⟩

/-- Closing a dispatch: the invocation `e` was recorded, its calls were
executed, and the self-removal was enqueued when the slot returned false. -/
theorem Grows.close {env : Env} (st : Loop) (e : SlotCall) {st0 st1 st2 : Loop}
    (g : Grows env (fun s => Call.remove s ∈ e.run.calls)
      (fun s => Call.connect s ∈ e.run.calls) st0 st1)
    (hl0 : st0.log = st.log ++ [e]) (hs0 : st0.sources = st.sources)
    (hd0 : st0.running_depth = st.running_depth)
    (hr0 : st0.removed_sources = st.removed_sources)
    (ha0 : st0.added_sources = st.added_sources)
    (he : e.source ∈ st.sources) (hslot : ∃ h, env.slot e.source h e.args = e.run)
    (hs2 : st2.sources = st1.sources) (hd2 : st2.running_depth = st1.running_depth)
    (hl2 : st2.log = st1.log) (ha2 : st2.added_sources = st1.added_sources)
    (hr2 : st2.removed_sources =
      st1.removed_sources ++ (if e.run.result then [] else [e.source])) :
    Grows env noReq noReq st st2 := by
  obtain ⟨hs, hd, l, r, a, hl, hr, ha, hrm, ham, ho⟩ := g
  refine ⟨by rw [hs2, hs, hs0], by rw [hd2, hd, hd0], e :: l,
    r ++ (if e.run.result then [] else [e.source]), a, ?_, ?_, ?_, ?_, ?_, ?_⟩
  · rw [hl2, hl, hl0]; simp
  · rw [hr2, hr, hr0]; simp
  · rw [ha2, ha, ha0]
  · intro s
    have he1 : e.removes s ↔
        Call.remove s ∈ e.run.calls ∨ (e.source = s ∧ e.run.result = false) := Iff.rfl
    simp only [List.mem_append, hrm, noReq, false_or, List.mem_cons, exists_eq_or_imp, he1]
    cases hres : e.run.result <;> simp [hres, eq_comm, or_assoc, or_comm, or_left_comm]
  · intro s
    simp only [ham, noReq, false_or, List.mem_cons, exists_eq_or_imp, SlotCall.connects]
  · intro e1 he1
    rcases List.mem_cons.mp he1 with h | h
    · subst h; exact ⟨he, hslot⟩
    · have := ho e1 h
      rwa [hs0] at this

theorem IoSource_dispatch_grows {env : Env} {iter : Bool → Loop → Option (Bool × Loop)}
    (hiter : Deferring env iter) {st st1 : Loop} {this : Nat} {res : Bool}
    (hthis : this ∈ st.sources) (hd : 1 ≤ st.running_depth)
    (h : IoSource.dispatch iter env st this = some (res, st1)) :
    Grows env noReq noReq st st1 := by
  simp only [IoSource.dispatch] at h
  split at h
  · simp at h
  · rename_i r st2 h2
    obtain ⟨hres, hrun⟩ := invokeSlot_eq_some h2
    simp only [Option.some.injEq, Prod.mk.injEq] at h
    obtain ⟨hr, hst⟩ := h
    subst hr
    have g := runCalls_grows hiter _ _ _ (by exact hd) hrun
    refine Grows.close st ⟨this, some ((st.pfd this).fd, (st.pfd this).revents),
      env.slot this st.log _⟩ g rfl rfl rfl rfl rfl hthis ⟨_, rfl⟩ ?_ ?_ ?_ ?_ ?_
    all_goals subst hst
    all_goals cases hr : r <;> simp [hr, ← hres, setRevents, Source.destroy, Loop.remove]

theorem TimeoutSource_dispatch_grows {env : Env}
    {iter : Bool → Loop → Option (Bool × Loop)} (hiter : Deferring env iter)
    {fuel : Nat} {st st1 : Loop} {this : Nat} {res : Bool}
    (hthis : this ∈ st.sources) (hd : 1 ≤ st.running_depth)
    (h : TimeoutSource.dispatch iter fuel env st this = some (res, st1)) :
    Grows env noReq noReq st st1 := by
  simp only [TimeoutSource.dispatch, now] at h
  split at h
  · simp at h
  · rename_i next hnext
    split at h
    · simp at h
    · rename_i r st2 h2
      obtain ⟨hres, hrun⟩ := invokeSlot_eq_some h2
      simp only [Option.some.injEq, Prod.mk.injEq] at h
      obtain ⟨hr, hst⟩ := h
      subst hr
      have g := runCalls_grows hiter _ _ _ (by exact hd) hrun
      refine Grows.close st ⟨this, none, env.slot this st.log none⟩
        g rfl rfl rfl rfl rfl hthis ⟨_, rfl⟩ ?_ ?_ ?_ ?_ ?_
      all_goals subst hst
      all_goals cases hr : r <;> simp [hr, ← hres, Source.destroy, Loop.remove]

theorem Source.dispatch_grows {env : Env} {iter : Bool → Loop → Option (Bool × Loop)}
    (hiter : Deferring env iter) {fuel : Nat} {st st1 : Loop} {this : Nat} {res : Bool}
    (hthis : this ∈ st.sources) (hd : 1 ≤ st.running_depth)
    (h : Source.dispatch iter fuel env st this = some (res, st1)) :
    Grows env noReq noReq st st1 := by
  simp only [Source.dispatch] at h
  split at h
  · exact TimeoutSource_dispatch_grows hiter hthis hd h
  · exact IoSource_dispatch_grows hiter hthis hd h

theorem Source.check_grows (env : Env) (st : Loop) (this : Nat) :
    Grows env noReq noReq st (Source.check env st this).2 := by
  apply Grows.of_eq <;>
    (simp only [Source.check, TimeoutSource.check, now]; split <;> (try split) <;> rfl)

theorem dispatchLoop_grows {env : Env} {iter : Bool → Loop → Option (Bool × Loop)}
    (hiter : Deferring env iter) (fuel : Nat) (srcs : List Nat) (st st1 : Loop)
    (hsub : ∀ s ∈ srcs, s ∈ st.sources) (hd : 1 ≤ st.running_depth)
    (h : dispatchLoop iter fuel env srcs st = some st1) :
    Grows env noReq noReq st st1 := by
  induction srcs generalizing st with
  | nil =>
    simp only [dispatchLoop, Option.some.injEq] at h
    subst h
    exact Grows.of_eq rfl rfl rfl rfl rfl
  | cons s rest ih =>
    have gc := Source.check_grows env st s
    simp only [dispatchLoop] at h
    split at h
    · split at h
      · simp at h
      · rename_i r hr
        have gd : Grows env noReq noReq (Source.check env st s).2 r.2 :=
          Source.dispatch_grows hiter
            (by rw [gc.sources]; exact hsub s (List.mem_cons_self _ _))
            (by rw [gc.depth]; exact hd) hr
        have g := (gc.trans_left gd)
        exact g.trans_left (ih r.2
          (fun x hx => by rw [g.sources]; exact hsub x (List.mem_cons_of_mem _ hx))
          (by rw [g.depth]; exact hd) h)
    · exact gc.trans_left (ih _
        (fun x hx => by rw [gc.sources]; exact hsub x (List.mem_cons_of_mem _ hx))
        (by rw [gc.depth]; exact hd) h)

theorem SameImpl.refl (st : Loop) : SameImpl st st := ⟨rfl, rfl, rfl, rfl, rfl⟩

theorem SameImpl.step {st st1 st2 : Loop} (h : SameImpl st st1) (h1 : SameImpl st1 st2) :
    SameImpl st st2 :=
  ⟨h1.sources.trans h.sources, h1.removed.trans h.removed, h1.added.trans h.added,
    h1.running.trans h.running, h1.log.trans h.log⟩

theorem Source.prepare_same (env : Env) (st : Loop) (this : Nat) (t : Int) :
    SameImpl st (Source.prepare env st this t).2.2 ∧
    (Source.prepare env st this t).2.2.running_depth = st.running_depth ∧
    (Source.prepare env st this t).2.2.next_time = st.next_time ∧
    (Source.prepare env st this t).2.2.pfd = st.pfd ∧
    (Source.prepare env st this t).2.2.polls = st.polls := by
  simp only [Source.prepare, TimeoutSource.prepare, IoSource.prepare, now]
  split <;> split <;> exact ⟨⟨rfl, rfl, rfl, rfl, rfl⟩, rfl, rfl, rfl, rfl⟩

theorem prepareLoop_same (env : Env) (srcs : List Nat) (acc : Prepared) :
    SameImpl acc.st (prepareLoop env srcs acc).st ∧
    (prepareLoop env srcs acc).st.running_depth = acc.st.running_depth ∧
    (prepareLoop env srcs acc).st.next_time = acc.st.next_time ∧
    (prepareLoop env srcs acc).st.pfd = acc.st.pfd ∧
    (prepareLoop env srcs acc).st.polls = acc.st.polls := by
  induction srcs generalizing acc with
  | nil => exact ⟨SameImpl.refl _, rfl, rfl, rfl, rfl⟩
  | cons s rest ih =>
    simp only [prepareLoop]
    obtain ⟨h1, h2, h3, h4, h5⟩ := Source.prepare_same env acc.st s no_timeout
    obtain ⟨k1, k2, k3, k4, k5⟩ := ih
      { timeout := mergeTimeout acc.timeout (Source.prepare env acc.st s no_timeout).2.1,
        pfds := acc.pfds ++ (Source.pfds env s).map
          (Source.prepare env acc.st s no_timeout).2.2.pfd,
        source_pfds := acc.source_pfds ++ Source.pfds env s,
        st := (Source.prepare env acc.st s no_timeout).2.2 }
    exact ⟨h1.step k1, k2.trans h2, k3.trans h3, k4.trans h4, k5.trans h5⟩

theorem prepared_same (env : Env) (st : Loop) :
    SameImpl st (prepared env st).st ∧
    (prepared env st).st.running_depth = st.running_depth + 1 ∧
    (prepared env st).st.next_time = st.next_time ∧
    (prepared env st).st.pfd = st.pfd ∧
    (prepared env st).st.polls = st.polls := by
  obtain ⟨h1, h2, h3, h4, h5⟩ := prepareLoop_same env st.sources
    { timeout := no_timeout, pfds := [], source_pfds := [], st := enter st }
  have h0 : SameImpl st (enter st) := ⟨rfl, rfl, rfl, rfl, rfl⟩
  exact ⟨h0.step h1, h2, h3, h4, h5⟩

theorem writeback_same (revents : Nat → Nat) (i : Nat) (ptrs : List Nat) (st : Loop) :
    SameImpl st (writeback revents i ptrs st) ∧
    (writeback revents i ptrs st).running_depth = st.running_depth ∧
    (writeback revents i ptrs st).next_time = st.next_time := by
  induction ptrs generalizing i st with
  | nil => exact ⟨SameImpl.refl _, rfl, rfl⟩
  | cons p rest ih =>
    simp only [writeback]
    obtain ⟨k1, k2, k3⟩ := ih (i + 1) (setRevents st p (revents i))
    have k0 : SameImpl st (setRevents st p (revents i)) := ⟨rfl, rfl, rfl, rfl, rfl⟩
    exact ⟨k0.step k1, k2, k3⟩

theorem waitPhase_same (env : Env) (timeout : Int) (pfds : List pollfd)
    (source_pfds : List Nat) (st : Loop) :
    SameImpl st (waitPhase env timeout pfds source_pfds st) ∧
    (waitPhase env timeout pfds source_pfds st).running_depth = st.running_depth ∧
    (waitPhase env timeout pfds source_pfds st).next_time = st.next_time := by
  simp only [waitPhase]
  split
  · split
    · obtain ⟨k1, k2, k3⟩ := writeback_same (env.poll st.polls pfds timeout).2 0 source_pfds
        { st with clock_reads := st.clock_reads + 2, polls := st.polls + 1 }
      have k0 : SameImpl st
          { st with clock_reads := st.clock_reads + 2, polls := st.polls + 1 } :=
        ⟨rfl, rfl, rfl, rfl, rfl⟩
      exact ⟨k0.step k1, k2, k3⟩
    · exact ⟨⟨rfl, rfl, rfl, rfl, rfl⟩, rfl, rfl⟩
  · split <;> exact ⟨⟨rfl, rfl, rfl, rfl, rfl⟩, rfl, rfl⟩

theorem beforeDispatch_same (env : Env) (may_block : Bool) (st : Loop) :
    SameImpl st (beforeDispatch env may_block st) ∧
    (beforeDispatch env may_block st).running_depth = st.running_depth + 1 ∧
    (beforeDispatch env may_block st).next_time = st.next_time := by
  obtain ⟨h1, h2, h3, _, _⟩ := prepared_same env st
  obtain ⟨k1, k2, k3⟩ := waitPhase_same env
    (clampTimeout may_block (prepared env st).timeout) (prepared env st).pfds
    (prepared env st).source_pfds (prepared env st).st
  exact ⟨h1.step k1, k2.trans h2, k3.trans h3⟩

theorem finish_nested {st : Loop} (h : st.running_depth ≠ 1) :
    finish st = (!st.sources.isEmpty,
      { st with running_depth := st.running_depth - 1, clock_reads := st.clock_reads + 1 }) := by
  simp [finish, commit, h]

theorem finish_top {st : Loop} (h : st.running_depth = 1) :
    finish st = (!(st.removed_sources.foldl eraseSource st.sources ++ st.added_sources).isEmpty,
      { st with sources := st.removed_sources.foldl eraseSource st.sources ++ st.added_sources,
                removed_sources := [], added_sources := [], running_depth := 0,
                clock_reads := st.clock_reads + 1 }) := by
  simp [finish, commit, h]

theorem iteration_eq_some {env : Env} {fuel : Nat} {may_block : Bool} {st : Loop}
    {r : Bool × Loop} (h : iteration env fuel may_block st = some r) :
    ∃ f st2, fuel = f + 1 ∧
      dispatchLoop (fun b s => iteration env f b s) f env
        (beforeDispatch env may_block st).sources (beforeDispatch env may_block st) = some st2 ∧
      r = finish st2 := by
  cases fuel with
  | zero => simp [iteration] at h
  | succ f =>
    simp only [iteration] at h
    split at h
    · simp at h
    · rename_i st2 h2
      exact ⟨f, st2, rfl, h2, by simpa using h.symm⟩

theorem iteration_deferring (env : Env) (fuel : Nat) :
    Deferring env (fun b s => iteration env fuel b s) := by
  induction fuel with
  | zero => intro b st r _ h; simp [iteration] at h
  | succ f ih =>
    intro b st r hd h
    obtain ⟨f1, st2, hf, h2, hr⟩ := iteration_eq_some h
    obtain rfl : f = f1 := by omega
    obtain ⟨hb, hbd, _⟩ := beforeDispatch_same env b st
    have g := dispatchLoop_grows ih f _ _ st2 (fun s hs => hs) (by rw [hbd]; omega) h2
    have hne : st2.running_depth ≠ 1 := by rw [g.depth, hbd]; omega
    rw [hr, finish_nested hne]
    obtain ⟨hs, hdp, l, r1, a, hl, hrr, ha, hrm, ham, ho⟩ := g
    refine ⟨by simp [hs, hb.sources], by simp [hdp, hbd], l, r1, a, by simp [hl, hb.log],
      by simp [hrr, hb.removed], by simp [ha, hb.added], hrm, ham, ?_⟩
    intro e he
    have := ho e he
    rwa [hb.sources] at this

theorem runCalls_of_not_nested (iter : Bool → Loop → Option (Bool × Loop))
    (calls : List Call) (st : Loop) (hno : ∀ c ∈ calls, c.isNested = false) :
    ∃ st1, runCalls iter calls st = some st1 ∧ st1.sources = st.sources ∧
      st1.running_depth = st.running_depth ∧
      st1.removed_sources = st.removed_sources ++ removesOf calls ∧
      st1.added_sources = st.added_sources ++ connectsOf calls ∧
      st1.log = st.log ∧ st1.next_time = st.next_time ∧ st1.pfd = st.pfd := by
  induction calls generalizing st with
  | nil => exact ⟨st, rfl, rfl, rfl, by simp [removesOf], by simp [connectsOf], rfl, rfl, rfl⟩
  | cons c rest ih =>
    have hrest : ∀ c ∈ rest, c.isNested = false := fun x hx => hno x (List.mem_cons_of_mem _ hx)
    cases c with
    | connect x =>
      obtain ⟨st1, h1, h2, h3, h4, h5, h6, h7, h8⟩ := ih (st.connect x).2 hrest
      exact ⟨st1, by simpa [runCalls] using h1, h2, h3, by simpa [removesOf] using h4,
        by simpa [connectsOf, Loop.connect] using h5, h6, h7, h8⟩
    | remove x =>
      obtain ⟨st1, h1, h2, h3, h4, h5, h6, h7, h8⟩ := ih (st.remove x) hrest
      exact ⟨st1, by simpa [runCalls] using h1, h2, h3,
        by simpa [removesOf, Loop.remove] using h4, by simpa [connectsOf] using h5, h6, h7, h8⟩
    | iteration b =>
      have := hno (.iteration b) (List.mem_cons_self _ _)
      simp [Call.isNested] at this
    | quit =>
      obtain ⟨st1, h1, h2, h3, h4, h5, h6, h7, h8⟩ := ih st.quit.2 hrest
      exact ⟨st1, by simpa [runCalls] using h1, h2, h3, by simpa [removesOf] using h4,
        by simpa [connectsOf] using h5, h6, h7, h8⟩

theorem foldl_eraseSource (rs : List Nat) (srcs : List Nat) :
    rs.foldl eraseSource srcs = srcs.filter (fun x => !rs.contains x) := by
  induction rs generalizing srcs with
  | nil => simp
  | cons r rest ih =>
    simp only [List.foldl_cons, ih, eraseSource, List.filter_filter]
    congr 1
    funext x
    by_cases hx : x = r <;> simp [hx, eq_comm]

theorem not_mem_foldl_eraseSource {rs srcs : List Nat} {s : Nat} (h : s ∈ rs) :
    s ∉ rs.foldl eraseSource srcs := by
  simp [foldl_eraseSource, h]

theorem foldl_applyCall (calls : List Call) (srcs : List Nat)
    (h : noRemoveAfterConnect calls = true) :
    calls.foldl applyCall srcs =
      (removesOf calls).foldl eraseSource srcs ++ connectsOf calls := by
  induction calls generalizing srcs with
  | nil => simp [removesOf, connectsOf]
  | cons c rest ih =>
    cases c with
    | connect x =>
      simp only [noRemoveAfterConnect, Bool.and_eq_true, Bool.not_eq_true'] at h
      simp only [List.foldl_cons, applyCall, ih _ h.2, removesOf, connectsOf,
        foldl_eraseSource, List.filter_append]
      have hx : x ∉ removesOf rest := by simpa using h.1
      simp [hx]
    | remove x =>
      simp only [noRemoveAfterConnect] at h
      simp only [List.foldl_cons, applyCall, ih _ h, removesOf, connectsOf]
    | iteration b =>
      simp only [noRemoveAfterConnect] at h
      simp only [List.foldl_cons, applyCall, ih _ h, removesOf, connectsOf]
    | quit =>
      simp only [noRemoveAfterConnect] at h
      simp only [List.foldl_cons, applyCall, ih _ h, removesOf, connectsOf]

theorem not_nested_of_mutation {calls : List Call}
    (h : ∀ c ∈ calls, c.isMutation = true) : ∀ c ∈ calls, c.isNested = false := by
  intro c hc
  have := h c hc
  cases c <;> simp_all [Call.isMutation, Call.isNested]

/-- What a depth-1 iteration that returns has done. -/
theorem iteration_top {env : Env} {fuel : Nat} {may_block : Bool} {st : Loop}
    {r : Bool × Loop} (hd : st.running_depth = 0)
    (h : iteration env fuel may_block st = some r) :
    ∃ st2, Grows env noReq noReq (beforeDispatch env may_block st) st2 ∧
      st2.running_depth = 1 ∧ r = finish st2 := by
  obtain ⟨f, st2, _, h2, hr⟩ := iteration_eq_some h
  obtain ⟨_, hbd, _⟩ := beforeDispatch_same env may_block st
  have g := dispatchLoop_grows (iteration_deferring env f) f _ _ st2 (fun s hs => hs)
    (by rw [hbd]; omega) h2
  exact ⟨st2, g, by rw [g.depth, hbd, hd]; rfl, hr⟩

theorem invokeSlot_of_not_nested (iter : Bool → Loop → Option (Bool × Loop)) (env : Env)
    (st : Loop) (this : Nat) (args : Option (Int × Nat))
    (hno : ∀ c ∈ (env.slot this st.log args).calls, c.isNested = false) :
    ∃ st1, invokeSlot iter env st this args = some ((env.slot this st.log args).result, st1) ∧
      st1.sources = st.sources ∧ st1.running_depth = st.running_depth ∧
      st1.removed_sources = st.removed_sources ++ removesOf (env.slot this st.log args).calls ∧
      st1.added_sources = st.added_sources ++ connectsOf (env.slot this st.log args).calls ∧
      st1.log = st.log ++ [{ source := this, args := args, run := env.slot this st.log args }] ∧
      st1.next_time = st.next_time ∧ st1.pfd = st.pfd := by
  obtain ⟨st1, h1, h2, h3, h4, h5, h6, h7, h8⟩ := runCalls_of_not_nested iter
    (env.slot this st.log args).calls
    { st with log := st.log ++
        [{ source := this, args := args, run := env.slot this st.log args }] } hno
  exact ⟨st1, by simp [invokeSlot, h1], h2, h3, h4, h5, h6, h7, h8⟩

/-- A dispatch that returns, of a source whose slot makes no nested call. -/
theorem Source.dispatch_of_run {env : Env} {iter : Bool → Loop → Option (Bool × Loop)}
    {fuel : Nat} {st : Loop} {this : Nat} {r : Bool × Loop} {run : SlotRun}
    (hrun : ∀ args, env.slot this st.log args = run)
    (hno : ∀ c ∈ run.calls, c.isNested = false)
    (h : Source.dispatch iter fuel env st this = some r) :
    r.1 = run.result ∧ r.2.sources = st.sources ∧ r.2.running_depth = st.running_depth ∧
    r.2.removed_sources =
      st.removed_sources ++ removesOf run.calls ++ (if run.result then [] else [this]) ∧
    r.2.added_sources = st.added_sources ++ connectsOf run.calls ∧
    ∃ args, r.2.log = st.log ++ [{ source := this, args := args, run := run }] := by
  simp only [Source.dispatch] at h
  split at h
  · simp only [TimeoutSource.dispatch, now] at h
    split at h
    · simp at h
    · rename_i next _
      obtain ⟨st1, h1, h2, h3, h4, h5, h6, _, _⟩ := invokeSlot_of_not_nested iter env
        { st with clock_reads := st.clock_reads + 1,
                  next_time := Function.update st.next_time this next } this none
        (by rw [hrun]; exact hno)
      rw [h1] at h
      simp only [Option.some.injEq] at h
      subst h
      rw [hrun] at h4 h5 h6
      refine ⟨by rw [hrun], ?_, ?_, ?_, ?_, none, ?_⟩ <;>
        cases hres : run.result <;>
        simp [hrun, hres, Source.destroy, Loop.remove, h2, h3, h4, h5, h6]
  · simp only [IoSource.dispatch] at h
    obtain ⟨st1, h1, h2, h3, h4, h5, h6, _, _⟩ := invokeSlot_of_not_nested iter env st this
      (some ((st.pfd this).fd, (st.pfd this).revents)) (by rw [hrun]; exact hno)
    rw [h1] at h
    simp only [Option.some.injEq] at h
    subst h
    rw [hrun] at h4 h5 h6
    refine ⟨by rw [hrun], ?_, ?_, ?_, ?_, some ((st.pfd this).fd, (st.pfd this).revents), ?_⟩ <;>
      cases hres : run.result <;>
      simp [hrun, hres, setRevents, Source.destroy, Loop.remove, h2, h3, h4, h5, h6]

theorem Source.check_same (env : Env) (st : Loop) (this : Nat) :
    SameImpl st (Source.check env st this).2 ∧
    (Source.check env st this).2.running_depth = st.running_depth := by
  simp only [Source.check, TimeoutSource.check, now]
  split <;> (try split) <;> exact ⟨⟨rfl, rfl, rfl, rfl, rfl⟩, rfl⟩

theorem finish_log (st : Loop) : (finish st).2.log = st.log := by
  simp only [finish, commit]
  split <;> rfl

/-- A depth-1 iteration of a loop with empty queues in which no slot invocation
asks for an addition or a removal leaves the live set as it is. -/
theorem quiet_iteration {env : Env} {fuel : Nat} {may_block : Bool} {st : Loop}
    {r : Bool × Loop}
    (hq : ∀ s ∈ st.sources, ∀ h args, (env.slot s h args).result = true ∧
      ∀ c ∈ (env.slot s h args).calls, c.isMutation = false)
    (hr : st.removed_sources = []) (ha : st.added_sources = [])
    (hd : st.running_depth = 0) (h : iteration env fuel may_block st = some r) :
    r.2.sources = st.sources ∧ r.2.removed_sources = [] ∧ r.2.added_sources = [] ∧
    r.2.running_depth = 0 := by
  obtain ⟨st2, g, hd2, hfin⟩ := iteration_top hd h
  obtain ⟨hb, _, _⟩ := beforeDispatch_same env may_block st
  obtain ⟨hs, _, l, r1, a, _, hrr, haa, hrm, ham, ho⟩ := g
  have hquiet : ∀ e ∈ l, e.run.result = true ∧ ∀ c ∈ e.run.calls, c.isMutation = false := by
    intro e he
    obtain ⟨hsrc, hh, hslot⟩ := ho e he
    rw [hb.sources] at hsrc
    rw [← hslot]
    exact hq e.source hsrc hh e.args
  have hr1 : r1 = [] := by
    apply List.eq_nil_iff_forall_not_mem.2
    intro s hs1
    rcases (hrm s).1 hs1 with hf | ⟨e, he, hrem | ⟨_, hres⟩⟩
    · exact hf
    · have := (hquiet e he).2 _ hrem
      simp [Call.isMutation] at this
    · rw [(hquiet e he).1] at hres
      simp at hres
  have ha1 : a = [] := by
    apply List.eq_nil_iff_forall_not_mem.2
    intro s hs1
    rcases (ham s).1 hs1 with hf | ⟨e, he, hcon⟩
    · exact hf
    · have := (hquiet e he).2 _ hcon
      simp [Call.isMutation] at this
  rw [hfin, finish_top hd2]
  simp [hs, hrr, haa, hb.sources, hb.removed, hb.added, hr, ha, hr1, ha1]

/-- What the catch-up loop returns: the first multiple step past the clock value. -/
theorem catchUp_eq_some {fuel : Nat} {t interval next r : Int}
    (h : catchUp fuel t interval next = some r) :
    ∃ k : Int, 1 ≤ k ∧ r = next + k * interval ∧ t < r ∧
      ∀ j : Int, 1 ≤ j → t < next + j * interval → k ≤ j := by
  induction fuel generalizing next with
  | zero => simp [catchUp] at h
  | succ f ih =>
    simp only [catchUp] at h
    split at h
    · rename_i hge
      obtain ⟨k, hk, hr, ht, hmin⟩ := ih h
      refine ⟨k + 1, by omega, by rw [hr]; ring, ht, ?_⟩
      intro j hj hlt
      have hj2 : 2 ≤ j := by
        by_contra hcon
        have hj1 : j = 1 := by omega
        subst hj1
        simp only [one_mul] at hlt
        omega
      have := hmin (j - 1) (by omega) (by
        have e : next + interval + (j - 1) * interval = next + j * interval := by ring
        rw [e]; exact hlt)
      omega
    · rename_i hlt
      simp only [Option.some.injEq] at h
      subst h
      exact ⟨1, le_refl _, by ring, by omega, fun j hj _ => hj⟩

/-- The catch-up loop of a timer with a positive interval terminates. -/
theorem catchUp_isSome {fuel : Nat} {t interval next : Int} (hI : 0 < interval)
    (hfuel : (t - next).toNat < fuel) : ∃ r, catchUp fuel t interval next = some r := by
  induction fuel generalizing next with
  | zero => omega
  | succ f ih =>
    simp only [catchUp]
    split
    · rename_i hge
      exact ih (by omega)
    · exact ⟨_, rfl⟩

/-- The dispatching loop does nothing when every source is an I/O source whose
`check` is false. -/
theorem dispatchLoop_of_unready (iter : Bool → Loop → Option (Bool × Loop)) (fuel : Nat)
    (env : Env) (srcs : List Nat) (st : Loop)
    (h : ∀ s ∈ srcs, env.kind s = Kind.io ∧ IoSource.check st s = false) :
    dispatchLoop iter fuel env srcs st = some st := by
  induction srcs with
  | nil => rfl
  | cons s rest ih =>
    obtain ⟨hk, hc⟩ := h s (List.mem_cons_self _ _)
    simp only [dispatchLoop, Source.check, hk, hc]
    exact ih (fun x hx => h x (List.mem_cons_of_mem _ hx))

/-- The dispatching loop passes over I/O sources whose `check` is false. -/
theorem dispatchLoop_skip (iter : Bool → Loop → Option (Bool × Loop)) (fuel : Nat)
    (env : Env) (pre tail : List Nat) (st : Loop)
    (h : ∀ s ∈ pre, env.kind s = Kind.io ∧ IoSource.check st s = false) :
    dispatchLoop iter fuel env (pre ++ tail) st = dispatchLoop iter fuel env tail st := by
  induction pre with
  | nil => rfl
  | cons s rest ih =>
    obtain ⟨hk, hc⟩ := h s (List.mem_cons_self _ _)
    simp only [List.cons_append, dispatchLoop, Source.check, hk, hc]
    exact ih (fun x hx => h x (List.mem_cons_of_mem _ hx))

/-- A dispatch that returns has recorded an invocation of the slot of its source. -/
theorem Source.dispatch_log {env : Env} {iter : Bool → Loop → Option (Bool × Loop)}
    (hiter : Deferring env iter) {fuel : Nat} {st : Loop} {this : Nat} {r : Bool × Loop}
    (hd : 1 ≤ st.running_depth) (h : Source.dispatch iter fuel env st this = some r) :
    ∃ e l, r.2.log = st.log ++ e :: l ∧ e.source = this := by
  simp only [Source.dispatch] at h
  split at h
  · simp only [TimeoutSource.dispatch, now] at h
    split at h
    · simp at h
    · split at h
      · simp at h
      · rename_i res st3 h3
        simp only [Option.some.injEq] at h
        subst h
        obtain ⟨_, hrun⟩ := invokeSlot_eq_some h3
        obtain ⟨_, _, l, _, _, hl, _⟩ := runCalls_grows hiter _ _ _ (by exact hd) hrun
        refine ⟨⟨this, none, env.slot this st.log none⟩, l, ?_, rfl⟩
        cases res <;> simpa [Source.destroy, Loop.remove] using hl
  · simp only [IoSource.dispatch] at h
    split at h
    · simp at h
    · rename_i res st3 h3
      simp only [Option.some.injEq] at h
      subst h
      obtain ⟨_, hrun⟩ := invokeSlot_eq_some h3
      obtain ⟨_, _, l, _, _, hl, _⟩ := runCalls_grows hiter _ _ _ (by exact hd) hrun
      refine ⟨⟨this, some ((st.pfd this).fd, (st.pfd this).revents),
        env.slot this st.log (some ((st.pfd this).fd, (st.pfd this).revents))⟩, l, ?_, rfl⟩
      cases res <;> simpa [setRevents, Source.destroy, Loop.remove] using hl

/-- More fuel does not change what the catch-up loop returns. -/
theorem catchUp_mono {f g : Nat} {t interval next r : Int} (hfg : f ≤ g)
    (h : catchUp f t interval next = some r) : catchUp g t interval next = some r := by
  induction f generalizing g next with
  | zero => simp [catchUp] at h
  | succ f ih =>
    obtain ⟨g1, rfl⟩ : ∃ g1, g = g1 + 1 := ⟨g - 1, by omega⟩
    simp only [catchUp] at h ⊢
    split
    · rename_i hge
      rw [if_pos hge] at h
      exact ih (by omega) h
    · rename_i hlt
      rw [if_neg hlt] at h
      exact h

/-- Calls that are not nested iterations run the same whatever `iteration` is. -/
theorem runCalls_congr (iter iter2 : Bool → Loop → Option (Bool × Loop)) (calls : List Call)
    (st : Loop) (hno : ∀ c ∈ calls, c.isNested = false) :
    runCalls iter calls st = runCalls iter2 calls st := by
  induction calls generalizing st with
  | nil => rfl
  | cons c rest ih =>
    have hrest : ∀ c ∈ rest, c.isNested = false := fun x hx => hno x (List.mem_cons_of_mem _ hx)
    cases c with
    | connect x => simp only [runCalls]; exact ih _ hrest
    | remove x => simp only [runCalls]; exact ih _ hrest
    | iteration b =>
      have := hno (.iteration b) (List.mem_cons_self _ _)
      simp [Call.isNested] at this
    | quit => simp only [runCalls]; exact ih _ hrest

/-- The dispatch of a timer with a positive interval, or of an I/O source, whose
slot never makes a nested call returns once the fuel covers the missed ticks,
and returns the same whatever the fuel above that and whatever `iteration` is. -/
theorem Source.dispatch_returns (env : Env) (st : Loop) (this : Nat)
    (hI : env.kind this = Kind.timeout → 0 < env.interval this)
    (hno : ∀ hist args, ∀ c ∈ (env.slot this hist args).calls, c.isNested = false) :
    ∃ F r, ∀ (iter : Bool → Loop → Option (Bool × Loop)) (fuel : Nat), F ≤ fuel →
      Source.dispatch iter fuel env st this = some r := by
  cases hk : env.kind this with
  | timeout =>
    have hpos : 0 < env.interval this * ns_per_ms := by
      have := hI hk
      simp only [ns_per_ms]; omega
    obtain ⟨next, hnext⟩ := catchUp_isSome hpos
      (Nat.lt_succ_self (env.clock st.clock_reads - st.next_time this).toNat)
    obtain ⟨st1, h1, _⟩ := invokeSlot_of_not_nested (fun _ _ => none) env
      { st with clock_reads := st.clock_reads + 1,
                next_time := Function.update st.next_time this next } this none (hno _ _)
    refine ⟨(env.clock st.clock_reads - st.next_time this).toNat + 1,
      ((env.slot this st.log none).result,
        if !(env.slot this st.log none).result then Source.destroy st1 this else st1), ?_⟩
    intro iter fuel hfuel
    have h2 : invokeSlot iter env
        { st with clock_reads := st.clock_reads + 1,
                  next_time := Function.update st.next_time this next } this none =
        some ((env.slot this st.log none).result, st1) := by
      rw [← h1]
      simp only [invokeSlot]
      rw [runCalls_congr iter (fun _ _ => none) _ _ (hno _ _)]
    simp only [Source.dispatch, hk, TimeoutSource.dispatch, now, catchUp_mono hfuel hnext, h2]
  | io =>
    obtain ⟨st1, h1, _⟩ := invokeSlot_of_not_nested (fun _ _ => none) env st this
      (some ((st.pfd this).fd, (st.pfd this).revents)) (hno _ _)
    refine ⟨0, ((env.slot this st.log
        (some ((st.pfd this).fd, (st.pfd this).revents))).result,
      setRevents (if !(env.slot this st.log
          (some ((st.pfd this).fd, (st.pfd this).revents))).result
        then Source.destroy st1 this else st1) this 0), ?_⟩
    intro iter fuel _
    have h2 : invokeSlot iter env st this (some ((st.pfd this).fd, (st.pfd this).revents)) =
        some ((env.slot this st.log
          (some ((st.pfd this).fd, (st.pfd this).revents))).result, st1) := by
      rw [← h1]
      simp only [invokeSlot]
      rw [runCalls_congr iter (fun _ _ => none) _ _ (hno _ _)]
    simp only [Source.dispatch, hk, IoSource.dispatch, h2]

theorem dispatchLoop_returns (env : Env) (srcs : List Nat) (st : Loop)
    (hI : ∀ s ∈ srcs, env.kind s = Kind.timeout → 0 < env.interval s)
    (hno : ∀ s ∈ srcs, ∀ hist args, ∀ c ∈ (env.slot s hist args).calls, c.isNested = false) :
    ∃ F st1, ∀ (iter : Bool → Loop → Option (Bool × Loop)) (fuel : Nat), F ≤ fuel →
      dispatchLoop iter fuel env srcs st = some st1 := by
  induction srcs generalizing st with
  | nil => exact ⟨0, st, fun _ _ _ => rfl⟩
  | cons s rest ih =>
    have hI1 : ∀ x ∈ rest, env.kind x = Kind.timeout → 0 < env.interval x :=
      fun x hx => hI x (List.mem_cons_of_mem _ hx)
    have hno1 : ∀ x ∈ rest, ∀ hist args, ∀ c ∈ (env.slot x hist args).calls,
        c.isNested = false := fun x hx => hno x (List.mem_cons_of_mem _ hx)
    cases hc : (Source.check env st s).1 with
    | true =>
      obtain ⟨F0, r, hr⟩ := Source.dispatch_returns env (Source.check env st s).2 s
        (hI s (List.mem_cons_self _ _)) (hno s (List.mem_cons_self _ _))
      obtain ⟨F1, st1, h1⟩ := ih r.2 hI1 hno1
      refine ⟨max F0 F1, st1, ?_⟩
      intro iter fuel hfuel
      simp only [dispatchLoop, hc, if_true, hr iter fuel (le_trans (le_max_left _ _) hfuel)]
      exact h1 iter fuel (le_trans (le_max_right _ _) hfuel)
    | false =>
      obtain ⟨F1, st1, h1⟩ := ih (Source.check env st s).2 hI1 hno1
      refine ⟨F1, st1, ?_⟩
      intro iter fuel hfuel
      simp only [dispatchLoop, hc]
      exact h1 iter fuel hfuel

/-- An iteration of a loop whose live timers have positive intervals and whose
slots never make a nested call returns, with the same result for every fuel
from some bound on. -/
theorem iteration_returns (env : Env) (may_block : Bool) (st : Loop)
    (hI : ∀ s ∈ st.sources, env.kind s = Kind.timeout → 0 < env.interval s)
    (hno : ∀ s ∈ st.sources, ∀ hist args, ∀ c ∈ (env.slot s hist args).calls,
      c.isNested = false) :
    ∃ F r, ∀ fuel, F ≤ fuel → iteration env fuel may_block st = some r := by
  obtain ⟨hb, _, _⟩ := beforeDispatch_same env may_block st
  obtain ⟨F, st1, h1⟩ := dispatchLoop_returns env (beforeDispatch env may_block st).sources
    (beforeDispatch env may_block st) (by rw [hb.sources]; exact hI)
    (by rw [hb.sources]; exact hno)
  refine ⟨F + 1, finish st1, ?_⟩
  intro fuel hfuel
  obtain ⟨f, rfl⟩ : ∃ f, fuel = f + 1 := ⟨fuel - 1, by omega⟩
  simp only [iteration, h1 _ f (by omega)]

theorem Tracks.of_same {st st1 : Loop} (hl : st1.log = st.log)
    (hr : st1.running = st.running) : Tracks False st st1 :=
  ⟨[], by simp [hl], by simp, fun _ _ => hr⟩

theorem Tracks.recond {Q Q1 : Prop} {st st1 : Loop} (h : Tracks Q st st1) (hQ : Q ↔ Q1) :
    Tracks Q1 st st1 := by
  obtain ⟨l, hl, h1, h2⟩ := h
  exact ⟨l, hl, fun h => h1 (by rwa [hQ]), fun h => h2 (by rwa [hQ])⟩

theorem Tracks.append {Q Q1 : Prop} {st st1 st2 : Loop} (h : Tracks Q st st1)
    (k : Tracks Q1 st1 st2) : Tracks (Q ∨ Q1) st st2 := by
  obtain ⟨l, hl, h1, h2⟩ := h
  obtain ⟨l1, hl1, k1, k2⟩ := k
  refine ⟨l ++ l1, by rw [hl1, hl, List.append_assoc], ?_, ?_⟩
  · intro hq
    by_cases hq1 : Q1 ∨ ∃ e ∈ l1, Call.quit ∈ e.run.calls
    · exact k1 hq1
    · have hn1 : ¬ Q1 := fun h => hq1 (Or.inl h)
      have hn2 : ∀ e ∈ l1, Call.quit ∉ e.run.calls := fun e he h => hq1 (Or.inr ⟨e, he, h⟩)
      rw [k2 hn1 hn2]
      apply h1
      rcases hq with (hq | hq) | ⟨e, he, hq⟩
      · exact Or.inl hq
      · exact absurd hq hn1
      · rcases List.mem_append.mp he with he | he
        · exact Or.inr ⟨e, he, hq⟩
        · exact absurd hq (hn2 e he)
  · intro hq hall
    rw [k2 (fun h => hq (Or.inr h)) (fun e he => hall e (List.mem_append_right _ he)),
      h2 (fun h => hq (Or.inl h)) (fun e he => hall e (List.mem_append_left _ he))]

theorem runCalls_tracks {iter : Bool → Loop → Option (Bool × Loop)} (hiter : Tracking iter)
    (calls : List Call) (st st1 : Loop) (h : runCalls iter calls st = some st1) :
    Tracks (Call.quit ∈ calls) st st1 := by
  induction calls generalizing st with
  | nil =>
    simp only [runCalls, Option.some.injEq] at h
    subst h
    exact (Tracks.of_same rfl rfl).recond (by simp)
  | cons c rest ih =>
    cases c with
    | connect x =>
      simp only [runCalls] at h
      have g : Tracks False st (st.connect x).2 := Tracks.of_same rfl rfl
      exact (g.append (ih _ h)).recond (by simp)
    | remove x =>
      simp only [runCalls] at h
      have g : Tracks False st (st.remove x) := Tracks.of_same rfl rfl
      exact (g.append (ih _ h)).recond (by simp)
    | iteration b =>
      simp only [runCalls] at h
      cases hi : iter b st with
      | none => simp [hi] at h
      | some r =>
        simp only [hi] at h
        exact ((hiter b st r hi).append (ih _ h)).recond (by simp)
    | quit =>
      simp only [runCalls] at h
      have g : Tracks True st st.quit.2 := ⟨[], by simp [Loop.quit], fun _ => rfl, by simp⟩
      exact (g.append (ih _ h)).recond (by simp)

/-- Closing a dispatch for `Tracks`: the invocation `e` was recorded first, then
its calls were executed. -/
theorem Tracks.closing (st : Loop) (e : SlotCall) {st0 st1 st2 : Loop}
    (g : Tracks (Call.quit ∈ e.run.calls) st0 st1) (hl0 : st0.log = st.log ++ [e])
    (hr0 : st0.running = st.running) (hl2 : st2.log = st1.log)
    (hr2 : st2.running = st1.running) : Tracks False st st2 := by
  obtain ⟨l, hl, h1, h2⟩ := g
  refine ⟨e :: l, by rw [hl2, hl, hl0]; simp, ?_, ?_⟩
  · intro hq
    rw [hr2]
    apply h1
    rcases hq with hq | ⟨e1, he1, hq⟩
    · exact absurd hq id
    · rcases List.mem_cons.mp he1 with rfl | he1
      · exact Or.inl hq
      · exact Or.inr ⟨e1, he1, hq⟩
  · intro _ hall
    rw [hr2, h2 (hall e (List.mem_cons_self _ _))
      (fun e1 he1 => hall e1 (List.mem_cons_of_mem _ he1)), hr0]

theorem Source.dispatch_tracks {iter : Bool → Loop → Option (Bool × Loop)}
    (hiter : Tracking iter) {fuel : Nat} {env : Env} {st : Loop} {this : Nat}
    {r : Bool × Loop} (h : Source.dispatch iter fuel env st this = some r) :
    Tracks False st r.2 := by
  simp only [Source.dispatch] at h
  split at h
  · simp only [TimeoutSource.dispatch, now] at h
    split at h
    · simp at h
    · split at h
      · simp at h
      · rename_i res st3 h3
        simp only [Option.some.injEq] at h
        subst h
        obtain ⟨_, hrun⟩ := invokeSlot_eq_some h3
        refine Tracks.closing st ⟨this, none, env.slot this st.log none⟩
          (runCalls_tracks hiter _ _ _ hrun) rfl rfl ?_ ?_ <;> cases res <;> rfl
  · simp only [IoSource.dispatch] at h
    split at h
    · simp at h
    · rename_i res st3 h3
      simp only [Option.some.injEq] at h
      subst h
      obtain ⟨_, hrun⟩ := invokeSlot_eq_some h3
      refine Tracks.closing st ⟨this, some ((st.pfd this).fd, (st.pfd this).revents),
        env.slot this st.log (some ((st.pfd this).fd, (st.pfd this).revents))⟩
        (runCalls_tracks hiter _ _ _ hrun) rfl rfl ?_ ?_ <;> cases res <;> rfl

theorem Tracks.left {Q : Prop} {st st1 st2 : Loop} (h : Tracks False st st1)
    (k : Tracks Q st1 st2) : Tracks Q st st2 :=
  (h.append k).recond (by simp)

theorem dispatchLoop_tracks {iter : Bool → Loop → Option (Bool × Loop)}
    (hiter : Tracking iter) (fuel : Nat) (env : Env) (srcs : List Nat) (st st1 : Loop)
    (h : dispatchLoop iter fuel env srcs st = some st1) : Tracks False st st1 := by
  induction srcs generalizing st with
  | nil =>
    simp only [dispatchLoop, Option.some.injEq] at h
    subst h
    exact Tracks.of_same rfl rfl
  | cons s rest ih =>
    obtain ⟨hc, _⟩ := Source.check_same env st s
    have gc : Tracks False st (Source.check env st s).2 := Tracks.of_same hc.log hc.running
    simp only [dispatchLoop] at h
    split at h
    · split at h
      · simp at h
      · rename_i r hr
        exact gc.left ((Source.dispatch_tracks hiter hr).left (ih _ h))
    · exact gc.left (ih _ h)

theorem finish_running (st : Loop) : (finish st).2.running = st.running := by
  simp only [finish, commit]
  split <;> rfl

theorem iteration_tracking (env : Env) (fuel : Nat) :
    Tracking (fun b s => iteration env fuel b s) := by
  induction fuel with
  | zero => intro b st r h; simp [iteration] at h
  | succ f ih =>
    intro b st r h
    obtain ⟨f1, st2, hf, h2, hr⟩ := iteration_eq_some h
    obtain rfl : f = f1 := by omega
    obtain ⟨hb, _, _⟩ := beforeDispatch_same env b st
    have g0 : Tracks False st (beforeDispatch env b st) := Tracks.of_same hb.log hb.running
    have g1 := dispatchLoop_tracks ih f env _ _ st2 h2
    have g2 : Tracks False st2 r.2 := by
      rw [hr]
      exact Tracks.of_same (finish_log st2) (finish_running st2)
    exact g0.left (g1.left g2)

theorem runLoop_of_stopped (env : Env) (fuel n : Nat) (st : Loop) (h : st.running = false) :
    runLoop env fuel n st = some st := by
  cases n <;> simp [runLoop, h]

theorem setRunning_self (st : Loop) (h : st.running = false) :
    setRunning st false = st := by
  cases st
  simp_all [setRunning]

/-- The `while` loop of `run`, started with `running` set, returns `st1` exactly
when some iteration is the first to return false or to leave `running` false,
and `st1` is the state after that iteration with `running` false. -/
theorem runLoop_iff (env : Env) (fuel n : Nat) (s st1 : Loop) (hs : s.running = true) :
    runLoop env fuel n s = some st1 ↔
      ∃ k sk r, k < n ∧ iterations env fuel true k s = some sk ∧
        (∀ j, j < k → ∃ sj rj, iterations env fuel true j s = some sj ∧
          iteration env fuel true sj = some rj ∧ rj.1 = true ∧ rj.2.running = true) ∧
        iteration env fuel true sk = some r ∧ (r.1 = false ∨ r.2.running = false) ∧
        st1 = setRunning r.2 false := by
  induction n generalizing s with
  | zero => simp [runLoop, hs]
  | succ n ih =>
    simp only [runLoop, hs, if_true]
    cases hi : iteration env fuel true s with
    | none =>
      simp only []
      constructor
      · intro h
        exact Option.noConfusion h
      rintro ⟨k, sk, r, _, hk, hchain, hit, _, _⟩
      cases k with
      | zero =>
        simp only [iterations, Option.some.injEq] at hk
        subst hk
        rw [hi] at hit
        exact Option.noConfusion hit
      | succ k =>
        obtain ⟨sj, rj, h0, h1, _, _⟩ := hchain 0 (by omega)
        simp only [iterations, Option.some.injEq] at h0
        subst h0
        rw [hi] at h1
        exact Option.noConfusion h1
    | some r0 =>
      simp only []
      by_cases hstop : r0.1 = false ∨ r0.2.running = false
      · have hnext : (if !r0.1 then setRunning r0.2 false else r0.2) =
            setRunning r0.2 false := by
          rcases hstop with h | h
          · simp [h]
          · by_cases hb : r0.1 = true
            · simp [hb, setRunning_self r0.2 h]
            · simp [hb]
        rw [hnext, runLoop_of_stopped env fuel n _ rfl]
        constructor
        · intro h
          simp only [Option.some.injEq] at h
          exact ⟨0, s, r0, by omega, rfl, fun j hj => absurd hj (by omega), hi, hstop, h.symm⟩
        · rintro ⟨k, sk, r, _, hk, hchain, hit, _, hst⟩
          cases k with
          | zero =>
            simp only [iterations, Option.some.injEq] at hk
            subst hk
            rw [hi] at hit
            simp only [Option.some.injEq] at hit
            subst hit
            rw [hst]
          | succ k =>
            obtain ⟨sj, rj, h0, h1, h2, h3⟩ := hchain 0 (by omega)
            simp only [iterations, Option.some.injEq] at h0
            subst h0
            rw [hi] at h1
            simp only [Option.some.injEq] at h1
            subst h1
            rcases hstop with h | h
            · rw [h] at h2; exact Bool.noConfusion h2
            · rw [h] at h3; exact Bool.noConfusion h3
      · have hb : r0.1 = true := by
          by_contra hcon
          exact hstop (Or.inl (by simpa using hcon))
        have hrun : r0.2.running = true := by
          by_contra hcon
          exact hstop (Or.inr (by simpa using hcon))
        have hnext : (if !r0.1 then setRunning r0.2 false else r0.2) = r0.2 := by
          simp [hb]
        rw [hnext, ih r0.2 hrun]
        constructor
        · rintro ⟨k, sk, r, hkn, hk, hchain, hit, hst, hres⟩
          refine ⟨k + 1, sk, r, by omega, by simp only [iterations, hi]; exact hk, ?_, hit,
            hst, hres⟩
          intro j hj
          cases j with
          | zero => exact ⟨s, r0, rfl, hi, hb, hrun⟩
          | succ j =>
            obtain ⟨sj, rj, h0, h1, h2, h3⟩ := hchain j (by omega)
            exact ⟨sj, rj, by simp only [iterations, hi]; exact h0, h1, h2, h3⟩
        · rintro ⟨k, sk, r, hkn, hk, hchain, hit, hst, hres⟩
          cases k with
          | zero =>
            simp only [iterations, Option.some.injEq] at hk
            subst hk
            rw [hi] at hit
            simp only [Option.some.injEq] at hit
            subst hit
            exact absurd hst hstop
          | succ k =>
            refine ⟨k, sk, r, by omega, by simpa only [iterations, hi] using hk, ?_, hit,
              hst, hres⟩
            intro j hj
            obtain ⟨sj, rj, h0, h1, h2, h3⟩ := hchain (j + 1) (by omega)
            exact ⟨sj, rj, by simpa only [iterations, hi] using h0, h1, h2, h3⟩


theorem Keeps.next {st st1 st2 : Loop} (h : Keeps st st1) (k : Keeps st1 st2) : Keeps st st2 :=
  ⟨k.sources.trans h.sources, h.removed.trans k.removed, h.added.trans k.added⟩

theorem to_ms_of_nonneg {d : Int} (h : 0 ≤ d) : to_ms d = d / 1000000 := by
  unfold to_ms ns_per_ms
  exact Int.tdiv_eq_ediv h (by norm_num)

theorem to_ms_of_neg {d : Int} (h : d < 0) : to_ms d = -((-d) / 1000000) := by
  unfold to_ms ns_per_ms
  have h1 : d = -(-d) := by omega
  rw [h1, Int.neg_tdiv, Int.tdiv_eq_ediv (by omega) (by norm_num)]
  simp

theorem to_ms_nonpos_iff (d : Int) : to_ms d ≤ 0 ↔ d < ns_per_ms := by
  unfold ns_per_ms
  rcases lt_or_le d 0 with h | h
  · rw [to_ms_of_neg h]
    constructor <;> intro _ <;> omega
  · rw [to_ms_of_nonneg h]
    constructor <;> intro _ <;> omega

theorem to_ms_nonneg {d : Int} (h : 0 ≤ d) : 0 ≤ to_ms d := by
  rw [to_ms_of_nonneg h]
  omega

/-- With an interval of 0 or less the catch-up loop that does not stop after its
first addition does not stop at all. -/
theorem catchUp_eq_none {t interval next : Int} (hI : interval ≤ 0)
    (hlate : next + interval ≤ t) (fuel : Nat) : catchUp fuel t interval next = none := by
  induction fuel generalizing next with
  | zero => rfl
  | succ f ih =>
    simp only [catchUp]
    rw [if_pos (by omega)]
    exact ih (by omega)

/-- The catch-up loop stops, and then with every larger fuel and the same
value, exactly when the interval is positive or one addition passes the clock. -/
theorem catchUp_stops_iff (t interval next : Int) :
    (∃ F r, ∀ fuel, F ≤ fuel → catchUp fuel t interval next = some r) ↔
      (0 < interval ∨ t < next + interval) := by
  constructor
  · rintro ⟨F, r, h⟩
    by_contra hcon
    have hI : interval ≤ 0 := by omega
    have hlate : next + interval ≤ t := by omega
    have h1 : catchUp F t interval next = none := catchUp_eq_none hI hlate F
    rw [h F (le_refl _)] at h1
    exact Option.noConfusion h1
  · intro h
    by_cases hI : 0 < interval
    · have hfuel : (t - next).toNat < (t - next).toNat + 1 := by omega
      obtain ⟨r, hr⟩ := catchUp_isSome hI hfuel
      exact ⟨_, r, fun fuel hf => catchUp_mono hf hr⟩
    · have h2 : t < next + interval := by omega
      refine ⟨1, next + interval, fun fuel hf => catchUp_mono hf ?_⟩
      simp only [catchUp]
      rw [if_neg (by omega)]


/-- The value `iteration` returns tells whether the live set it leaves is empty. -/
theorem iteration_result {env : Env} {fuel : Nat} {may_block : Bool} {st : Loop}
    {r : Bool × Loop} (h : iteration env fuel may_block st = some r) :
    r.1 = !r.2.sources.isEmpty := by
  obtain ⟨f, st2, _, _, hr⟩ := iteration_eq_some h
  rw [hr]
  rfl

/-- When the `while` loop of `run`, started with `running` set, returns, it has
performed a first iteration, and it stopped because the live set was empty after
an iteration or because a slot invoked in the meantime called `quit`. -/
theorem runLoop_stops (env : Env) (fuel n : Nat) (s st1 : Loop) (hs : s.running = true)
    (h : runLoop env fuel n s = some st1) :
    (∃ r, iteration env fuel true s = some r) ∧
    ∃ l, st1.log = s.log ++ l ∧ (st1.sources = [] ∨ ∃ e ∈ l, Call.quit ∈ e.run.calls) := by
  induction n generalizing s with
  | zero => simp [runLoop, hs] at h
  | succ n ih =>
    simp only [runLoop, hs, if_true] at h
    cases hi : iteration env fuel true s with
    | none => rw [hi] at h; exact Option.noConfusion h
    | some r0 =>
      rw [hi] at h
      simp only at h
      refine ⟨⟨r0, rfl⟩, ?_⟩
      obtain ⟨l0, hl0, _, hkeep⟩ := iteration_tracking env fuel true s r0 hi
      by_cases hb : r0.1 = true
      · have hnext : (if !r0.1 then setRunning r0.2 false else r0.2) = r0.2 := by simp [hb]
        rw [hnext] at h
        by_cases hrun : r0.2.running = true
        · obtain ⟨_, l1, hl1, hor⟩ := ih r0.2 hrun h
          refine ⟨l0 ++ l1, by rw [hl1, hl0, List.append_assoc], ?_⟩
          rcases hor with h1 | ⟨e, he, hq⟩
          · exact Or.inl h1
          · exact Or.inr ⟨e, List.mem_append_right _ he, hq⟩
        · have hstop : r0.2.running = false := by simpa using hrun
          rw [runLoop_of_stopped env fuel n _ hstop] at h
          simp only [Option.some.injEq] at h
          subst h
          refine ⟨l0, hl0, Or.inr ?_⟩
          by_contra hcon
          have hno : ∀ e ∈ l0, Call.quit ∉ e.run.calls := by
            intro e he hq
            exact hcon ⟨e, he, hq⟩
          have := hkeep (fun hf => hf) hno
          rw [hstop, hs] at this
          exact Bool.noConfusion this
      · have hb2 : r0.1 = false := by simpa using hb
        have hnext : (if !r0.1 then setRunning r0.2 false else r0.2) = setRunning r0.2 false := by
          simp [hb2]
        rw [hnext, runLoop_of_stopped env fuel n _ rfl] at h
        simp only [Option.some.injEq] at h
        subst h
        refine ⟨l0, hl0, Or.inl ?_⟩
        have hres := iteration_result hi
        rw [hb2] at hres
        have : r0.2.sources.isEmpty = true := by simpa using hres.symm
        simpa [setRunning] using this


/-- The dispatching loop over a concatenation is the loop over the first part
followed by the loop over the second. -/
theorem dispatchLoop_append (iter : Bool → Loop → Option (Bool × Loop)) (fuel : Nat)
    (env : Env) (pre tail : List Nat) (st st2 : Loop) :
    dispatchLoop iter fuel env (pre ++ tail) st = some st2 ↔
      ∃ stA, dispatchLoop iter fuel env pre st = some stA ∧
        dispatchLoop iter fuel env tail stA = some st2 := by
  induction pre generalizing st with
  | nil => simp [dispatchLoop]
  | cons x rest ih =>
    simp only [List.cons_append, dispatchLoop]
    split
    · split
      · simp
      · rename_i r hr
        exact ih r.2
    · exact ih _


/-- A count within the 64 bit range is kept as it is. -/
theorem wrap64_of_inRange {x : Int} (hlo : -2 ^ 63 ≤ x) (hhi : x < 2 ^ 63) : wrap64 x = x := by
  unfold wrap64
  omega

/-- On unbounded integers, `check` is true exactly when `prepare` reports 0 ms,
which is exactly when `next_time - now` is below one millisecond, and `prepare`
reports no negative timeout. -/
theorem TimeoutSource.readiness (env : Env) (st : Loop) (this : Nat) (timeout_ms : Int) :
    ((TimeoutSource.check env st this).1 = true ↔
      st.next_time this - env.clock st.clock_reads < ns_per_ms) ∧
    ((TimeoutSource.prepare env st this timeout_ms).2.1 = 0 ↔
      st.next_time this - env.clock st.clock_reads < ns_per_ms) ∧
    0 ≤ (TimeoutSource.prepare env st this timeout_ms).2.1 := by
  refine ⟨?_, ?_, ?_⟩
  · simp only [TimeoutSource.check, now]
    rw [← to_ms_nonpos_iff]
    split <;> simp [*]
  · simp only [TimeoutSource.prepare, now]
    split
    · rename_i h
      simp only [true_iff]
      unfold ns_per_ms
      omega
    · rename_i h
      have h0 : 0 ≤ st.next_time this - env.clock st.clock_reads := by omega
      have := to_ms_nonneg h0
      rw [← to_ms_nonpos_iff]
      simp only
      omega
  · simp only [TimeoutSource.prepare, now]
    split
    · simp
    · rename_i h
      exact to_ms_nonneg (by omega)

/-- When `next_time - now` is a 64 bit count, `check` on 64 bit counts is
`check` on unbounded integers. -/
theorem TimeoutSource.check_int64 (env : Env) (st : Loop) (this : Nat)
    (hlo : -2 ^ 63 ≤ st.next_time this - env.clock st.clock_reads)
    (hhi : st.next_time this - env.clock st.clock_reads < 2 ^ 63) :
    int64.TimeoutSource.check env st this = TimeoutSource.check env st this := by
  simp only [int64.TimeoutSource.check, TimeoutSource.check, now, wrap64_of_inRange hlo hhi]

/-- When `next_time - now` is a 64 bit count, `prepare` on 64 bit counts is
`prepare` on unbounded integers. -/
theorem TimeoutSource.prepare_int64 (env : Env) (st : Loop) (this : Nat) (timeout_ms : Int)
    (hlo : -2 ^ 63 ≤ st.next_time this - env.clock st.clock_reads)
    (hhi : st.next_time this - env.clock st.clock_reads < 2 ^ 63) :
    int64.TimeoutSource.prepare env st this timeout_ms =
      TimeoutSource.prepare env st this timeout_ms := by
  simp only [int64.TimeoutSource.prepare, TimeoutSource.prepare, now,
    wrap64_of_inRange hlo hhi]

/-- With an interval that is not negative, the catch-up loop on 64 bit counts is
the loop on unbounded integers as long as `next_time + interval` and
`now + interval` are 64 bit counts. -/
theorem catchUp_int64 {t interval next : Int} (hI : 0 ≤ interval) (hn : -2 ^ 63 ≤ next)
    (hnI : next + interval < 2 ^ 63) (htI : t + interval < 2 ^ 63) (fuel : Nat) :
    int64.catchUp fuel t interval next = catchUp fuel t interval next := by
  induction fuel generalizing next with
  | zero => rfl
  | succ f ih =>
    have hw : wrap64 (next + interval) = next + interval :=
      wrap64_of_inRange (by omega) hnI
    simp only [int64.catchUp, catchUp, hw]
    split
    · rename_i hge
      exact ih (by omega) (by omega)
    · rfl

/-- With an interval of 0 or less and a deadline that one addition does not
carry past the clock, the catch-up loop on 64 bit counts does not stop as long
as `next_time` stays a 64 bit count. -/
theorem catchUp_int64_eq_none {t interval next : Int} (hI : interval ≤ 0)
    (hlate : next + interval ≤ t) (hhi : next < 2 ^ 63) (fuel : Nat)
    (hlo : -2 ^ 63 ≤ next + (fuel : Int) * interval) :
    int64.catchUp fuel t interval next = none := by
  induction fuel generalizing next with
  | zero => rfl
  | succ f ih =>
    have e : (((f + 1 : Nat) : Int)) * interval = (f : Int) * interval + interval := by
      push_cast; ring
    rw [e] at hlo
    have hf : (f : Int) * interval ≤ 0 :=
      mul_nonpos_of_nonneg_of_nonpos (Int.ofNat_nonneg f) hI
    have hw : wrap64 (next + interval) = next + interval :=
      wrap64_of_inRange (by omega) (by omega)
    simp only [int64.catchUp, hw]
    rw [if_pos (by omega)]
    exact ih (by omega) (by omega) (by omega)


/-- The end of a timer's `dispatch`, from the invocation of the slot on. -/
theorem invokeSlot_closing (iter : Bool → Loop → Option (Bool × Loop)) (env : Env)
    (st2 : Loop) (this : Nat) (args : Option (Int × Nat)) (r : Bool × Loop) :
    (match invokeSlot iter env st2 this args with
      | none => none
      | some (result, st3) =>
        some (result, if !result then Source.destroy st3 this else st3)) = some r ↔
      ∃ st0, invokeSlot iter env st2 this args = some (r.1, st0) ∧
        r.2 = if r.1 then st0 else Source.destroy st0 this := by
  cases h : invokeSlot iter env st2 this args with
  | none => simp
  | some p =>
    obtain ⟨res, st3⟩ := p
    obtain ⟨b, s⟩ := r
    cases res <;> cases b <;> simp [eq_comm]

/-- What `IoSource::dispatch` is: it returns exactly when the invocation of the
slot returns, with the value of the slot, the Source enqueued for removal when
that value is false, and `revents` cleared. -/
theorem IoSource.dispatch_io_iff (iter : Bool → Loop → Option (Bool × Loop)) (env : Env)
    (st : Loop) (this : Nat) (r : Bool × Loop) :
    IoSource.dispatch iter env st this = some r ↔
      ∃ st0, invokeSlot iter env st this
          (some ((st.pfd this).fd, (st.pfd this).revents)) = some (r.1, st0) ∧
        r.2 = setRevents (if r.1 then st0 else Source.destroy st0 this) this 0 := by
  simp only [IoSource.dispatch]
  cases h : invokeSlot iter env st this (some ((st.pfd this).fd, (st.pfd this).revents)) with
  | none => simp
  | some p =>
    obtain ⟨res, st3⟩ := p
    obtain ⟨b, s⟩ := r
    cases res <;> cases b <;> simp [eq_comm]

/-- What `TimeoutSource::dispatch` is: it returns exactly when the catch-up loop
ends and the invocation of the slot returns, with the value of the slot and the
Source enqueued for removal when that value is false. -/
theorem TimeoutSource.dispatch_timer_iff (iter : Bool → Loop → Option (Bool × Loop)) (fuel : Nat)
    (env : Env) (st : Loop) (this : Nat) (r : Bool × Loop) :
    TimeoutSource.dispatch iter fuel env st this = some r ↔
      ∃ next st0, catchUp fuel (env.clock st.clock_reads) (env.interval this * ns_per_ms)
          (st.next_time this) = some next ∧
        invokeSlot iter env (setNextTime (now env st).2 this next) this none =
          some (r.1, st0) ∧
        r.2 = if r.1 then st0 else Source.destroy st0 this := by
  cases hc : catchUp fuel (env.clock st.clock_reads) (env.interval this * ns_per_ms)
      (st.next_time this) with
  | none => simp [TimeoutSource.dispatch, now, hc]
  | some next =>
    have h := invokeSlot_closing iter env (setNextTime (now env st).2 this next) this none r
    have key : TimeoutSource.dispatch iter fuel env st this =
        (match invokeSlot iter env (setNextTime (now env st).2 this next) this none with
          | none => none
          | some (result, st3) =>
            some (result, if !result then Source.destroy st3 this else st3)) := by
      simp only [TimeoutSource.dispatch, now, hc]
      rfl
    rw [key, h]
    constructor
    · rintro ⟨st0, h1, h2⟩
      exact ⟨next, st0, rfl, h1, h2⟩
    · rintro ⟨n1, st0, hn, h1, h2⟩
      obtain rfl : next = n1 := Option.some.inj hn
      exact ⟨st0, h1, h2⟩

/-- The same for `TimeoutSource::dispatch` on 64 bit counts. -/
theorem TimeoutSource.dispatch_int64_iff (iter : Bool → Loop → Option (Bool × Loop))
    (fuel : Nat) (env : Env) (st : Loop) (this : Nat) (r : Bool × Loop) :
    int64.TimeoutSource.dispatch iter fuel env st this = some r ↔
      ∃ next st0, int64.catchUp fuel (env.clock st.clock_reads)
          (wrap64 (env.interval this * ns_per_ms)) (st.next_time this) = some next ∧
        invokeSlot iter env (setNextTime (now env st).2 this next) this none =
          some (r.1, st0) ∧
        r.2 = if r.1 then st0 else Source.destroy st0 this := by
  cases hc : int64.catchUp fuel (env.clock st.clock_reads)
      (wrap64 (env.interval this * ns_per_ms)) (st.next_time this) with
  | none => simp [int64.TimeoutSource.dispatch, now, hc]
  | some next =>
    have h := invokeSlot_closing iter env (setNextTime (now env st).2 this next) this none r
    have key : int64.TimeoutSource.dispatch iter fuel env st this =
        (match invokeSlot iter env (setNextTime (now env st).2 this next) this none with
          | none => none
          | some (result, st3) =>
            some (result, if !result then Source.destroy st3 this else st3)) := by
      simp only [int64.TimeoutSource.dispatch, now, hc]
      rfl
    rw [key, h]
    constructor
    · rintro ⟨st0, h1, h2⟩
      exact ⟨next, st0, rfl, h1, h2⟩
    · rintro ⟨n1, st0, hn, h1, h2⟩
      obtain rfl : next = n1 := Option.some.inj hn
      exact ⟨st0, h1, h2⟩


/-! ## The claims -/

/-- C1: `Loop::iteration` returns false exactly when the live Source set is
empty after the commit part of the iteration (which applies the queued removals
and additions when the running depth is 1), for every state and every
`may_block`; and the iteration does return when the live timers have positive
intervals and no slot makes a nested call. -/
theorem iteration_false_iff_empty (env : Env) (may_block : Bool) (st : Loop) :
    (∀ fuel b st1, iteration env fuel may_block st = some (b, st1) →
      (b = false ↔ st1.sources = []) ∧
      ∃ f st2, dispatchLoop (fun b s => iteration env f b s) f env
          (beforeDispatch env may_block st).sources (beforeDispatch env may_block st) =
            some st2 ∧
        st1.sources = (commit st2).sources) ∧
    ((∀ s ∈ st.sources, (env.kind s = Kind.timeout → 0 < env.interval s) ∧
        ∀ hist args, ∀ c ∈ (env.slot s hist args).calls, c.isNested = false) →
      ∃ F b st1, (∀ fuel, F ≤ fuel → iteration env fuel may_block st = some (b, st1)) ∧
        (b = false ↔ st1.sources = [])) := by
  have main : ∀ fuel b st1, iteration env fuel may_block st = some (b, st1) →
      (b = false ↔ st1.sources = []) ∧
      ∃ f st2, dispatchLoop (fun b s => iteration env f b s) f env
          (beforeDispatch env may_block st).sources (beforeDispatch env may_block st) =
            some st2 ∧
        st1.sources = (commit st2).sources := by
    intro fuel b st1 h
    obtain ⟨f, st2, _, h2, hr⟩ := iteration_eq_some h
    have hb : b = !(commit st2).sources.isEmpty := by
      have := congrArg Prod.fst hr
      simpa [finish] using this
    have hs : st1.sources = (commit st2).sources := by
      have := congrArg (fun x => x.2.sources) hr
      simpa [finish] using this
    have key : b = false ↔ (commit st2).sources = [] := by
      rw [hb]
      cases (commit st2).sources <;> simp
    exact ⟨by rw [hs]; exact key, f, st2, h2, hs⟩
  refine ⟨main, ?_⟩
  intro hyp
  obtain ⟨F, r, hr⟩ := iteration_returns env may_block st (fun s hs => (hyp s hs).1)
    (fun s hs => (hyp s hs).2)
  exact ⟨F, r.1, r.2, hr, (main F r.1 r.2 (hr F (le_refl _))).1⟩

/-- The iteration of the example loop with live set `[1]` returns, and C1 holds of it. -/
theorem iteration_false_iff_empty_witness :
    (iteration exEnv 2 true (exLoop [1]) =
        some (true, ((iteration exEnv 2 true (exLoop [1])).getD (false, exLoop [])).2) ∧
      ((true = false) ↔
        ((iteration exEnv 2 true (exLoop [1])).getD (false, exLoop [])).2.sources = []) ∧
      ((iteration exEnv 2 true (exLoop [1])).getD (false, exLoop [])).2.sources = [2]) ∧
    ∃ F b st1, (∀ fuel, F ≤ fuel → iteration exEnv fuel true (exLoop [1]) = some (b, st1)) ∧
      (b = false ↔ st1.sources = []) :=
  ⟨⟨rfl, ((iteration_false_iff_empty exEnv true (exLoop [1])).1 2 true _ rfl).1, by decide⟩,
    (iteration_false_iff_empty exEnv true (exLoop [1])).2 (by
      intro s hs
      obtain rfl : s = 1 := by simpa [exLoop] using hs
      exact ⟨fun _ => by decide, fun _ _ c hc => by
        simp only [exEnv, if_true, List.mem_cons, List.mem_singleton, List.not_mem_nil,
          or_false] at hc
        rcases hc with rfl | rfl <;> rfl⟩)⟩

/-- C2 as stated fails: `connect(7)` followed by `remove(7)` on an empty loop
leaves 7 in the live set after the commit, while applying the two calls one
after the other to the empty set leaves it empty. -/
theorem connect_then_remove_stays :
    (runCalls (fun _ _ => none) [Call.connect 7, Call.remove 7] (exLoop [])).map
      (fun s => (commit { s with running_depth := 1 }).sources) = some [7] ∧
    [Call.connect 7, Call.remove 7].foldl applyCall (exLoop []).sources = [] := by
  decide

/-- C2, amended: `connect` and `remove` calls issued on a loop with empty queues
leave the live set as it is, and the commit of a depth-1 iteration then erases
every removed source and afterwards appends every connected source; when no
`remove(s)` follows a `connect(s)` of the same source this is the set obtained
by applying the calls one at a time in submission order. -/
theorem commit_eq_sequential (iter : Bool → Loop → Option (Bool × Loop))
    (calls : List Call) (st : Loop) (hmut : ∀ c ∈ calls, c.isMutation = true)
    (hr : st.removed_sources = []) (ha : st.added_sources = []) :
    ∃ st1, runCalls iter calls st = some st1 ∧ st1.sources = st.sources ∧
      (commit { st1 with running_depth := 1 }).sources =
        (removesOf calls).foldl eraseSource st.sources ++ connectsOf calls ∧
      (noRemoveAfterConnect calls = true →
        (commit { st1 with running_depth := 1 }).sources =
          calls.foldl applyCall st.sources) := by
  obtain ⟨st1, h1, h2, _, h4, h5, _⟩ :=
    runCalls_of_not_nested iter calls st (not_nested_of_mutation hmut)
  have hc : (commit { st1 with running_depth := 1 }).sources =
      (removesOf calls).foldl eraseSource st.sources ++ connectsOf calls := by
    simp [commit, h2, h4, h5, hr, ha]
  exact ⟨st1, h1, h2, hc, fun hord => by rw [hc, foldl_applyCall calls st.sources hord]⟩

/-- The amended C2 on `remove(1)` followed by `connect(2)` in a loop whose live set is `[1]`. -/
theorem commit_eq_sequential_witness :
    ∃ st1, runCalls (fun _ _ => none) [Call.remove 1, Call.connect 2] (exLoop [1]) = some st1 ∧
      st1.sources = [1] ∧
      (commit { st1 with running_depth := 1 }).sources = [2] ∧
      (commit { st1 with running_depth := 1 }).sources =
        [Call.remove 1, Call.connect 2].foldl applyCall [1] := by
  obtain ⟨st1, h1, h2, h3, h4⟩ := commit_eq_sequential (fun _ _ => none)
    [Call.remove 1, Call.connect 2] (exLoop [1]) (by decide) rfl rfl
  exact ⟨st1, h1, h2, h3, h4 (by decide)⟩

/-- C3: an iteration entered at running depth 1 or more (a nested one) leaves
the live Source set and the depth as they were and only appends to the two
queues; an iteration entered at depth 0 applies, in its commit, the requests
queued before it together with every request made during it at any depth, and
leaves both queues empty. -/
theorem nested_iteration_defers (env : Env) (fuel : Nat) (may_block : Bool)
    (st : Loop) (b : Bool) (st1 : Loop)
    (h : iteration env fuel may_block st = some (b, st1)) :
    (1 ≤ st.running_depth →
      st1.sources = st.sources ∧ st1.running_depth = st.running_depth ∧
      st.removed_sources <+: st1.removed_sources ∧
      st.added_sources <+: st1.added_sources) ∧
    (st.running_depth = 0 →
      ∃ l r a, st1.log = st.log ++ l ∧
        (∀ s, s ∈ r ↔ ∃ e ∈ l, e.removes s) ∧ (∀ s, s ∈ a ↔ ∃ e ∈ l, e.connects s) ∧
        st1.sources =
          (st.removed_sources ++ r).foldl eraseSource st.sources ++ (st.added_sources ++ a) ∧
        st1.removed_sources = [] ∧ st1.added_sources = [] ∧ st1.running_depth = 0) := by
  constructor
  · intro hd
    have g := iteration_deferring env fuel may_block st (b, st1) hd h
    obtain ⟨hs, hdp, l, r, a, _, hr, ha, _⟩ := g
    exact ⟨hs, hdp, ⟨r, hr.symm⟩, ⟨a, ha.symm⟩⟩
  · intro hd
    obtain ⟨st2, g, hd2, hr⟩ := iteration_top hd h
    obtain ⟨hb, _, _⟩ := beforeDispatch_same env may_block st
    obtain ⟨hs, _, l, r, a, hl, hrr, haa, hrm, ham, _⟩ := g
    rw [finish_top hd2] at hr
    simp only [Prod.mk.injEq] at hr
    obtain ⟨_, rfl⟩ := hr
    refine ⟨l, r, a, by simp [hl, hb.log], by simpa [noReq] using hrm,
      by simpa [noReq] using ham, ?_, rfl, rfl, rfl⟩
    simp [hs, hrr, haa, hb.sources, hb.removed, hb.added]

/-- C3 on the example loop with live set `[1]`, entered at depth 1 and at depth 0. -/
theorem nested_iteration_defers_witness :
    ((iteration exEnv 2 true { exLoop [1] with running_depth := 1 }).getD
        (false, exLoop [])).2.sources = [1] ∧
    ((iteration exEnv 2 true { exLoop [1] with running_depth := 1 }).getD
        (false, exLoop [])).2.removed_sources = [1] ∧
    ((iteration exEnv 2 true (exLoop [1])).getD (false, exLoop [])).2.sources = [2] :=
  ⟨((nested_iteration_defers exEnv 2 true { exLoop [1] with running_depth := 1 } true _
      rfl).1 (by decide)).1, by decide, by decide⟩


/-- C5: the timeout of the wait in `Loop::iteration` is 0 when `may_block` is
false; otherwise it is the minimum of the timeouts that `prepare` reported over
the live sources, those left at the sentinel -1 ms ignored, and it is the
sentinel exactly when no live source reported a timeout. -/
theorem waitTimeout_eq_min (env : Env) (st : Loop) :
    waitTimeout env false st = 0 ∧
    waitTimeout env true st =
      (((reportedTimeouts env st.sources (enter st)).filter
        (fun r => r ≠ no_timeout)).min?).getD no_timeout ∧
    (waitTimeout env true st = no_timeout ↔
      (reportedTimeouts env st.sources (enter st)).filter (fun r => r ≠ no_timeout) = []) := by
  have key : waitTimeout env true st =
      (((reportedTimeouts env st.sources (enter st)).filter
        (fun r => r ≠ no_timeout)).min?).getD no_timeout := by
    simp only [waitTimeout, clampTimeout, prepared, prepareLoop_timeout]
    simpa using foldl_mergeTimeout_no_timeout _
  refine ⟨by simp [waitTimeout, clampTimeout], key, ?_⟩
  rw [key]
  constructor
  · intro h
    cases hm : ((reportedTimeouts env st.sources (enter st)).filter
        (fun r => r ≠ no_timeout)).min? with
    | none => exact List.min?_eq_none_iff.mp hm
    | some a =>
      rw [hm] at h
      have hmem := List.min?_mem (fun a b => min_choice a b) hm
      have := (List.mem_filter.mp hmem).2
      simp at h
      simp [h] at this
  · intro h
    rw [h]
    rfl

/-- C8: `IoSource::check` returns true exactly when `revents & events` is
non-zero; a hangup bit in `revents` that is not in the interest mask does not
change the outcome of `check`. -/
theorem IoSource_check_iff (st : Loop) (this : Nat) :
    (IoSource.check st this = true ↔
      (st.pfd this).revents &&& (st.pfd this).events ≠ 0) ∧
    ((st.pfd this).events &&& POLLHUP = 0 →
      IoSource.check (setRevents st this ((st.pfd this).revents ||| POLLHUP)) this =
      IoSource.check st this) := by
  constructor
  · simp [IoSource.check]
  · intro h
    have h2 : ((st.pfd this).revents ||| POLLHUP) &&& (st.pfd this).events =
        (st.pfd this).revents &&& (st.pfd this).events := by
      rw [Nat.and_comm, Nat.and_or_distrib_left, h, Nat.or_zero, Nat.and_comm]
    simp [IoSource.check, setRevents, h2]

/-- C8 on the I/O source of the example, whose interest mask 1 does not contain
`POLLHUP`: a hangup alone does not make `check` true. -/
theorem IoSource_check_iff_witness :
    IoSource.check (setRevents (exLoop [3]) 3 (0 ||| POLLHUP)) 3 = false :=
  ((IoSource_check_iff (exLoop [3]) 3).2 (by decide)).trans (by decide)

/-- C4: when the live set is `[T1]`, both queues are empty, and in a depth-1
iteration the slot of `T1` is invoked and calls `connect(T2)` and `remove(T1)`,
the live set after that iteration is `[T2]`; it is still `[T2]` after any number
of further iterations in which the slot of `T2` returns true and calls neither
`connect` nor `remove`. -/
theorem scenario_S4 (env : Env) (fuel : Nat) (may_block : Bool) (st : Loop) (T1 T2 : Nat)
    (res b : Bool) (st1 : Loop)
    (hsrc : st.sources = [T1]) (hr : st.removed_sources = []) (ha : st.added_sources = [])
    (hd : st.running_depth = 0)
    (hT1 : ∀ args, env.slot T1 st.log args = ⟨[.connect T2, .remove T1], res⟩)
    (h : iteration env fuel may_block st = some (b, st1)) (hfire : st1.log ≠ st.log)
    (hT2 : ∀ hist args, (env.slot T2 hist args).result = true ∧
      ∀ c ∈ (env.slot T2 hist args).calls, c.isMutation = false) :
    st1.sources = [T2] ∧
    ∀ n fuel1 may_block1 st3, iterations env fuel1 may_block1 n st1 = some st3 →
      st3.sources = [T2] := by
  have first : st1.sources = [T2] ∧ st1.removed_sources = [] ∧ st1.added_sources = [] ∧
      st1.running_depth = 0 := by
    obtain ⟨f, st2, _, h2, hfin⟩ := iteration_eq_some h
    obtain ⟨hb, hbd, _⟩ := beforeDispatch_same env may_block st
    obtain ⟨hc, hcd⟩ := Source.check_same env (beforeDispatch env may_block st) T1
    rw [hb.sources, hsrc] at h2
    simp only [dispatchLoop] at h2
    split at h2
    · split at h2
      · simp at h2
      · rename_i r1 hr1
        simp only [Option.some.injEq] at h2
        subst h2
        obtain ⟨_, k2, k3, k4, k5, _⟩ := Source.dispatch_of_run
          (by intro args; rw [hc.log, hb.log]; exact hT1 args)
          (by intro c hc; simp at hc; rcases hc with rfl | rfl <;> rfl) hr1
        have hd1 : r1.2.running_depth = 1 := by rw [k3, hcd, hbd, hd]; rfl
        rw [finish_top hd1] at hfin
        simp only [Prod.mk.injEq] at hfin
        obtain ⟨_, rfl⟩ := hfin
        simp only [k2, k4, k5, hc.sources, hb.sources, hsrc, hc.removed, hb.removed, hr,
          hc.added, hb.added, ha, foldl_eraseSource, removesOf, connectsOf]
        simp
    · simp only [Option.some.injEq] at h2
      subst h2
      exfalso
      apply hfire
      have := congrArg (fun x => x.2.log) hfin
      simp only [finish_log] at this
      rw [this, hc.log, hb.log]
  refine ⟨first.1, ?_⟩
  intro n fuel1 may_block1
  have key : ∀ (n : Nat) (s0 s3 : Loop), s0.sources = [T2] → s0.removed_sources = [] →
      s0.added_sources = [] → s0.running_depth = 0 →
      iterations env fuel1 may_block1 n s0 = some s3 → s3.sources = [T2] := by
    intro n
    induction n with
    | zero =>
      intro s0 s3 h1 _ _ _ h5
      simp only [iterations, Option.some.injEq] at h5
      rw [← h5, h1]
    | succ m ih =>
      intro s0 s3 h1 h2 h3 h4 h5
      simp only [iterations] at h5
      split at h5
      · simp at h5
      · rename_i r hr0
        obtain ⟨q1, q2, q3, q4⟩ := quiet_iteration
          (by intro s hs; rw [h1] at hs; rw [List.mem_singleton.mp hs]; exact hT2)
          h2 h3 h4 hr0
        exact ih r.2 s3 (by rw [q1, h1]) q2 q3 q4 h5
  intro st3 h3
  exact key n st1 st3 first.1 first.2.1 first.2.2.1 first.2.2.2 h3

/-- C4 on the example loop: timer 1 connects timer 2 and removes itself. -/
theorem scenario_S4_witness :
    ((iteration exEnv 2 true (exLoop [1])).getD (false, exLoop [])).2.sources = [2] ∧
    ∀ n fuel1 may_block1 st3,
      iterations exEnv fuel1 may_block1 n
        ((iteration exEnv 2 true (exLoop [1])).getD (false, exLoop [])).2 = some st3 →
      st3.sources = [2] :=
  scenario_S4 exEnv 2 true (exLoop [1]) 1 2 true true _ rfl rfl rfl rfl (fun _ => rfl) rfl
    (by decide) (fun _ _ => by simp [exEnv])

/-- C10 as stated fails: in the example loop with the I/O source 3 and the due
timer 2, `poll` returns -1 and the slot of timer 2 is invoked all the same. -/
theorem poll_failure_still_dispatches :
    pollResult exEnv true (exLoop [3, 2]) = some (-1) ∧
    (iteration exEnv 2 true (exLoop [3, 2])).map (fun r => r.2.log.map (fun e => e.source)) =
      some [2] := by
  decide

/-- C12: `Loop::run` sets `running`, then performs `iteration(true)` again and
again and returns right after the first iteration that returns false or leaves
`running` false, with `running` false and nothing else done after that
iteration; an iteration in which a slot calls `quit` still runs to its end,
commit included, and leaves `running` false, so that `run` starts no further
iteration. -/
theorem run_until_empty_or_quit (env : Env) (fuel : Nat) :
    (∀ n st st1, Loop.run env fuel n st = some st1 ↔
      ∃ k sk r, k < n ∧ iterations env fuel true k (setRunning st true) = some sk ∧
        (∀ j, j < k → ∃ sj rj, iterations env fuel true j (setRunning st true) = some sj ∧
          iteration env fuel true sj = some rj ∧ rj.1 = true ∧ rj.2.running = true) ∧
        iteration env fuel true sk = some r ∧ (r.1 = false ∨ r.2.running = false) ∧
        st1 = setRunning r.2 false) ∧
    (∀ may_block st b st1, iteration env fuel may_block st = some (b, st1) →
      ∃ l, st1.log = st.log ++ l ∧
        ((∃ e ∈ l, Call.quit ∈ e.run.calls) → st1.running = false) ∧
        ((∀ e ∈ l, Call.quit ∉ e.run.calls) → st1.running = st.running) ∧
        ∃ f st2, dispatchLoop (fun b s => iteration env f b s) f env
            (beforeDispatch env may_block st).sources (beforeDispatch env may_block st) =
              some st2 ∧
          (b, st1) = finish st2) := by
  constructor
  · intro n st st1
    exact runLoop_iff env fuel n (setRunning st true) st1 rfl
  · intro may_block st b st1 h
    obtain ⟨l, hl, h1, h2⟩ := iteration_tracking env fuel may_block st (b, st1) h
    obtain ⟨f, st2, _, h3, h4⟩ := iteration_eq_some h
    exact ⟨l, hl, fun hq => h1 (Or.inr hq), fun hq => h2 id hq, f, st2, h3, h4⟩

/-- C12 on the example: the slot of timer 6 calls `quit` in the first iteration;
`run` returns after that one iteration with `running` false. -/
theorem run_until_empty_or_quit_witness :
    (Loop.run exEnvQuit 2 3 (exLoop [6])).map
      (fun s => (s.running, s.log.map (fun e => e.source), s.sources)) =
        some (false, [6], [6]) ∧
    ∃ k sk r, k < 3 ∧ iterations exEnvQuit 2 true k (setRunning (exLoop [6]) true) = some sk ∧
      (∀ j, j < k → ∃ sj rj,
        iterations exEnvQuit 2 true j (setRunning (exLoop [6]) true) = some sj ∧
        iteration exEnvQuit 2 true sj = some rj ∧ rj.1 = true ∧ rj.2.running = true) ∧
      iteration exEnvQuit 2 true sk = some r ∧ (r.1 = false ∨ r.2.running = false) ∧
      (Loop.run exEnvQuit 2 3 (exLoop [6])).getD (exLoop []) = setRunning r.2 false :=
  ⟨by decide, ((run_until_empty_or_quit exEnvQuit 2).1 3 (exLoop [6]) _).mp rfl⟩


/-- C27: `Loop::quit` returns false and changes nothing but the flag `running`,
which it clears; `Loop::run` sets the flag on entry, so `run` after a `quit`
does what `run` does without it: when it returns it has performed an iteration,
and it stopped because an iteration left the live set empty or because a slot
invoked during the `run` called `quit`. -/
theorem quit_before_run_is_lost (env : Env) (fuel n : Nat) (st : Loop) :
    st.quit.1 = false ∧ st.quit.2 = setRunning st false ∧
    Loop.run env fuel n st.quit.2 = Loop.run env fuel n st ∧
    (∀ st1, Loop.run env fuel n st.quit.2 = some st1 →
      (∃ r, iteration env fuel true (setRunning st true) = some r) ∧
      ∃ l, st1.log = st.log ++ l ∧
        (st1.sources = [] ∨ ∃ e ∈ l, Call.quit ∈ e.run.calls)) := by
  refine ⟨rfl, rfl, rfl, ?_⟩
  intro st1 h
  exact runLoop_stops env fuel n (setRunning st true) st1 rfl h

/-- C27 on the example: after a `quit`, `run` on the live set `[6]` still invokes
the slot of timer 6, whose `quit` then stops it; without that timer, on `[5]`,
the slot of 5 returns false and `run` stops on the empty live set. -/
theorem quit_before_run_is_lost_witness :
    (exLoop [6]).quit.2.running = false ∧
    (Loop.run exEnvQuit 2 3 (exLoop [6]).quit.2).map
      (fun s => (s.running, s.log.map (fun e => e.source), s.sources)) =
        some (false, [6], [6]) ∧
    (Loop.run exEnvQuit 2 3 (exLoop [5]).quit.2).map
      (fun s => (s.running, s.log.map (fun e => e.source), s.sources)) =
        some (false, [5], []) ∧
    ∃ r, iteration exEnvQuit 2 true (setRunning (exLoop [6]) true) = some r :=
  ⟨rfl, by decide, by decide,
    ((quit_before_run_is_lost exEnvQuit 2 3 (exLoop [6])).2.2.2
      ((Loop.run exEnvQuit 2 3 (exLoop [6]).quit.2).getD (exLoop [])) rfl).1⟩


/-- C24: in an `iteration` entered at any depth, when the dispatching loop
reaches the Source `s` of the live set, the live set is as it was at entry,
whatever removal requests are queued by then, a `remove(s)` made before the
iteration or by a slot invoked earlier in it included; `s` is checked there and,
when its `check` returns true, its slot is invoked next.  The live set is still
the same when the dispatching loop ends; a nested iteration returns with it
unchanged, and the iteration entered at depth 0 applies the queued removals in
its commit. -/
theorem removal_waits_for_commit (env : Env) (fuel : Nat) (may_block : Bool) (st : Loop)
    (r : Bool × Loop) (pre post : List Nat) (s : Nat)
    (h : iteration env fuel may_block st = some r) (hsrc : st.sources = pre ++ s :: post)
    (hd : 0 ≤ st.running_depth) :
    ∃ f stA st2, fuel = f + 1 ∧
      dispatchLoop (fun b x => iteration env f b x) f env pre
        (beforeDispatch env may_block st) = some stA ∧
      dispatchLoop (fun b x => iteration env f b x) f env (s :: post) stA = some st2 ∧
      r = finish st2 ∧
      stA.sources = st.sources ∧ st2.sources = st.sources ∧
      (∃ l rq, stA.log = st.log ++ l ∧ stA.removed_sources = st.removed_sources ++ rq ∧
        (∀ x, x ∈ rq ↔ ∃ e ∈ l, e.removes x) ∧
        (s ∈ stA.removed_sources ↔ s ∈ st.removed_sources ∨ ∃ e ∈ l, e.removes s)) ∧
      ((Source.check env stA s).1 = true →
        ∃ e l2, e.source = s ∧ st2.log = stA.log ++ e :: l2) ∧
      (1 ≤ st.running_depth → r.2.sources = st.sources) ∧
      (st.running_depth = 0 →
        r.2.sources = st2.removed_sources.foldl eraseSource st.sources ++ st2.added_sources) := by
  obtain ⟨f, st2, hf, hloop, hr⟩ := iteration_eq_some h
  have hiter := iteration_deferring env f
  have htrack := iteration_tracking env f
  obtain ⟨hbsame, hbd, _⟩ := beforeDispatch_same env may_block st
  rw [hbsame.sources, hsrc, dispatchLoop_append] at hloop
  obtain ⟨stA, hpre, htail⟩ := hloop
  have hbd1 : 1 ≤ (beforeDispatch env may_block st).running_depth := by rw [hbd]; omega
  have gpre := dispatchLoop_grows hiter f pre _ stA
    (fun x hx => by rw [hbsame.sources, hsrc]; exact List.mem_append_left _ hx) hbd1 hpre
  have hAd : 1 ≤ stA.running_depth := by rw [gpre.depth]; exact hbd1
  have hAs : stA.sources = st.sources := by rw [gpre.sources, hbsame.sources]
  have gtail := dispatchLoop_grows hiter f (s :: post) stA st2
    (fun x hx => by rw [hAs, hsrc]; exact List.mem_append_right _ hx) hAd htail
  have h2s : st2.sources = st.sources := by rw [gtail.sources, hAs]
  refine ⟨f, stA, st2, hf, hpre, htail, hr, hAs, h2s, ?_, ?_, ?_, ?_⟩
  · obtain ⟨l, rq, a, hl, hrq, _, hmem, _, _⟩ := gpre.queues
    rw [hbsame.log] at hl
    rw [hbsame.removed] at hrq
    have hmem2 : ∀ x, x ∈ rq ↔ ∃ e ∈ l, e.removes x := by
      intro x
      rw [hmem x]
      simp [noReq]
    refine ⟨l, rq, hl, hrq, hmem2, ?_⟩
    rw [hrq, List.mem_append, hmem2 s]
  · intro hc
    simp only [dispatchLoop, hc, if_true] at htail
    split at htail
    · exact Option.noConfusion htail
    · rename_i q hq
      obtain ⟨hcs, hcd⟩ := Source.check_same env stA s
      obtain ⟨e, l, hlog, he⟩ := Source.dispatch_log hiter (by rw [hcd]; exact hAd) hq
      obtain ⟨l3, hl3, _, _⟩ := dispatchLoop_tracks htrack f env post q.2 st2 htail
      refine ⟨e, l ++ l3, he, ?_⟩
      rw [hl3, hlog, hcs.log]
      simp
  · intro hn
    exact (iteration_deferring env fuel may_block st r hn h).sources
  · intro h0
    have hd2 : st2.running_depth = 1 := by rw [gtail.depth, gpre.depth, hbd, h0]; rfl
    rw [hr, finish_top hd2, h2s]

/-- C24 on the example: in the loop with live set `[1, 4]` the slot of timer 1
calls `remove(4)`; timer 4 is still checked and its slot invoked in the same
iteration, and in a nested one entered at depth 1, which returns with 4 live;
the commit of the iteration entered at depth 0 erases it. -/
theorem removal_waits_for_commit_witness :
    (iteration exEnvRemove 2 true (exLoop [1, 4])).map
      (fun r => (r.2.log.map (fun e => e.source), r.2.sources)) = some ([1, 4], [1]) ∧
    (iteration exEnvRemove 2 true { exLoop [1, 4] with running_depth := 1, removed_sources := [4] }).map
      (fun r => (r.2.log.map (fun e => e.source), r.2.sources, r.2.removed_sources)) =
        some ([1, 4], [1, 4], [4, 4]) ∧
    ∃ f stA st2, 2 = f + 1 ∧
      dispatchLoop (fun b x => iteration exEnvRemove f b x) f exEnvRemove [1]
        (beforeDispatch exEnvRemove true (exLoop [1, 4])) = some stA ∧
      dispatchLoop (fun b x => iteration exEnvRemove f b x) f exEnvRemove (4 :: []) stA =
        some st2 ∧
      (iteration exEnvRemove 2 true (exLoop [1, 4])).getD (false, exLoop []) = finish st2 ∧
      stA.sources = [1, 4] ∧ st2.sources = [1, 4] ∧
      (∃ l rq, stA.log = [] ++ l ∧ stA.removed_sources = [] ++ rq ∧
        (∀ x, x ∈ rq ↔ ∃ e ∈ l, e.removes x) ∧
        (4 ∈ stA.removed_sources ↔ 4 ∈ ([] : List Nat) ∨ ∃ e ∈ l, e.removes 4)) ∧
      ((Source.check exEnvRemove stA 4).1 = true →
        ∃ e l2, e.source = 4 ∧ st2.log = stA.log ++ e :: l2) ∧
      (1 ≤ (exLoop [1, 4]).running_depth →
        ((iteration exEnvRemove 2 true (exLoop [1, 4])).getD (false, exLoop [])).2.sources =
          [1, 4]) ∧
      ((exLoop [1, 4]).running_depth = 0 →
        ((iteration exEnvRemove 2 true (exLoop [1, 4])).getD (false, exLoop [])).2.sources =
          st2.removed_sources.foldl eraseSource [1, 4] ++ st2.added_sources) :=
  ⟨by decide, by decide,
    removal_waits_for_commit exEnvRemove 2 true (exLoop [1, 4]) _ [1] [] 4 rfl rfl
      (by decide)⟩


/-- C28, the code at the failing inputs: `remove_poll` stores in `pfds_size` the
difference `begin - new_end`, the negated number of slots of the whole array
that differ from `pfd`.  A Source with two slots that registers `pfd` and
removes it again is left with `pfds_size` -1, or `2^64 - 1` in an unsigned 64
bit member, not 0; a Source whose one registered descriptor is 9 has
`pfds_size` -1 after `remove_poll` of another descriptor, not 1; whenever a slot
differs from `pfd`, the value stored is not the number of registered
descriptors other than `pfd`; and an `add_poll` that follows fails its
assertion. -/
theorem remove_poll_negates_size (t : SizeType) (src : SourcePfds) (pfd : Nat) :
    (Source.remove_poll t src pfd).pfds_size =
      t.convert (-((src.pfds.filter (fun p => p ≠ pfd)).length : Int)) ∧
    (Source.add_poll .signed (Source.new [0, 0]) 7).map
      (fun s => (s, Source.remove_poll .signed s 7)) = some (⟨[7, 0], 1⟩, ⟨[0, 0], -1⟩) ∧
    (Source.add_poll (.unsigned 64) (Source.new [0, 0]) 7).map
      (fun s => (Source.remove_poll (.unsigned 64) s 7).pfds_size) =
        some 18446744073709551615 ∧
    Source.remove_poll .signed ⟨[9], 1⟩ 7 = ⟨[9], -1⟩ ∧
    ((∃ p ∈ src.pfds, p ≠ pfd) →
      (t = .signed ∨ ∃ bits, t = .unsigned bits ∧ 2 * (src.pfds.length : Int) < 2 ^ bits) →
      (Source.remove_poll t src pfd).pfds_size ≠
        ((src.registered.filter (fun p => p ≠ pfd)).length : Int) ∧
      ∀ q, Source.add_poll t (Source.remove_poll t src pfd) q = none) := by
  refine ⟨?_, by decide, by decide, by decide, ?_⟩
  · simp [Source.remove_poll, stdRemove]
  · rintro ⟨p, hp, hne⟩ ht
    have hval : (Source.remove_poll t src pfd).pfds_size =
        t.convert (-((src.pfds.filter (fun p => p ≠ pfd)).length : Int)) := by
      simp [Source.remove_poll, stdRemove]
    have hlen : (Source.remove_poll t src pfd).pfds.length = src.pfds.length := by
      simp only [Source.remove_poll, stdRemove, List.length_append, List.length_drop]
      have := List.length_filter_le (fun p => decide (p ≠ pfd)) src.pfds
      omega
    have hm1 : 1 ≤ (src.pfds.filter (fun p => p ≠ pfd)).length :=
      List.length_pos_of_mem (List.mem_filter.2 ⟨hp, by simpa using hne⟩)
    have hmN : (src.pfds.filter (fun p => p ≠ pfd)).length ≤ src.pfds.length :=
      List.length_filter_le _ _
    have hcN : (src.registered.filter (fun p => p ≠ pfd)).length ≤ src.pfds.length := by
      refine le_trans (List.length_filter_le _ _) ?_
      simp only [SourcePfds.registered, List.length_take]
      omega
    rcases ht with rfl | ⟨bits, rfl, hbits⟩
    · rw [hval]
      simp only [SizeType.convert]
      refine ⟨by omega, ?_⟩
      intro q
      simp only [Source.add_poll, hval, SizeType.convert]
      rw [if_neg (by omega)]
    · have hmod : (-((src.pfds.filter (fun p => p ≠ pfd)).length : Int)) % 2 ^ bits =
          2 ^ bits - ((src.pfds.filter (fun p => p ≠ pfd)).length : Int) := by
        have hB : (0 : Int) < 2 ^ bits := by positivity
        have hadd : (-((src.pfds.filter (fun p => p ≠ pfd)).length : Int)) % 2 ^ bits =
            (-((src.pfds.filter (fun p => p ≠ pfd)).length : Int) + 2 ^ bits) % 2 ^ bits :=
          Int.add_emod_self.symm
        rw [hadd, Int.emod_eq_of_lt (by omega) (by omega)]
        ring
      rw [hval]
      simp only [SizeType.convert, hmod]
      refine ⟨by omega, ?_⟩
      intro q
      simp only [Source.add_poll, hval, hlen, SizeType.convert, hmod]
      rw [if_neg (by omega)]


/-- C6 as stated fails: the slot of timer 1, interval 10 ms, runs a nested
`iteration` while the clock goes from 0 to 15 ms; the nested iteration
dispatches the timer again, so that after the one `dispatch` entered at clock
value 0 `next_time` is two intervals ahead, not one, and the slot has been
invoked twice. -/
theorem nested_dispatch_advances_twice :
    (int64.TimeoutSource.dispatch (fun b s => int64.iteration exEnvPump 2 b s) 5 exEnvPump
        { exLoopAt [1] 0 with running_depth := 1, clock_reads := 4 } 1).map
      (fun r => (r.2.next_time 1, r.2.log.map (fun e => e.source))) =
        some (2 * (10 * ns_per_ms), [1, 1]) ∧
    exEnvPump.clock 4 < 0 + 1 * (10 * ns_per_ms) ∧
    (int64.iteration exEnvPump 3 true (exLoopAt [1] 0)).map
      (fun r => (r.2.next_time 1, r.2.log.map (fun e => e.source))) =
        some (2 * (10 * ns_per_ms), [1, 1]) := by
  decide

/-- C6, amended: for a `TimeoutSource` with a positive interval and a clock
value `now` read at dispatch such that the interval in ticks,
`next_time + interval` and `now + interval` are 64 bit tick counts, `dispatch`
advances `next_time` to the
old `next_time` plus `k` intervals for the smallest `k ≥ 1` that puts it
strictly after `now`, and then invokes the slot, once; when the slot runs no
nested `iteration`, `dispatch` returns with that `next_time` and that one
invocation. -/
theorem dispatch_catch_up_in_range (env : Env) (st : Loop) (this : Nat)
    (hI : 0 < env.interval this)
    (hIr : env.interval this * ns_per_ms < 2 ^ 63)
    (hn : -2 ^ 63 ≤ st.next_time this)
    (hnI : st.next_time this + env.interval this * ns_per_ms < 2 ^ 63)
    (htI : env.clock st.clock_reads + env.interval this * ns_per_ms < 2 ^ 63) :
    ∃ k : Int, 1 ≤ k ∧
      env.clock st.clock_reads < st.next_time this + k * (env.interval this * ns_per_ms) ∧
      (∀ j : Int, 1 ≤ j →
        env.clock st.clock_reads < st.next_time this + j * (env.interval this * ns_per_ms) →
        k ≤ j) ∧
      (∀ (iter : Bool → Loop → Option (Bool × Loop)) (fuel : Nat),
        (env.clock st.clock_reads - st.next_time this).toNat < fuel →
        int64.TimeoutSource.dispatch iter fuel env st this =
          (invokeSlot iter env
            (setNextTime (now env st).2 this
              (st.next_time this + k * (env.interval this * ns_per_ms))) this none).map
            (fun p => (p.1, if !p.1 then Source.destroy p.2 this else p.2))) ∧
      (∀ (iter : Bool → Loop → Option (Bool × Loop)) (fuel : Nat),
        (env.clock st.clock_reads - st.next_time this).toNat < fuel →
        (∀ c ∈ (env.slot this st.log none).calls, c.isNested = false) →
        ∃ res st1, int64.TimeoutSource.dispatch iter fuel env st this = some (res, st1) ∧
          st1.next_time this = st.next_time this + k * (env.interval this * ns_per_ms) ∧
          st1.log = st.log ++
            [{ source := this, args := none, run := env.slot this st.log none }]) := by
  have hpos : 0 < env.interval this * ns_per_ms := by
    simp only [ns_per_ms]; omega
  have hw : wrap64 (env.interval this * ns_per_ms) = env.interval this * ns_per_ms := by
    exact wrap64_of_inRange (by omega) hIr
  have hfuel0 : (env.clock st.clock_reads - st.next_time this).toNat <
      (env.clock st.clock_reads - st.next_time this).toNat + 1 := by omega
  obtain ⟨r0, hr0⟩ := catchUp_isSome hpos hfuel0
  obtain ⟨k, hk, hr, ht, hmin⟩ := catchUp_eq_some hr0
  have hcatch : ∀ fuel, (env.clock st.clock_reads - st.next_time this).toNat < fuel →
      int64.catchUp fuel (env.clock st.clock_reads) (env.interval this * ns_per_ms)
        (st.next_time this) =
        some (st.next_time this + k * (env.interval this * ns_per_ms)) := by
    intro fuel hf
    rw [catchUp_int64 hpos.le hn hnI htI, ← hr]
    exact catchUp_mono (by omega) hr0
  refine ⟨k, hk, by rw [← hr]; exact ht, hmin, ?_, ?_⟩
  · intro iter fuel hf
    simp only [int64.TimeoutSource.dispatch, now, hw, hcatch fuel hf, setNextTime]
    cases invokeSlot iter env
      { ({ st with clock_reads := st.clock_reads + 1 } : Loop) with
        next_time := Function.update st.next_time this
          (st.next_time this + k * (env.interval this * ns_per_ms)) } this none with
    | none => rfl
    | some r => rfl
  · intro iter fuel hf hno
    obtain ⟨st1, h1, _, _, _, _, h6, h7, _⟩ := invokeSlot_of_not_nested iter env
      { st with clock_reads := st.clock_reads + 1,
                next_time := Function.update st.next_time this
                  (st.next_time this + k * (env.interval this * ns_per_ms)) } this none hno
    refine ⟨(env.slot this st.log none).result,
      if !(env.slot this st.log none).result then Source.destroy st1 this else st1, ?_, ?_, ?_⟩
    · simp only [int64.TimeoutSource.dispatch, now, hw, hcatch fuel hf, h1]
    · cases (env.slot this st.log none).result <;> simp [Source.destroy, Loop.remove, h7]
    · cases (env.slot this st.log none).result <;> simp [Source.destroy, Loop.remove, h6]

/-- C6, amended, on a timer that is 23 ms late: three intervals of 10 ms are
added and the slot is invoked once. -/
theorem dispatch_catch_up_in_range_witness :
    (int64.TimeoutSource.dispatch (fun _ _ => none) 23000001 (exEnvTimer 10 0)
        (exLoopAt [1] (-23000000)) 1).map
      (fun r => (r.2.next_time 1, r.2.log.map (fun e => e.source))) =
        some (-23000000 + 3 * (10 * ns_per_ms), [1]) ∧
    ∃ k : Int, 1 ≤ k ∧ (0 : Int) < -23000000 + k * (10 * ns_per_ms) ∧
      (∀ j : Int, 1 ≤ j → (0 : Int) < -23000000 + j * (10 * ns_per_ms) → k ≤ j) :=
  ⟨by decide,
    (dispatch_catch_up_in_range (exEnvTimer 10 0) (exLoopAt [1] (-23000000)) 1 (by decide)
      (by decide) (by decide) (by decide) (by decide)).elim fun k h => ⟨k, h.1, h.2.1, h.2.2.1⟩⟩

/-- C25 as stated fails: for the timer with `next_time` at the least 64 bit
count and the clock at 1, `next_time - now` is below one millisecond and
`prepare` reports 0 ms, yet the difference that `check` computes overflows and
`check` returns false; and for `next_time` at the greatest count and a clock
far in the past, the difference that `prepare` computes overflows and the
timeout it reports is the sentinel -1 ms. -/
theorem check_disagrees_with_prepare_on_overflow :
    (exLoopAt [1] (-2 ^ 63)).next_time 1 - (exEnvTimer 10 1).clock 0 < ns_per_ms ∧
    (int64.TimeoutSource.prepare (exEnvTimer 10 1) (exLoopAt [1] (-2 ^ 63)) 1 (-1)).2.1 = 0 ∧
    (int64.TimeoutSource.check (exEnvTimer 10 1) (exLoopAt [1] (-2 ^ 63)) 1).1 = false ∧
    (int64.TimeoutSource.prepare (exEnvTimer 10 (-2 ^ 63 + 1499999))
      (exLoopAt [1] (2 ^ 63 - 1)) 1 (-1)).2.1 = no_timeout := by
  decide

/-- C25, amended: for every timer state and clock value `now` with
`next_time - now` within the range of the 64 bit tick count, `check` returns
true exactly when `prepare` reports 0 ms for that `now`; both are the case
exactly when `next_time - now` is less than one millisecond; and the timeout
`prepare` reports is not negative, so not the sentinel -1 ms. -/
theorem timer_readiness_in_range (env : Env) (st : Loop) (this : Nat) (timeout_ms : Int)
    (hlo : -2 ^ 63 ≤ st.next_time this - env.clock st.clock_reads)
    (hhi : st.next_time this - env.clock st.clock_reads < 2 ^ 63) :
    ((int64.TimeoutSource.check env st this).1 = true ↔
      (int64.TimeoutSource.prepare env st this timeout_ms).2.1 = 0) ∧
    ((int64.TimeoutSource.check env st this).1 = true ↔
      st.next_time this - env.clock st.clock_reads < ns_per_ms) ∧
    ((int64.TimeoutSource.prepare env st this timeout_ms).2.1 = 0 ↔
      st.next_time this - env.clock st.clock_reads < ns_per_ms) ∧
    0 ≤ (int64.TimeoutSource.prepare env st this timeout_ms).2.1 ∧
    (int64.TimeoutSource.prepare env st this timeout_ms).2.1 ≠ no_timeout := by
  rw [TimeoutSource.check_int64 env st this hlo hhi,
    TimeoutSource.prepare_int64 env st this timeout_ms hlo hhi]
  obtain ⟨hc, hp, hn⟩ := TimeoutSource.readiness env st this timeout_ms
  refine ⟨hc.trans hp.symm, hc, hp, hn, ?_⟩
  unfold no_timeout
  omega

/-- C25, amended, on two timers read at clock value 0: one due in 0.4 ms, for
which `check` is true and `prepare` reports 0 ms, and one due in 3 ms. -/
theorem timer_readiness_in_range_witness :
    ((int64.TimeoutSource.check (exEnvTimer 10 0) (exLoopAt [1] 400000) 1).1 = true ↔
      (int64.TimeoutSource.prepare (exEnvTimer 10 0) (exLoopAt [1] 400000) 1 (-1)).2.1 = 0) ∧
    (int64.TimeoutSource.check (exEnvTimer 10 0) (exLoopAt [1] 400000) 1).1 = true ∧
    (int64.TimeoutSource.check (exEnvTimer 10 0) (exLoopAt [1] 3000000) 1).1 = false ∧
    (int64.TimeoutSource.prepare (exEnvTimer 10 0) (exLoopAt [1] 3000000) 1 (-1)).2.1 = 3 :=
  ⟨(timer_readiness_in_range (exEnvTimer 10 0) (exLoopAt [1] 400000) 1 (-1) (by decide)
      (by decide)).1, by decide, by decide, by decide⟩

/-- C26 as stated fails: with an interval of -1 ms, `next_time` half a
millisecond above the least 64 bit count and the clock at 0, the deadline has
passed, yet the first `next_time += interval` overflows to a count past the
clock, the loop ends and the slot is invoked; and with the positive interval of
`2 ^ 58` ms, whose conversion to ticks overflows to 0, the loop of a timer that
is due does not end. -/
theorem negative_interval_overflows_and_fires :
    (exEnvTimer (-1) 0).interval 1 ≤ 0 ∧
    (exLoopAt [1] (-2 ^ 63 + 500000)).next_time 1 ≤ (exEnvTimer (-1) 0).clock 0 ∧
    int64.catchUp 1 0 (wrap64 (-1 * ns_per_ms)) (-2 ^ 63 + 500000) = some (2 ^ 63 - 500000) ∧
    (int64.TimeoutSource.dispatch (fun _ _ => none) 1 (exEnvTimer (-1) 0)
        (exLoopAt [1] (-2 ^ 63 + 500000)) 1).map
      (fun r => (r.1, r.2.log.map (fun e => e.source), r.2.next_time 1)) =
        some (true, [1], 2 ^ 63 - 500000) ∧
    wrap64 (2 ^ 58 * ns_per_ms) = 0 ∧
    (∀ (iter : Bool → Loop → Option (Bool × Loop)) (fuel : Nat),
      int64.TimeoutSource.dispatch iter fuel (exEnvTimer (2 ^ 58) 0) (exLoopAt [1] 0) 1 =
        none) := by
  refine ⟨by decide, by decide, by decide, by decide, by decide, ?_⟩
  intro iter fuel
  have hw : wrap64 (2 ^ 58 * ns_per_ms) = 0 := by decide
  have hnone : int64.catchUp fuel 0 0 0 = none :=
    catchUp_int64_eq_none (le_refl (0 : Int)) (by decide) (by decide) fuel (by simp)
  simp only [int64.TimeoutSource.dispatch, now, exEnvTimer, exLoopAt, Loop.new, hw, hnone]

/-- C26, amended: as long as the tick counts stay within 64 bits, the `do …
while` of `TimeoutSource::dispatch` with an interval that is not negative
terminates exactly when the interval is positive or `next_time + interval >
now`; with an interval of 0 or less and a deadline that has passed it does not
terminate before `next_time` would leave the 64 bit range, which for the
interval 0 is never, and `dispatch` does not come to invoke the slot; when the
loop terminates, `dispatch` goes on to the slot invocation. -/
theorem catch_up_termination_in_range (env : Env) (st : Loop) (this : Nat) :
    (∀ t interval next : Int, 0 ≤ interval → -2 ^ 63 ≤ next → next + interval < 2 ^ 63 →
      t + interval < 2 ^ 63 →
      ((∃ F r, ∀ fuel, F ≤ fuel → int64.catchUp fuel t interval next = some r) ↔
        (0 < interval ∨ t < next + interval))) ∧
    (∀ (fuel : Nat) (t interval next : Int), interval ≤ 0 → next + interval ≤ t →
      next < 2 ^ 63 → -2 ^ 63 ≤ next + (fuel : Int) * interval →
      int64.catchUp fuel t interval next = none) ∧
    (-2 ^ 63 ≤ env.interval this * ns_per_ms → env.interval this * ns_per_ms < 2 ^ 63 →
      wrap64 (env.interval this * ns_per_ms) = env.interval this * ns_per_ms) ∧
    (env.interval this = 0 → st.next_time this ≤ env.clock st.clock_reads →
      -2 ^ 63 ≤ st.next_time this → st.next_time this < 2 ^ 63 →
      ∀ (iter : Bool → Loop → Option (Bool × Loop)) (fuel : Nat),
        int64.TimeoutSource.dispatch iter fuel env st this = none) ∧
    (∀ (iter : Bool → Loop → Option (Bool × Loop)) (fuel : Nat) (next : Int),
      int64.catchUp fuel (env.clock st.clock_reads) (wrap64 (env.interval this * ns_per_ms))
        (st.next_time this) = some next →
      (int64.TimeoutSource.dispatch iter fuel env st this).isSome =
        (invokeSlot iter env (setNextTime (now env st).2 this next) this none).isSome) := by
  refine ⟨?_, ?_, ?_, ?_, ?_⟩
  · intro t interval next hI hn hnI htI
    have heq : ∀ fuel, int64.catchUp fuel t interval next = catchUp fuel t interval next :=
      fun fuel => catchUp_int64 hI hn hnI htI fuel
    simp only [heq]
    exact catchUp_stops_iff t interval next
  · intro fuel t interval next hI hlate hhi hlo
    exact catchUp_int64_eq_none hI hlate hhi fuel hlo
  · intro hlo hhi
    exact wrap64_of_inRange hlo hhi
  · intro h0 hlate hlo hhi iter fuel
    have hw : wrap64 (env.interval this * ns_per_ms) = 0 := by rw [h0]; decide
    have hnone : int64.catchUp fuel (env.clock st.clock_reads) 0 (st.next_time this) = none :=
      catchUp_int64_eq_none (le_refl (0 : Int)) (by omega) hhi fuel (by simp; omega)
    simp only [int64.TimeoutSource.dispatch, now, hw, hnone]
  · intro iter fuel next h
    simp only [int64.TimeoutSource.dispatch, now, h, setNextTime]
    cases invokeSlot iter env
      { ({ st with clock_reads := st.clock_reads + 1 } : Loop) with
        next_time := Function.update st.next_time this next } this none with
    | none => rfl
    | some r => rfl

/-- C26, amended, on a timer with interval 0 that is due: the loop does not
stop within any fuel and `dispatch` yields nothing, even when a nested
`iteration` would return at once; with the interval 10 ms it returns. -/
theorem catch_up_termination_in_range_witness :
    int64.TimeoutSource.dispatch (fun _ s => some (true, s)) 1000 (exEnvTimer 0 0)
      (exLoopAt [1] 0) 1 = none ∧
    (int64.TimeoutSource.dispatch (fun _ s => some (true, s)) 1000 (exEnvTimer 10 0)
      (exLoopAt [1] 0) 1).isSome = true :=
  ⟨(catch_up_termination_in_range (exEnvTimer 0 0) (exLoopAt [1] 0) 1).2.2.2.1 rfl
      (by decide) (by decide) (by decide) (fun _ s => some (true, s)) 1000, by decide⟩


/-- C7: `IoSource::dispatch` returns exactly when the invocation of its slot
returns, and `TimeoutSource::dispatch` (on unbounded and on 64 bit counts)
exactly when its catch-up loop ends and the invocation of its slot returns; the
value returned is the value the slot returned, and the Source itself is
appended to the removal queue exactly when that value is false; a `dispatch`
whose slot runs no nested `iteration` does return; hence after a depth-1
iteration in which the slot of a Source returned false, the Source is not in
the live set (a live Source is owned by the loop, so it is not at the same time
handed to `connect`). -/
theorem self_removal_on_false (env : Env) :
    (∀ (iter : Bool → Loop → Option (Bool × Loop)) (st : Loop) (this : Nat)
        (r : Bool × Loop),
      IoSource.dispatch iter env st this = some r ↔
        ∃ st0, invokeSlot iter env st this
            (some ((st.pfd this).fd, (st.pfd this).revents)) = some (r.1, st0) ∧
          r.2 = setRevents (if r.1 then st0 else Source.destroy st0 this) this 0) ∧
    (∀ (iter : Bool → Loop → Option (Bool × Loop)) (fuel : Nat) (st : Loop) (this : Nat)
        (r : Bool × Loop),
      TimeoutSource.dispatch iter fuel env st this = some r ↔
        ∃ next st0, catchUp fuel (env.clock st.clock_reads) (env.interval this * ns_per_ms)
            (st.next_time this) = some next ∧
          invokeSlot iter env (setNextTime (now env st).2 this next) this none =
            some (r.1, st0) ∧
          r.2 = if r.1 then st0 else Source.destroy st0 this) ∧
    (∀ (iter : Bool → Loop → Option (Bool × Loop)) (fuel : Nat) (st : Loop) (this : Nat)
        (r : Bool × Loop),
      int64.TimeoutSource.dispatch iter fuel env st this = some r ↔
        ∃ next st0, int64.catchUp fuel (env.clock st.clock_reads)
            (wrap64 (env.interval this * ns_per_ms)) (st.next_time this) = some next ∧
          invokeSlot iter env (setNextTime (now env st).2 this next) this none =
            some (r.1, st0) ∧
          r.2 = if r.1 then st0 else Source.destroy st0 this) ∧
    (∀ (iter : Bool → Loop → Option (Bool × Loop)) (fuel : Nat) (st : Loop) (this : Nat)
        (r : Bool × Loop), Source.dispatch iter fuel env st this = some r →
      ∃ stx args st0, stx.removed_sources = st.removed_sources ∧ stx.log = st.log ∧
        invokeSlot iter env stx this args = some (r.1, st0) ∧
        r.1 = (env.slot this st.log args).result ∧
        r.2.removed_sources = st0.removed_sources ++ (if r.1 then [] else [this])) ∧
    (∀ (iter : Bool → Loop → Option (Bool × Loop)) (st : Loop) (this : Nat),
      (∀ c ∈ (env.slot this st.log
          (some ((st.pfd this).fd, (st.pfd this).revents))).calls, c.isNested = false) →
      ∃ r, IoSource.dispatch iter env st this = some r ∧
        r.1 = (env.slot this st.log
          (some ((st.pfd this).fd, (st.pfd this).revents))).result ∧
        r.2.removed_sources = st.removed_sources ++
          removesOf (env.slot this st.log
            (some ((st.pfd this).fd, (st.pfd this).revents))).calls ++
          (if r.1 then [] else [this])) ∧
    (∀ (iter : Bool → Loop → Option (Bool × Loop)) (fuel : Nat) (st : Loop) (this : Nat)
        (next : Int),
      catchUp fuel (env.clock st.clock_reads) (env.interval this * ns_per_ms)
        (st.next_time this) = some next →
      (∀ c ∈ (env.slot this st.log none).calls, c.isNested = false) →
      ∃ r, TimeoutSource.dispatch iter fuel env st this = some r ∧
        r.1 = (env.slot this st.log none).result ∧
        r.2.removed_sources = st.removed_sources ++
          removesOf (env.slot this st.log none).calls ++ (if r.1 then [] else [this])) ∧
    (∀ (fuel : Nat) (may_block : Bool) (st : Loop) (b : Bool) (st1 : Loop)
        (l : List SlotCall) (e : SlotCall),
      st.running_depth = 0 → iteration env fuel may_block st = some (b, st1) →
      st1.log = st.log ++ l → e ∈ l → e.run.result = false →
      e.source ∉ st.added_sources → (∀ e1 ∈ l, ¬ e1.connects e.source) →
      e.source ∉ st1.sources) := by
  refine ⟨fun iter st this r => IoSource.dispatch_io_iff iter env st this r,
    fun iter fuel st this r => TimeoutSource.dispatch_timer_iff iter fuel env st this r,
    fun iter fuel st this r => TimeoutSource.dispatch_int64_iff iter fuel env st this r,
    ?_, ?_, ?_, ?_⟩
  · intro iter fuel st this r h
    simp only [Source.dispatch] at h
    split at h
    · simp only [TimeoutSource.dispatch, now] at h
      split at h
      · simp at h
      · rename_i next _
        split at h
        · simp at h
        · rename_i res st3 h3
          simp only [Option.some.injEq] at h
          subst h
          refine ⟨_, none, st3, ?_, ?_, h3, (invokeSlot_eq_some h3).1, ?_⟩
          · rfl
          · rfl
          · cases res <;> simp [Source.destroy, Loop.remove]
    · simp only [IoSource.dispatch] at h
      split at h
      · simp at h
      · rename_i res st3 h3
        simp only [Option.some.injEq] at h
        subst h
        refine ⟨st, _, st3, rfl, rfl, h3, (invokeSlot_eq_some h3).1, ?_⟩
        cases res <;> simp [setRevents, Source.destroy, Loop.remove]
  · intro iter st this hno
    obtain ⟨st1, h1, _, _, h4, _⟩ := invokeSlot_of_not_nested iter env st this
      (some ((st.pfd this).fd, (st.pfd this).revents)) hno
    refine ⟨(_, setRevents (if (env.slot this st.log
        (some ((st.pfd this).fd, (st.pfd this).revents))).result then st1
        else Source.destroy st1 this) this 0),
      (IoSource.dispatch_io_iff iter env st this _).2 ⟨st1, h1, rfl⟩, rfl, ?_⟩
    have hq : ∀ b : Bool,
        (setRevents (if b then st1 else Source.destroy st1 this) this 0).removed_sources =
          st1.removed_sources ++ (if b then [] else [this]) := by
      intro b
      cases b <;> simp [setRevents, Source.destroy, Loop.remove]
    rw [← h4]
    exact hq _
  · intro iter fuel st this next hc hno
    obtain ⟨st1, h1, _, _, h4, _⟩ := invokeSlot_of_not_nested iter env
      (setNextTime (now env st).2 this next) this none hno
    refine ⟨(_, if (env.slot this st.log none).result then st1
        else Source.destroy st1 this),
      (TimeoutSource.dispatch_timer_iff iter fuel env st this _).2 ⟨next, st1, hc, h1, rfl⟩, rfl, ?_⟩
    have h5 : st1.removed_sources =
        st.removed_sources ++ removesOf (env.slot this st.log none).calls := h4
    have hq : ∀ b : Bool,
        (if b then st1 else Source.destroy st1 this).removed_sources =
          st1.removed_sources ++ (if b then [] else [this]) := by
      intro b
      cases b <;> simp [Source.destroy, Loop.remove]
    rw [← h5]
    exact hq _
  · intro fuel may_block st b st1 l e hd h hl he hres hadd hcon
    obtain ⟨st2, g, hd2, hfin⟩ := iteration_top hd h
    obtain ⟨hb, _, _⟩ := beforeDispatch_same env may_block st
    obtain ⟨hs, _, l1, r1, a, hl1, hrr, haa, hrm, ham, _⟩ := g
    rw [finish_top hd2] at hfin
    simp only [Prod.mk.injEq] at hfin
    obtain ⟨_, rfl⟩ := hfin
    have hll : l1 = l := by
      have : st.log ++ l1 = st.log ++ l := by
        rw [← hl, ← hb.log, ← hl1]
      exact List.append_cancel_left this
    subst hll
    have hin : e.source ∈ st2.removed_sources := by
      rw [hrr]
      exact List.mem_append_right _ ((hrm _).2 (Or.inr ⟨e, he, Or.inr ⟨rfl, hres⟩⟩))
    have hout : e.source ∉ st2.added_sources := by
      rw [haa, hb.added]
      intro hmem
      rcases List.mem_append.mp hmem with h1 | h1
      · exact hadd h1
      · rcases (ham _).1 h1 with h2 | ⟨e1, he1, h2⟩
        · exact h2
        · exact hcon e1 he1 h2
    intro hmem
    rcases List.mem_append.mp hmem with h1 | h1
    · exact not_mem_foldl_eraseSource hin h1
    · exact hout h1

/-- C7 on the examples: the slot of the I/O source 3 returns false, its
`dispatch` returns false with 3 enqueued for removal, and after the iteration 3
is not in the live set; the same for the timer 5. -/
theorem self_removal_on_false_witness :
    (IoSource.dispatch (fun _ _ => none) exEnvIoFalse (setRevents (exLoop [3]) 3 1) 3).map
      (fun r => (r.1, r.2.removed_sources, (r.2.pfd 3).revents)) = some (false, [3], 0) ∧
    (iteration exEnvIoFalse 2 true (setRevents (exLoop [3]) 3 1)).map
      (fun r => (r.2.log.map (fun e => (e.source, e.run.result)), r.2.sources)) =
      some ([(3, false)], []) ∧
    (iteration exEnv 2 true (exLoop [5])).map
      (fun r => (r.2.log.map (fun e => (e.source, e.run.result)), r.2.sources)) =
      some ([(5, false)], []) ∧
    (∃ r, IoSource.dispatch (fun _ _ => none) exEnvIoFalse (setRevents (exLoop [3]) 3 1) 3 =
        some r ∧ r.1 = false ∧ r.2.removed_sources = [] ++ [] ++ (if r.1 then [] else [3])) ∧
    5 ∉ ((iteration exEnv 2 true (exLoop [5])).getD (false, exLoop [])).2.sources :=
  ⟨by decide, by decide, by decide,
    (self_removal_on_false exEnvIoFalse).2.2.2.2.1 (fun _ _ => none)
      (setRevents (exLoop [3]) 3 1) 3 (by decide),
    (self_removal_on_false exEnv).2.2.2.2.2.2 2 true (exLoop [5]) false
      ((iteration exEnv 2 true (exLoop [5])).getD (false, exLoop [])).2
      [{ source := 5, args := none, run := ⟨[], false⟩ }]
      { source := 5, args := none, run := ⟨[], false⟩ } rfl rfl (by decide) (by decide) rfl
      (by decide) (by simp [SlotCall.connects])⟩


/-- C10, amended: in an iteration in which `poll` returns a negative value no
`revents` is copied back, so when the dispatching starts every Source has the
`pfd` and the `next_time` it had before the iteration; every live Source is then
checked in its turn and its slot is invoked exactly when its `check` returns
true, as in any other iteration; when every live Source is an I/O source whose
stored `revents` do not meet its interest mask, the iteration returns without
invoking any slot. -/
theorem poll_failure_no_writeback (env : Env) (may_block : Bool) (st : Loop) (v : Int)
    (hp : pollResult env may_block st = some v) (hv : v < 0) :
    (beforeDispatch env may_block st).pfd = st.pfd ∧
    (beforeDispatch env may_block st).next_time = st.next_time ∧
    ((∀ s ∈ st.sources, env.kind s = Kind.io ∧ IoSource.check st s = false) →
      ∀ fuel, ∃ r, iteration env (fuel + 1) may_block st = some r ∧ r.2.log = st.log) ∧
    (∀ pre s rest fuel r, st.sources = pre ++ s :: rest → 0 ≤ st.running_depth →
      iteration env fuel may_block st = some r →
      ∃ f stA st2, fuel = f + 1 ∧
        dispatchLoop (fun b x => iteration env f b x) f env pre
          (beforeDispatch env may_block st) = some stA ∧
        dispatchLoop (fun b x => iteration env f b x) f env (s :: rest) stA = some st2 ∧
        r = finish st2 ∧
        ((Source.check env stA s).1 = true →
          ∃ e l, e.source = s ∧ st2.log = stA.log ++ e :: l) ∧
        ((Source.check env stA s).1 = false →
          dispatchLoop (fun b x => iteration env f b x) f env rest
            (Source.check env stA s).2 = some st2)) := by
  obtain ⟨hps, _, _, hpfd, _⟩ := prepared_same env st
  obtain ⟨hb, hbd, hnt⟩ := beforeDispatch_same env may_block st
  have hpfd1 : (beforeDispatch env may_block st).pfd = st.pfd := by
    simp only [pollResult] at hp
    split at hp
    · rename_i hlen
      simp only [Option.some.injEq] at hp
      have hneg : ¬ (env.poll (prepared env st).st.polls (prepared env st).pfds
          (clampTimeout may_block (prepared env st).timeout)).1 > 0 := by
        rw [hp]; omega
      simp only [beforeDispatch, waitPhase, hlen, hneg, if_true, if_false]
      exact hpfd
    · simp at hp
  have hcheck : ∀ x, IoSource.check (beforeDispatch env may_block st) x =
      IoSource.check st x := by
    intro x
    simp [IoSource.check, hpfd1]
  refine ⟨hpfd1, hnt, ?_, ?_⟩
  · intro hall fuel
    have hun : ∀ s ∈ (beforeDispatch env may_block st).sources,
        env.kind s = Kind.io ∧ IoSource.check (beforeDispatch env may_block st) s = false := by
      intro s hs
      rw [hb.sources] at hs
      rw [hcheck]
      exact hall s hs
    refine ⟨finish (beforeDispatch env may_block st), ?_, ?_⟩
    · simp only [iteration, dispatchLoop_of_unready _ fuel env _ _ hun]
    · rw [finish_log, hb.log]
  · intro pre s rest fuel r hsrc hdepth h
    obtain ⟨f, st2, hf, hloop, hfin⟩ := iteration_eq_some h
    have hiter := iteration_deferring env f
    have htrack := iteration_tracking env f
    rw [hb.sources, hsrc, dispatchLoop_append] at hloop
    obtain ⟨stA, hpre, htail⟩ := hloop
    have hbd1 : 1 ≤ (beforeDispatch env may_block st).running_depth := by rw [hbd]; omega
    have gpre := dispatchLoop_grows hiter f pre _ stA
      (fun x hx => by rw [hb.sources, hsrc]; exact List.mem_append_left _ hx) hbd1 hpre
    have hAd : 1 ≤ stA.running_depth := by rw [gpre.depth]; exact hbd1
    refine ⟨f, stA, st2, hf, hpre, htail, hfin, ?_, ?_⟩
    · intro hc
      simp only [dispatchLoop, hc, if_true] at htail
      split at htail
      · exact Option.noConfusion htail
      · rename_i q hq
        obtain ⟨hcs, hcd⟩ := Source.check_same env stA s
        obtain ⟨e, l, hlog, he⟩ := Source.dispatch_log hiter (by rw [hcd]; exact hAd) hq
        obtain ⟨l3, hl3, _, _⟩ := dispatchLoop_tracks htrack f env rest q.2 st2 htail
        refine ⟨e, l ++ l3, he, ?_⟩
        rw [hl3, hlog, hcs.log]
        simp
    · intro hc
      simpa only [dispatchLoop, hc, Bool.false_eq_true, if_false] using htail

/-- The amended C10 on the example: with the I/O source 3 alone and no event
stored, `poll` fails and no slot is invoked; with the live set `[3, 1, 2]`,
`poll` fails and the slots of the due timers 1 and 2 are invoked. -/
theorem poll_failure_no_writeback_witness :
    pollResult exEnv true (exLoop [3]) = some (-1) ∧
    (∃ r, iteration exEnv 1 true (exLoop [3]) = some r ∧ r.2.log = []) ∧
    pollResult exEnv true (exLoop [3, 1, 2]) = some (-1) ∧
    (iteration exEnv 2 true (exLoop [3, 1, 2])).map (fun r => r.2.log.map (fun e => e.source)) =
      some [1, 2] ∧
    ∃ (f : Nat) (stA st2 : Loop), 2 = f + 1 ∧
      ((Source.check exEnv stA 2).1 = true →
        ∃ e l, e.source = 2 ∧ st2.log = stA.log ++ e :: l) :=
  ⟨by decide,
    (poll_failure_no_writeback exEnv true (exLoop [3]) (-1) (by decide) (by decide)).2.2.1
      (by decide) 0,
    by decide, by decide,
    let ⟨f, stA, st2, hf, _, _, _, h4, _⟩ :=
      (poll_failure_no_writeback exEnv true (exLoop [3, 1, 2]) (-1) (by decide)
        (by decide)).2.2.2 [3, 1] 2 [] 2
        ((iteration exEnv 2 true (exLoop [3, 1, 2])).getD (false, exLoop [])) rfl (by decide)
        rfl
    ⟨f, stA, st2, hf, h4⟩⟩


end saftbus

namespace mini_saftlib

/-! ## Lemmas on the client side -/

theorem dispatchSignal_spec (net : Net) (id iface : Int) (ps : List RegisteredProxy)
    (sg : SignalGroup) :
    (dispatchSignal net id iface ps sg).pfd = sg.pfd ∧
    (dispatchSignal net id iface ps sg).polls = sg.polls ∧
    (dispatchSignal net id iface ps sg).proxies = sg.proxies ∧
    ∃ l, (dispatchSignal net id iface ps sg).dispatched = sg.dispatched ++ l ∧
      l.map (fun d => (d.proxy, d.interface)) =
        (ps.filter (fun p => decide (p.saftlib_object_id = id))).map (fun p => (p.addr, iface)) ∧
      (∀ d, l.head? = some d → d.payload = sg.received.data) := by
  induction ps generalizing sg with
  | nil => exact ⟨rfl, rfl, rfl, [], by simp [dispatchSignal], rfl, by simp⟩
  | cons p rest ih =>
    by_cases hp : p.saftlib_object_id = id
    · simp only [dispatchSignal, hp, if_true]
      obtain ⟨h1, h2, h3, l, h4, h5, _⟩ := ih (signalDispatch net p iface sg)
      refine ⟨h1, h2, h3, ⟨p.addr, iface, sg.received.data⟩ :: l, ?_, ?_, ?_⟩
      · rw [h4]; simp [signalDispatch]
      · simp [h5, hp]
      · intro d hd
        simp only [List.head?_cons, Option.some.injEq] at hd
        rw [← hd]
    · simp only [dispatchSignal, hp, if_false]
      obtain ⟨h1, h2, h3, l, h4, h5, h6⟩ := ih sg
      exact ⟨h1, h2, h3, l, h4, by simp [h5, hp], h6⟩

theorem drain_exNetDown (fuel : Nat) (sg : SignalGroup) : drain exNetDown fuel sg = none := by
  induction fuel generalizing sg with
  | zero => rfl
  | succ f ih =>
    simp only [drain, SignalGroup.wait_for_one_signal, exNetDown]
    simp only [gt_iff_lt, Int.reduceNeg, Int.reduceLT, if_false, ne_eq, Int.reduceEq,
      not_false_eq_true, if_true]
    exact ih _

theorem wait_for_one_signal_exNetClosed (sg : SignalGroup) (timeout_ms : Int) :
    ∃ sg1, sg.wait_for_one_signal exNetClosed timeout_ms = .returned (-1) sg1 := by
  have h : (POLLIN ||| POLLHUP) &&& POLLIN ≠ 0 := by decide
  refine ⟨{ sg with polls := sg.polls + 1, pfd := { sg.pfd with revents := POLLIN ||| POLLHUP } }, ?_⟩
  simp [SignalGroup.wait_for_one_signal, exNetClosed, h, Deserializer.read_from]

theorem drain_exNetClosed (fuel : Nat) (sg : SignalGroup) :
    drain exNetClosed fuel sg = none := by
  induction fuel generalizing sg with
  | zero => rfl
  | succ f ih =>
    obtain ⟨sg1, h1⟩ := wait_for_one_signal_exNetClosed sg 0
    simp only [drain, h1]
    simp only [ne_eq, Int.reduceNeg, Int.reduceEq, not_false_eq_true, if_true]
    exact ih _

/-! ## The claims on the client side -/

/-- C13: the path the `ClientConnection` constructor uses is the value of
`SAFTBUS_SOCKET_PATH` whenever that variable is set, also to the empty string,
and the constructor argument otherwise; the constructor fails before it makes
any system call, `socket` included, exactly when that path is empty or does not
start with `/`. -/
theorem socket_path_validation (socket_name : String) (socketname_env : Option String)
    (sys : Sys) :
    socketname socket_name socketname_env = socketname_env.getD socket_name ∧
    (((ClientConnection.new socket_name socketname_env sys).calls = [] ∧
        ∃ e, (ClientConnection.new socket_name socketname_env sys).result = .error e) ↔
      ((socketname socket_name socketname_env).data = [] ∨
        (socketname socket_name socketname_env).data.head? ≠ some '/')) := by
  refine ⟨by cases socketname_env <;> rfl, ?_⟩
  simp only [ClientConnection.new]
  cases h : (socketname socket_name socketname_env).data with
  | nil => simp
  | cons c rest =>
    by_cases hc : c = '/'
    · subst hc
      simp only [ne_eq, not_true_eq_false, if_false, List.head?_cons, reduceCtorEq, or_self,
        iff_false, not_and, not_exists]
      intro hcalls
      split_ifs at hcalls
    · simp [hc]

/-- C13 on an empty `SAFTBUS_SOCKET_PATH`, which overrides a valid argument. -/
theorem socket_path_validation_witness :
    socketname "/run/saftbus" (some "") = "" ∧
    (ClientConnection.new "/run/saftbus" (some "")
      ⟨3, 0, 0, (4, 5), 0, 4, 1⟩).calls = [] ∧
    (ClientConnection.new "/run/saftbus" none ⟨3, 0, 0, (4, 5), 0, 4, 1⟩).calls.head? =
      some Syscall.socket :=
  ⟨(socket_path_validation "/run/saftbus" (some "") ⟨3, 0, 0, (4, 5), 0, 4, 1⟩).1,
    (((socket_path_validation "/run/saftbus" (some "") ⟨3, 0, 0, (4, 5), 0, 4, 1⟩).2).2
      (Or.inl rfl)).1, by decide⟩

/-- C14 as stated fails: after a `receive` whose `poll` times out, a Deserializer
that held a value still holds it. -/
theorem receive_timeout_keeps_content :
    (exConn.receive { data := [.int 1] } 100 { result := 0, revents := 0 } none).result = 0 ∧
    (exConn.receive { data := [.int 1] } 100 { result := 0, revents := 0 } none).serdes.data =
      [.int 1] := by
  decide

/-- C14, amended: when its `poll` times out, `receive` returns 0 and leaves the
Deserializer as it was (empty exactly when it was empty before), and `send`
returns 0, writes nothing and leaves the Serializer as it was. -/
theorem timeout_leaves_buffers (c : ClientConnection) (timeout_ms : Int) (polled : Polled)
    (h : polled.result = 0) :
    (∀ serdes message,
      (c.receive serdes timeout_ms polled message).result = 0 ∧
      (c.receive serdes timeout_ms polled message).serdes = serdes ∧
      ((c.receive serdes timeout_ms polled message).serdes.data = [] ↔ serdes.data = [])) ∧
    (∀ serdes,
      (c.send serdes timeout_ms polled).result = 0 ∧
      (c.send serdes timeout_ms polled).written = none ∧
      (c.send serdes timeout_ms polled).serdes = serdes) := by
  constructor
  · intro serdes message
    simp [ClientConnection.receive, h]
  · intro serdes
    simp [ClientConnection.send, h]

/-- The amended C14 on the example connection. -/
theorem timeout_leaves_buffers_witness :
    (exConn.receive { data := [] } 100 { result := 0, revents := 0 } none).result = 0 ∧
    (exConn.send { data := [.int 1] } 100 { result := 0, revents := 0 }).written = none :=
  ⟨((timeout_leaves_buffers exConn 100 { result := 0, revents := 0 } rfl).1
      { data := [] } none).1,
    ((timeout_leaves_buffers exConn 100 { result := 0, revents := 0 } rfl).2
      { data := [.int 1] }).2.1⟩

/-- C15 as stated fails: the request the `Proxy` constructor serialises for the
path `/svc/foo` is the identity 0 followed by the path, two values, and not the
four values `0, 0, 0, path`. -/
theorem registration_request_has_no_header :
    (Proxy.new "/svc/foo" exConn (exRpc [.int 7, .int 1, .int 1])).request =
      [.int 0, .string "/svc/foo"] ∧
    (Proxy.new "/svc/foo" exConn (exRpc [.int 7, .int 1, .int 1])).request ≠
      [.int 0, .int 0, .int 0, .string "/svc/foo"] := by
  decide

/-- C15, amended: for every object path the request the `Proxy` constructor
serialises is, in order, the identity 0 and the object path, and this is the
message written when `send` finds the socket writable; no interface or function
number is part of it. -/
theorem registration_request (object_path : String) (conn : ClientConnection) (rpc : Rpc) :
    (Proxy.new object_path conn rpc).request = [.int 0, .string object_path] ∧
    (((Proxy.new object_path conn rpc).written = some [.int 0, .string object_path]) ↔
      (rpc.send_polled.result > 0 ∧ rpc.send_polled.revents &&& POLLOUT ≠ 0)) ∧
    ((Proxy.new object_path conn rpc).written = none ↔
      ¬ (rpc.send_polled.result > 0 ∧ rpc.send_polled.revents &&& POLLOUT ≠ 0)) := by
  refine ⟨rfl, ?_, ?_⟩ <;>
    (simp only [Proxy.new, ClientConnection.send, Serializer.put, Serializer.write_to]
     split_ifs <;> simp_all)

/-- C17 as stated fails: the Proxy registered with the reply `(7, 1, 1)` sends,
when destroyed, a request whose target identity is 7, not 0, with function
number 0. -/
theorem unregistration_targets_own_identity :
    (Proxy.new "/svc/foo" exConn (exRpc [.int 7, .int 1, .int 1])).result.toOption =
      some exProxy ∧
    (exProxy.destroy exConn (exRpc [.bool true])).request =
      [.int 7, .int 0, .int 0, .int 7, .int 1, .int 1] ∧
    (exProxy.destroy exConn (exRpc [.bool true])).request.head? ≠ some (.int 0) := by
  decide

/-- C17, amended: the request the `Proxy` destructor serialises is what the
Serializer still held, followed by the Proxy's own object identity as target,
interface 0, function 0 (where `quit` has function 1), and the payload
`(identity, client_id, signal_group_id)`; for a Proxy whose constructor
succeeded after writing its request these are the values returned at
registration, the identity is not 0, and the request is exactly those six
values. -/
theorem unregistration_request (p : Proxy) (conn : ClientConnection) (rpc : Rpc) :
    (p.destroy conn rpc).request =
      p.send.data ++ [.int p.saftlib_object_id, .int 0, .int 0,
        .int p.saftlib_object_id, .int p.client_id, .int p.signal_group_id] ∧
    p.quit = p.send.data ++ [.int p.saftlib_object_id, .int 0, .int 1] ∧
    (∀ object_path conn0 rpc0 identity client_id signal_group_id rest,
      rpc0.receive_polled.result > 0 → rpc0.receive_polled.revents &&& POLLIN ≠ 0 →
      rpc0.message = some (.int identity :: .int client_id :: .int signal_group_id :: rest) →
      (Proxy.new object_path conn0 rpc0).written ≠ none →
      (Proxy.new object_path conn0 rpc0).result = .ok p →
      identity ≠ 0 ∧
      (p.destroy conn rpc).request =
        [.int identity, .int 0, .int 0, .int identity, .int client_id,
          .int signal_group_id]) := by
  refine ⟨by simp [Proxy.destroy, Serializer.put], by simp [Proxy.quit, Serializer.put], ?_⟩
  intro object_path conn0 rpc0 identity client_id signal_group_id rest hp hin hm hw hok
  have hr : (Proxy.new object_path conn0 rpc0).result =
      if identity = 0 then .error (.not_found object_path)
      else .ok { saftlib_object_id := identity, client_id := client_id,
                 signal_group_id := signal_group_id,
                 send := (conn0.send ((Serializer.put { data := [] } (.int 0)).put
                   (.string object_path)) rpc0.send_timeout rpc0.send_polled).serdes,
                 received := { data := rest } } := by
    simp [Proxy.new, ClientConnection.receive, hp, hin, hm, Deserializer.read_from,
      Deserializer.get_int]
  have hsend : (conn0.send ((Serializer.put { data := [] } (.int 0)).put
      (.string object_path)) rpc0.send_timeout rpc0.send_polled).serdes = { data := [] } := by
    simp only [Proxy.new, ClientConnection.send] at hw ⊢
    split_ifs at hw ⊢ <;> simp_all [Serializer.write_to]
  rw [hr] at hok
  by_cases hid : identity = 0
  · simp [hid] at hok
  · simp only [hid, if_false, Except.ok.injEq] at hok
    subst hok
    have hdata := congrArg Serializer.data hsend
    simp only [Serializer.put, List.nil_append, List.cons_append] at hdata
    exact ⟨hid, by simp [Proxy.destroy, Serializer.put, hdata]⟩

/-- The amended C17 on the example Proxy. -/
theorem unregistration_request_witness :
    (exProxy.destroy exConn (exRpc [.bool true])).request =
      [.int 7, .int 0, .int 0, .int 7, .int 1, .int 1] ∧
    exProxy.quit = [.int 7, .int 0, .int 1] :=
  ⟨(unregistration_request exProxy exConn (exRpc [.bool true])).1,
    (unregistration_request exProxy exConn (exRpc [.bool true])).2.1⟩

/-- C19, the code at the failing inputs: when every `poll` fails with -1,
`wait_for_signal` never returns, whatever the fuel, and likewise when the peer
has closed the socket and every read fails; when only the first `poll` fails,
it returns -1 after two polls, the second one a drain poll. -/
theorem wait_for_signal_drains_after_error :
    (∀ fuel, exGroup.wait_for_signal exNetDown fuel 100 = none) ∧
    (∀ fuel, exGroup.wait_for_signal exNetClosed fuel 100 = none) ∧
    exGroup.wait_for_signal (exNetFailing 1) 5 100 =
      some (.returned (-1) { exGroup with polls := 2 }) := by
  refine ⟨?_, ?_, by decide⟩
  · intro fuel
    simp only [SignalGroup.wait_for_signal, SignalGroup.wait_for_one_signal, exNetDown]
    simp only [gt_iff_lt, Int.reduceNeg, Int.reduceLT, if_false, ne_eq, Int.reduceEq,
      not_false_eq_true, if_true]
    have := drain_exNetDown fuel
      { exGroup with polls := exGroup.polls + 1,
                     pfd := { exGroup.pfd with revents := 0 } }
    simp only [exNetDown] at this
    rw [this]
  · intro fuel
    obtain ⟨sg1, h1⟩ := wait_for_one_signal_exNetClosed exGroup 100
    simp only [SignalGroup.wait_for_signal, h1]
    simp only [ne_eq, Int.reduceNeg, Int.reduceEq, not_false_eq_true, if_true]
    rw [drain_exNetClosed]

/-- C21 as stated fails: when the `poll` reports the signal socket hung up and
not readable, `assert(false)` fails and nothing is returned; and when it
reports it hung up and readable and the last signal is read, the signal is
dispatched to the Proxy of object 7 and then `assert(false)` fails. -/
theorem hangup_fails_assertion :
    (exGroup.wait_for_one_signal exNetHangup (-1)).result = none ∧
    exGroup.wait_for_one_signal exNetHangup (-1) =
      .assertion_failed { exGroup with polls := 1, pfd := { exGroup.pfd with revents := POLLHUP } } ∧
    (exGroup.wait_for_one_signal exNetLastSignal (-1)).result = none ∧
    (∃ sg, exGroup.wait_for_one_signal exNetLastSignal (-1) = .assertion_failed sg ∧
      sg.dispatched = [{ proxy := 100, interface := 3, payload := [.string "x"] }]) := by
  refine ⟨by decide, by decide, by decide, ?_⟩
  exact ⟨(exGroup.wait_for_one_signal exNetLastSignal (-1)).group, by decide, by decide⟩

/-- C21, amended: when the `poll` of `wait_for_one_signal` reports hangup, the
function returns to its caller only when the socket is reported readable too
and reading the message fails, and then it returns -1; when the socket is not
reported readable, and when a message that begins with an identity and an
interface number is read, which is dispatched first, `assert(false)` fails. -/
theorem hangup_outcome (net : Net) (sg : SignalGroup) (timeout_ms : Int)
    (hres : (net.poll sg.polls).result > 0)
    (hup : (net.poll sg.polls).revents &&& POLLHUP ≠ 0) :
    (∀ result sg1, sg.wait_for_one_signal net timeout_ms = .returned result sg1 →
      result = -1 ∧ (net.poll sg.polls).revents &&& POLLIN ≠ 0 ∧
        net.message sg.polls = none) ∧
    ((net.poll sg.polls).revents &&& POLLIN ≠ 0 → net.message sg.polls = none →
      ∃ sg1, sg.wait_for_one_signal net timeout_ms = .returned (-1) sg1 ∧
        sg1.dispatched = sg.dispatched) ∧
    ((net.poll sg.polls).revents &&& POLLIN = 0 →
      ∃ sg1, sg.wait_for_one_signal net timeout_ms = .assertion_failed sg1 ∧
        sg1.dispatched = sg.dispatched) ∧
    (∀ identity interface_no payload, (net.poll sg.polls).revents &&& POLLIN ≠ 0 →
      net.message sg.polls = some (.int identity :: .int interface_no :: payload) →
      ∃ sg1, sg.wait_for_one_signal net timeout_ms = .assertion_failed sg1 ∧
        sg1 = dispatchSignal net identity interface_no sg.proxies
          { sg with polls := sg.polls + 1,
                    pfd := { sg.pfd with revents := (net.poll sg.polls).revents },
                    received := { data := payload } }) := by
  refine ⟨?_, ?_, ?_, ?_⟩
  · intro result sg1 h
    by_cases hin : (net.poll sg.polls).revents &&& POLLIN ≠ 0
    · cases hm : net.message sg.polls with
      | none =>
        simp [SignalGroup.wait_for_one_signal, hres, hin, hm, Deserializer.read_from] at h
        exact ⟨h.1.symm, hin, rfl⟩
      | some m =>
        exfalso
        simp only [SignalGroup.wait_for_one_signal, hres, hin, hm, Deserializer.read_from,
          if_true, ne_eq, not_false_eq_true, Bool.not_true, Bool.false_eq_true, if_false] at h
        split at h
        · rename_i id iface _ _
          have hp := (dispatchSignal_spec net id iface sg.proxies
            { sg with polls := sg.polls + 1,
                      pfd := { sg.pfd with revents := (net.poll sg.polls).revents },
                      received := (Deserializer.get_int
                        (Deserializer.get_int { data := m }).2).2 }).1
          simp only [hangupCheck, hp, hup, ne_eq, not_false_eq_true, if_true] at h
          exact Waited.noConfusion h
        · exact Waited.noConfusion h
    · exfalso
      simp only [SignalGroup.wait_for_one_signal, hres, hin, if_true, if_false, hangupCheck,
        hup, ne_eq, not_false_eq_true] at h
      exact Waited.noConfusion h
  · intro hin hm
    refine ⟨{ sg with polls := sg.polls + 1,
                      pfd := { sg.pfd with revents := (net.poll sg.polls).revents } }, ?_, rfl⟩
    simp [SignalGroup.wait_for_one_signal, hres, hin, hm, Deserializer.read_from]
  · intro hin
    refine ⟨{ sg with polls := sg.polls + 1,
                      pfd := { sg.pfd with revents := (net.poll sg.polls).revents } }, ?_, rfl⟩
    simp [SignalGroup.wait_for_one_signal, hres, hin, hangupCheck, hup]
  · intro identity interface_no payload hin hm
    refine ⟨_, ?_, rfl⟩
    have hp := (dispatchSignal_spec net identity interface_no sg.proxies
      { sg with polls := sg.polls + 1,
                pfd := { sg.pfd with revents := (net.poll sg.polls).revents },
                received := { data := payload } }).1
    simp [SignalGroup.wait_for_one_signal, hres, hin, hm, Deserializer.read_from,
      Deserializer.get_int, hangupCheck, hp, hup]

/-- C21, amended, on the examples: a closed socket on which the read fails gives
-1, a hung-up socket that is not readable fails the assertion. -/
theorem hangup_outcome_witness :
    (∃ sg1, exGroup.wait_for_one_signal exNetClosed (-1) = .returned (-1) sg1 ∧
      sg1.dispatched = exGroup.dispatched) ∧
    (∃ sg1, exGroup.wait_for_one_signal exNetHangup (-1) = .assertion_failed sg1 ∧
      sg1.dispatched = exGroup.dispatched) :=
  ⟨(hangup_outcome exNetClosed exGroup (-1) (by decide) (by decide)).2.1 (by decide) rfl,
    (hangup_outcome exNetHangup exGroup (-1) (by decide) (by decide)).2.2.1 (by decide)⟩

/-- C22, the code at the failing inputs: in the `Proxy` constructor, in the
destructor and in `quit` the calling thread locks `m_client_socket` and then
calls `send`, whose own `lock_guard` locks the same mutex again while the
thread owns it, before any `poll` is made; each of `send` and `receive` by
itself runs to its end, and the constructor holds three lock operations on the
mutex, not one. -/
theorem proxy_relocks_client_socket :
    runSteps Proxy.new_steps [] [] = .relocked .m_client_socket [.lock .m_client_socket] ∧
    runSteps Proxy.destroy_steps [] [] = .relocked .m_client_socket [.lock .m_client_socket] ∧
    runSteps Proxy.quit_steps [] [] = .relocked .m_client_socket [.lock .m_client_socket] ∧
    runSteps ClientConnection.send_steps [] [] = .completed ClientConnection.send_steps ∧
    runSteps ClientConnection.receive_steps [] [] =
      .completed ClientConnection.receive_steps ∧
    (Proxy.new_steps.filter (fun s => decide (s = .lock .m_client_socket))).length = 3 := by
  decide


/-- C16, the code at the failing input: the `Proxy` constructor locks
`m_client_socket` and calls `send`, whose `lock_guard` locks the same mutex
again; where that blocks, as it usually does, the constructor is blocked for
ever on `m_client_socket` for every object path, connection and network,
before it polls, writes or reads anything, also when the reply `(7, 1, 1)` is
waiting; only where the second lock is granted does it read the reply and
return the Proxy of object 7. -/
theorem constructor_blocks_before_reply (object_path : String) (conn : ClientConnection)
    (rpc : Rpc) :
    locked.Proxy.new .blocks [] object_path conn rpc = .blocked .m_client_socket ∧
    locked.Proxy.new .blocks [] "/svc/foo" exConn (exRpc [.int 7, .int 1, .int 1]) =
      .blocked .m_client_socket ∧
    (locked.Proxy.new .blocks [] "/svc/foo" exConn (exRpc [.int 7, .int 1, .int 1])).value.isNone =
      true ∧
    locked.Proxy.new .granted [] object_path conn rpc =
      .returned (Proxy.new object_path conn rpc) ∧
    (Proxy.new "/svc/foo" exConn (exRpc [.int 7, .int 1, .int 1])).result.toOption.map
      Proxy.get_saftlib_object_id = some 7 :=
  ⟨rfl, rfl, rfl, rfl, by decide⟩

/-- C18 as stated fails: with the reply `false` to the unregistration, the
destructor does not complete where the second lock of `m_client_socket` blocks,
and fails `assert(result)` where it is granted. -/
theorem teardown_fails_on_false :
    locked.Proxy.destroy .blocks [] exProxy exConn (exRpc [.bool false]) =
      .blocked .m_client_socket ∧
    (locked.Proxy.destroy .granted [] exProxy exConn (exRpc [.bool false])).value.map
      (fun d => d.outcome) = some .assertion_failed := by
  decide

/-- C18, amended: when the destructor reads the reply to the unregistration, it
completes without an assertion failure if the reply is `true`, and
`assert(result)` fails if the reply is `false`. -/
theorem teardown_asserts_reply (p : Proxy) (conn : ClientConnection) (rpc : Rpc) (b : Bool)
    (rest : List Value) (hres : rpc.receive_polled.result > 0)
    (hin : rpc.receive_polled.revents &&& POLLIN ≠ 0)
    (hm : rpc.message = some (.bool b :: rest)) :
    (locked.Proxy.destroy .granted [] p conn rpc).value.map (fun d => d.outcome) =
      some (if b then .completed else .assertion_failed) := by
  cases b <;>
    simp [locked.Proxy.destroy, locked.Proxy.exchange, locked.ClientConnection.send,
      locked.ClientConnection.receive, lock_guard, Locking.value,
      ClientConnection.receive, hres, hin, hm, Deserializer.read_from, Deserializer.get_bool]

/-- C18, amended, on the example: with the reply `true` the destructor completes. -/
theorem teardown_asserts_reply_witness :
    (locked.Proxy.destroy .granted [] exProxy exConn (exRpc [.bool true])).value.map
      (fun d => d.outcome) = some (if true then .completed else .assertion_failed) :=
  teardown_asserts_reply exProxy exConn (exRpc [.bool true]) true [] (by decide) (by decide) rfl

/-- C20 as stated fails: when the `poll` reports the socket readable and hung
up and the signal read is for object 9, for which no Proxy is registered,
nothing is dispatched, and no result is returned: `assert(false)` fails. -/
theorem unknown_identity_on_hangup :
    (∀ p ∈ exGroup.proxies, p.saftlib_object_id ≠ 9) ∧
    (exGroup.wait_for_one_signal exNetUnknownClosed (-1)).result = none ∧
    (exGroup.wait_for_one_signal exNetUnknownClosed (-1)).group.dispatched = [] ∧
    exGroup.wait_for_one_signal exNetUnknownClosed (-1) =
      .assertion_failed (exGroup.wait_for_one_signal exNetUnknownClosed (-1)).group := by
  decide

/-- C20, amended: when `wait_for_one_signal` reads a message that begins with
`(identity, interface_no)`, it calls `signal_dispatch(interface_no, ...)` on the
registered proxies whose `saftlib_object_id` is `identity`, in their order, the
first of them with the payload that follows the two numbers, and on no other
Proxy; when no registered Proxy has that identity nothing is dispatched; after
that the result of `poll` is returned when the `poll` did not report hangup,
and `assert(false)` fails when it did. -/
theorem signal_demultiplexing (net : Net) (sg : SignalGroup) (timeout_ms : Int)
    (identity interface_no : Int) (payload : List Value)
    (hp : (net.poll sg.polls).result > 0)
    (hin : (net.poll sg.polls).revents &&& POLLIN ≠ 0)
    (hm : net.message sg.polls = some (.int identity :: .int interface_no :: payload)) :
    ∃ sg1 l, sg.wait_for_one_signal net timeout_ms = hangupCheck (net.poll sg.polls).result sg1 ∧
      sg1.pfd.revents = (net.poll sg.polls).revents ∧
      sg1.dispatched = sg.dispatched ++ l ∧
      l.map (fun d => (d.proxy, d.interface)) =
        (sg.proxies.filter (fun p => decide (p.saftlib_object_id = identity))).map
          (fun p => (p.addr, interface_no)) ∧
      (∀ d, l.head? = some d → d.payload = payload) ∧
      ((∀ p ∈ sg.proxies, p.saftlib_object_id ≠ identity) → l = []) ∧
      ((net.poll sg.polls).revents &&& POLLHUP = 0 →
        sg.wait_for_one_signal net timeout_ms = .returned (net.poll sg.polls).result sg1) ∧
      ((net.poll sg.polls).revents &&& POLLHUP ≠ 0 →
        sg.wait_for_one_signal net timeout_ms = .assertion_failed sg1) := by
  obtain ⟨h1, _, _, l, h4, h5, h6⟩ := dispatchSignal_spec net identity interface_no sg.proxies
    { sg with polls := sg.polls + 1,
              pfd := { sg.pfd with revents := (net.poll sg.polls).revents },
              received := { data := payload } }
  refine ⟨_, l, ?_, ?_, h4, h5, h6, ?_, ?_, ?_⟩
  · simp [SignalGroup.wait_for_one_signal, hp, hin, hm, Deserializer.read_from,
      Deserializer.get_int]
  · rw [h1]
  · intro hnone
    have hf : sg.proxies.filter (fun p => decide (p.saftlib_object_id = identity)) = [] := by
      simp only [List.filter_eq_nil_iff, decide_eq_true_eq]
      exact hnone
    rw [hf] at h5
    simpa using h5
  · intro hhup
    simp [SignalGroup.wait_for_one_signal, hp, hin, hm, Deserializer.read_from,
      Deserializer.get_int, hangupCheck, h1, hhup]
  · intro hhup
    simp [SignalGroup.wait_for_one_signal, hp, hin, hm, Deserializer.read_from,
      Deserializer.get_int, hangupCheck, h1, hhup]

/-- C20, amended, on the example group: the signal for object 7 reaches the
Proxy at address 100 and not the Proxy of object 8. -/
theorem signal_demultiplexing_witness :
    ∃ sg1 l, exGroup.wait_for_one_signal exNetSignal 100 = hangupCheck 1 sg1 ∧
      sg1.dispatched = l ∧
      l.map (fun d => (d.proxy, d.interface)) = [(100, 3)] ∧
      (∀ d, l.head? = some d → d.payload = [.string "x"]) := by
  obtain ⟨sg1, l, h1, _, h3, h4, h5, _⟩ := signal_demultiplexing exNetSignal exGroup 100 7 3
    [.string "x"] (by decide) (by decide) rfl
  exact ⟨sg1, l, h1, by simpa [exGroup] using h3, by simpa [exGroup] using h4, h5⟩


end mini_saftlib

namespace saft_mcbm_ro

/-! ## Lemmas on the snoop tool -/

/-- Shifting right distributes over the bitwise and. -/
theorem shiftRight_land (a b n : Nat) : (a &&& b) >>> n = (a >>> n) &&& (b >>> n) := by
  apply Nat.eq_of_testBit_eq
  intro i
  simp

/-- The event number extracted from an identifier depends only on the part of
it that `snoopMask` keeps. -/
theorem uEventNb_of_masked (id c : Nat) (h : id &&& snoopMask = c) :
    uEventNb id = uEventNb c := by
  have hm : snoopMask >>> 36 = 0xFFFFFFF := by decide
  have hk : (0xFFFFFFF : Nat) &&& 0xfff = 0xfff := by decide
  have h1 : (id >>> 36) &&& 0xfff = ((id &&& snoopMask) >>> 36) &&& 0xfff := by
    rw [shiftRight_land, hm, Nat.land_assoc, hk]
  unfold uEventNb
  rw [h1, h]

/-! ## The claim on the snoop tool -/

/-- C23: `snoopMask` is `0xFFFFFFF000000000`, and for every event identifier
whose masked value is the identifier of one of the five subscribed conditions
the event number that `on_action` extracts is 46, 51, 78, 32 or 55 in the order
ExtStart, ExtStop, ExtStopSlow, CycleStart, CycleStop, so the `switch` takes a
labelled case. -/
theorem snoop_ids_decode (id : Nat) :
    snoopMask = 0xFFFFFFF000000000 ∧
    (id &&& snoopMask = snoopIdExtStart →
      uEventNb id = 46 ∧ on_action id = some " => EVT_EXTR_START_SLOW ") ∧
    (id &&& snoopMask = snoopIdExtStop →
      uEventNb id = 51 ∧ on_action id = some " => EVT_EXTR_END        ") ∧
    (id &&& snoopMask = snoopIdExtStopSlow →
      uEventNb id = 78 ∧ on_action id = some " => EVT_EXTR_STOP_SLOW  ") ∧
    (id &&& snoopMask = snoopIdCycleStart →
      uEventNb id = 32 ∧ on_action id = some " => EVT_START_CYCLE     ") ∧
    (id &&& snoopMask = snoopIdCycleStop →
      uEventNb id = 55 ∧ on_action id = some " => EVT_END_CYCLE       ") ∧
    (∀ c ∈ subscribed, id &&& snoopMask = c → (on_action id).isSome = true) := by
  have e1 : uEventNb snoopIdExtStart = 46 := by decide
  have e2 : uEventNb snoopIdExtStop = 51 := by decide
  have e3 : uEventNb snoopIdExtStopSlow = 78 := by decide
  have e4 : uEventNb snoopIdCycleStart = 32 := by decide
  have e5 : uEventNb snoopIdCycleStop = 55 := by decide
  have c1 : id &&& snoopMask = snoopIdExtStart →
      uEventNb id = 46 ∧ on_action id = some " => EVT_EXTR_START_SLOW " := by
    intro h
    have hn := (uEventNb_of_masked id _ h).trans e1
    exact ⟨hn, by simp [on_action, hn]⟩
  have c2 : id &&& snoopMask = snoopIdExtStop →
      uEventNb id = 51 ∧ on_action id = some " => EVT_EXTR_END        " := by
    intro h
    have hn := (uEventNb_of_masked id _ h).trans e2
    exact ⟨hn, by simp [on_action, hn]⟩
  have c3 : id &&& snoopMask = snoopIdExtStopSlow →
      uEventNb id = 78 ∧ on_action id = some " => EVT_EXTR_STOP_SLOW  " := by
    intro h
    have hn := (uEventNb_of_masked id _ h).trans e3
    exact ⟨hn, by simp [on_action, hn]⟩
  have c4 : id &&& snoopMask = snoopIdCycleStart →
      uEventNb id = 32 ∧ on_action id = some " => EVT_START_CYCLE     " := by
    intro h
    have hn := (uEventNb_of_masked id _ h).trans e4
    exact ⟨hn, by simp [on_action, hn]⟩
  have c5 : id &&& snoopMask = snoopIdCycleStop →
      uEventNb id = 55 ∧ on_action id = some " => EVT_END_CYCLE       " := by
    intro h
    have hn := (uEventNb_of_masked id _ h).trans e5
    exact ⟨hn, by simp [on_action, hn]⟩
  refine ⟨by decide, c1, c2, c3, c4, c5, ?_⟩
  intro c hc h
  simp only [subscribed, List.mem_cons, List.mem_singleton, List.not_mem_nil, or_false] at hc
  rcases hc with rfl | rfl | rfl | rfl | rfl
  · rw [(c1 h).2]; rfl
  · rw [(c2 h).2]; rfl
  · rw [(c3 h).2]; rfl
  · rw [(c4 h).2]; rfl
  · rw [(c5 h).2]; rfl

end saft_mcbm_ro
